import Mathlib

/-!
# odhcp6c: the ubus notification encoders of `src/ubus.c`

The encoders of `ubus.c` read binary state buffers and build one blobmsg
document by calling the libubox `blobmsg_*` functions on the global buffer `b`.
An encoder is embedded as the sequence of `blobmsg_*` calls it issues, in
order, on the path where every `blobmsg_alloc_string_buffer` succeeds.  The
only other exit of an encoder is `CHECK_ALLOC`, which returns
`UBUS_STATUS_NO_MEMORY` straight after a failed allocation, so the call
sequence of a failing run is a prefix of the sequence given here.

`blob_parse` reads a call sequence back as the document it builds, when the
opens and closes of arrays and tables are properly nested.
-/

set_option autoImplicit false

namespace Odhcp6c

/-! ## Bytes and strings -/

/-- One `uint8_t`. -/
abbrev Byte := Fin 256

/-- The byte holding `n` (reduced modulo 256). -/
def byte (n : Nat) : Byte := ⟨n % 256, Nat.mod_lt n (by decide)⟩

/-- Big-endian 16-bit value of two bytes, `hi << 8 | lo`. -/
def be16 (hi lo : Byte) : Nat := hi.val * 256 + lo.val

/-- Big-endian 32-bit value of four bytes in memory order, what `ntohl` yields
for a field stored in network byte order. -/
def be32 (b0 b1 b2 b3 : Byte) : Nat :=
  ((b0.val * 256 + b1.val) * 256 + b2.val) * 256 + b3.val

/-- The C string held by a character buffer: the characters before the first NUL. -/
def cstr : List Byte → List Byte
  | [] => []
  | c :: cs => if c.val = 0 then [] else c :: cstr cs

/-- The characters of a byte string. -/
def chars (bs : List Byte) : String := String.mk (bs.map fun b => Char.ofNat b.val)

/-- What a string attribute holds.  `ntop6 a` and `ntop4 a` stand for the text
that `inet_ntop(AF_INET6, a, ..)` and `inet_ntop(AF_INET, a, ..)` write. -/
inductive Text
  | lit (s : String)
  | ntop6 (a : List Byte)
  | ntop4 (a : List Byte)
deriving DecidableEq, Repr

/-! ## The blobmsg interface -/

/-- One call on the blob buffer `b`.  `string_buffer` is the sequence
`blobmsg_alloc_string_buffer`, fill, `blobmsg_add_string_buffer`; a `NULL` name
is the empty name. -/
inductive Call
  | open_array (name : String)
  | close_array
  | open_table (name : String)
  | close_table
  | add_u8 (name : String) (v : Nat)
  | add_u16 (name : String) (v : Nat)
  | add_u32 (name : String) (v : Nat)
  | add_string (name : String) (s : String)
  | string_buffer (name : String) (t : Text)
deriving DecidableEq, Repr

/-- A scalar value of the document. -/
inductive Val
  | u8 (n : Nat)
  | u16 (n : Nat)
  | u32 (n : Nat)
  | str (t : Text)
deriving DecidableEq, Repr

/-- A named scalar attribute. -/
structure Field where
  name : String
  val : Val
deriving DecidableEq, Repr

/-- An element of an array: a scalar or a table of scalars. -/
inductive Elem
  | item (f : Field)
  | table (name : String) (fields : List Field)
deriving DecidableEq, Repr

/-- A top-level attribute of the document: a scalar or an array. -/
inductive Attr
  | field (f : Field)
  | array (name : String) (elems : List Elem)
deriving DecidableEq, Repr

/-- The structured document: its top-level attributes in order. -/
abbrev Document := List Attr

/-- Where the next attribute goes: at top level, in an open array, or in an
open table of an open array. -/
inductive Cursor
  | top (doc : Document)
  | in_array (doc : Document) (name : String) (elems : List Elem)
  | in_table (doc : Document) (name : String) (elems : List Elem)
      (tname : String) (fields : List Field)
deriving DecidableEq, Repr

/-- The attribute a scalar call adds. -/
def Call.field : Call → Option Field
  | .add_u8 n v => some ⟨n, .u8 v⟩
  | .add_u16 n v => some ⟨n, .u16 v⟩
  | .add_u32 n v => some ⟨n, .u32 v⟩
  | .add_string n s => some ⟨n, .str (.lit s)⟩
  | .string_buffer n t => some ⟨n, .str t⟩
  | _ => none

/-- Adding a scalar at the cursor. -/
def Cursor.put (f : Field) : Cursor → Cursor
  | .top doc => .top (doc ++ [.field f])
  | .in_array doc n es => .in_array doc n (es ++ [.item f])
  | .in_table doc n es t fs => .in_table doc n es t (fs ++ [f])

/-- Effect of one call on a properly nested document; `none` when an open or a
close does not match the cursor. -/
def blob_step (c : Cursor) : Call → Option Cursor
  | .open_array n =>
    match c with
    | .top doc => some (.in_array doc n [])
    | _ => none
  | .close_array =>
    match c with
    | .in_array doc n es => some (.top (doc ++ [.array n es]))
    | _ => none
  | .open_table t =>
    match c with
    | .in_array doc n es => some (.in_table doc n es t [])
    | _ => none
  | .close_table =>
    match c with
    | .in_table doc n es t fs => some (.in_array doc n (es ++ [.table t fs]))
    | _ => none
  | .add_u8 n v => some (c.put ⟨n, .u8 v⟩)
  | .add_u16 n v => some (c.put ⟨n, .u16 v⟩)
  | .add_u32 n v => some (c.put ⟨n, .u32 v⟩)
  | .add_string n s => some (c.put ⟨n, .str (.lit s)⟩)
  | .string_buffer n t => some (c.put ⟨n, .str t⟩)

/-- Effect of a call sequence from a cursor. -/
def blob_apply : Cursor → List Call → Option Cursor
  | c, [] => some c
  | c, x :: xs =>
    match blob_step c x with
    | some c1 => blob_apply c1 xs
    | none => none

/-- The document a call sequence builds from the empty buffer, when every open
is closed in nesting order. -/
def blob_parse (calls : List Call) : Option Document :=
  match blob_apply (.top []) calls with
  | some (.top doc) => some doc
  | _ => none

/-! ## The option walker -/

/-- One visited option record: `otype`, `olen` and the `olen` bytes at `odata`. -/
structure dhcpv6_option where
  otype : Nat
  olen : Nat
  odata : List Byte
deriving DecidableEq, Repr

/-- The walk of `dhcpv6_for_each_option`, at most `fuel` records. -/
def tlv_walk : Nat → List Byte → List dhcpv6_option
  | 0, _ => []
  | fuel + 1, t0 :: t1 :: l0 :: l1 :: rest =>
    if be16 l0 l1 ≤ rest.length then
      ⟨be16 t0 t1, be16 l0 l1, rest.take (be16 l0 l1)⟩ ::
        tlv_walk fuel (rest.drop (be16 l0 l1))
    else []
  | _ + 1, _ => []

/-- Modelled from the spec: the macro `dhcpv6_for_each_option` of `odhcp6c.h`,
whose text is not part of `src/`.  Spec 4.1: read a 2-byte type and a 2-byte
length, both big-endian, then that many value bytes; stop when fewer than 4
bytes remain or when the declared length exceeds the remaining buffer.  Every
record takes at least 4 bytes, so `start.length` records are never exceeded. -/
def dhcpv6_for_each_option (start : List Byte) : List dhcpv6_option :=
  tlv_walk start.length start

/-! ## `bin_to_blob` -/

/-- The sixteen digits of `script_hexlify`. -/
def hexdigit (n : Nat) : Char := "0123456789abcdef".toList.getD n '0'

/-- Modelled from the spec: `script_hexlify` of `script.c`, which is not part
of `src/`.  Spec 4.6: the lowercase hexadecimal encoding of the raw bytes, two
digits per byte, high nibble first. -/
def script_hexlify : List Byte → List Char
  | [] => []
  | b :: bs => hexdigit (b.val / 16) :: hexdigit (b.val % 16) :: script_hexlify bs

/-- `snprintf(name, size, ..)`: at most `size - 1` characters of the formatted
text are kept. -/
def snprintf (size : Nat) (s : String) : String := String.mk (s.data.take (size - 1))

/-- `bin_to_blob` (ubus.c:210): one string attribute per visited option. -/
def bin_to_blob (opts : List Byte) : List Call :=
  (dhcpv6_for_each_option opts).map fun o =>
    Call.string_buffer (snprintf 14 ("OPTION_" ++ toString o.otype))
      (.lit (String.mk (script_hexlify o.odata)))

/-! ## Wire records, as the claims describe them -/

/-- A TLV record: its 16-bit type and its value bytes. -/
structure TlvRecord where
  type : Nat
  value : List Byte
deriving DecidableEq, Repr

/-- A record that the 16-bit type and length fields can express. -/
def TlvRecord.wf (r : TlvRecord) : Prop := r.type < 65536 ∧ r.value.length < 65536

instance (r : TlvRecord) : Decidable r.wf := by
  unfold TlvRecord.wf
  infer_instance

/-- Wire form of a record: type and length big-endian, then the value. -/
def TlvRecord.wire (r : TlvRecord) : List Byte :=
  byte (r.type / 256) :: byte (r.type % 256) ::
    byte (r.value.length / 256) :: byte (r.value.length % 256) :: r.value

/-- Wire form of a sequence of records. -/
def tlv_wire : List TlvRecord → List Byte
  | [] => []
  | r :: rs => r.wire ++ tlv_wire rs

/-- Whether a buffer starts with a record that lies wholly inside it: four
header bytes, and a declared length that the bytes after the header cover. -/
def tlv_fits : List Byte → Bool
  | _ :: _ :: l0 :: l1 :: rest => decide (be16 l0 l1 ≤ rest.length)
  | _ => false

/-- The attribute `bin_to_blob` is claimed to emit for a record. -/
def option_field (r : TlvRecord) : Call :=
  .string_buffer ("OPTION_" ++ toString r.type) (.lit (String.mk (script_hexlify r.value)))

/-! ## `ipv6_to_blob` -/

/-- `ipv6_to_blob` (ubus.c:168): an array of the text forms of `addr[0..cnt)`,
`addr[i]` being the 16 bytes at offset `16 * i`. -/
def ipv6_to_blob (name : String) (addr : List Byte) (cnt : Nat) : List Call :=
  [.open_array name] ++
    (List.range cnt).map (fun i => Call.string_buffer "" (.ntop6 ((addr.drop (16 * i)).take 16))) ++
    [.close_array]

/-! ## `fqdn_to_blob` -/

/-- The loop of `dn_expand` with `base = src`: `msg` holds the bytes from
`base` to `end`, `p` is the read offset, `dest` the text written so far, `dend`
the bound on the text, `len` the result once a pointer has fixed it, and the
fuel is the iteration counter `i < end - base, i += 2`.  The result is the
return value and the text written before the terminating NUL. -/
def dn_expand_loop (msg : List Byte) (dend : Nat) :
    Nat → Nat → List Byte → Option Nat → Int × List Byte
  | 0, _, dest, _ => (-1, dest)
  | fuel + 1, p, dest, len =>
    if (msg.getD p 0).val &&& 0xc0 ≠ 0 then
      if p + 1 = msg.length then (-1, dest)
      else if ((msg.getD p 0).val &&& 0x3f) * 256 + (msg.getD (p + 1) 0).val ≥ msg.length then
        (-1, dest)
      else
        dn_expand_loop msg dend fuel
          (((msg.getD p 0).val &&& 0x3f) * 256 + (msg.getD (p + 1) 0).val) dest
          (some (len.getD (p + 2)))
    else if (msg.getD p 0).val ≠ 0 then
      let dest1 := if dest.length ≠ 0 then dest ++ [byte 46] else dest
      let j := (msg.getD p 0).val
      if j ≥ msg.length - (p + 1) ∨ j ≥ dend - dest1.length then (-1, dest1)
      else dn_expand_loop msg dend fuel (p + 1 + j) (dest1 ++ (msg.drop (p + 1)).take j) len
    else ((len.getD (p + 1) : Nat), dest)

/-- The C library's `dn_expand(msg, eom, src, dst, space)` (resolv.h), as musl
implements it, called as `fqdn_to_blob` calls it: with `msg = src`, so that the
message is the bytes from the current name to the end of the buffer. -/
def dn_expand (msg : List Byte) (space : Nat) : Int × List Byte :=
  if msg.length = 0 ∨ space = 0 then (-1, [])
  else dn_expand_loop msg (if space > 254 then 254 else space) ((msg.length + 1) / 2) 0 [] none

/-- The `while (fqdn < fqdn_end)` loop of `fqdn_to_blob`; `fqdn` holds the bytes
from the read pointer to `fqdn_end`.  A successful step consumes `l ≥ 1` bytes. -/
def fqdn_to_blob_loop (name : String) (buf_size : Nat) : Nat → List Byte → List Call
  | 0, _ => []
  | fuel + 1, fqdn =>
    if fqdn.length = 0 then []
    else if (dn_expand fqdn buf_size).1 < 1 then
      [.string_buffer name (.lit "")]
    else
      .string_buffer name
          (.lit (chars (cstr ((dn_expand fqdn buf_size).2.take (dn_expand fqdn buf_size).1.toNat)))) ::
        fqdn_to_blob_loop name buf_size fuel (fqdn.drop (dn_expand fqdn buf_size).1.toNat)

/-- `fqdn_to_blob` (ubus.c:184).  After a successful expansion the buffer holds
the text and its NUL, and `buf[l] = 0` is written, so the attribute holds the
C string of the first `l` characters of the text. -/
def fqdn_to_blob (name : String) (fqdn : List Byte) : List Call :=
  [.open_array name] ++
    fqdn_to_blob_loop name (if fqdn.length > 255 then 256 else fqdn.length + 1)
      fqdn.length fqdn ++
    [.close_array]

/-! ## `entry_to_blob` and `search_to_blob` -/

/-- The `enum entry_type` of ubus.c:94. -/
inductive entry_type
  | ENTRY_ADDRESS
  | ENTRY_HOST
  | ENTRY_ROUTE
  | ENTRY_PREFIX
deriving DecidableEq, Repr

/-- Modelled from the spec: `struct odhcp6c_entry` of `odhcp6c.h`, which is not
part of `src/`; the fields are those of spec 3 (Lease Entry).  Addresses are
their 16 bytes, `iaid` is its four bytes in memory order (it is stored in
network byte order and read through `ntohl`), `auxtarget` holds the `auxlen`
bytes that follow the fixed part. -/
structure odhcp6c_entry where
  router : List Byte
  auxlen : Nat
  length : Nat
  target : List Byte
  priority : Nat
  valid : Nat
  preferred : Nat
  t1 : Nat
  t2 : Nat
  iaid : Byte × Byte × Byte × Byte
  auxtarget : List Byte
deriving DecidableEq, Repr

/-- A buffer read as entries: the `struct odhcp6c_entry` at each byte offset. -/
abbrev entry_view := Nat → odhcp6c_entry

/-- `ntohl` of a 32-bit field given by its bytes in memory. -/
def ntohl (x : Byte × Byte × Byte × Byte) : Nat := be32 x.1 x.2.1 x.2.2.1 x.2.2.2

/-- `IN6_IS_ADDR_UNSPECIFIED`: every byte of the address is zero. -/
def IN6_IS_ADDR_UNSPECIFIED (a : List Byte) : Bool := a.all fun b => b.val == 0

/-- One pass of the `for` body of `entry_to_blob` (ubus.c:235-283) on entry `e`.
The table is opened first; the `continue` of line 243 leaves the body before
anything else is issued. -/
def entry_to_blob_iter (name : String) (type : entry_type) (e : odhcp6c_entry) : List Call :=
  .open_table name ::
    (if e.valid = 0 ∧ type ≠ .ENTRY_PREFIX then []
    else
      [.string_buffer "target" (.ntop6 e.target)] ++
      (if type ≠ .ENTRY_HOST then
        [.add_u8 "length" e.length] ++
        (if type = .ENTRY_ROUTE then
          (if IN6_IS_ADDR_UNSPECIFIED e.router = false then
            [.string_buffer "router" (.ntop6 e.router)]
          else []) ++
          [.add_u32 "valid" e.valid, .add_u16 "priority" e.priority]
        else
          [.add_u32 "valid" e.valid, .add_u32 "preferred" e.preferred,
            .add_u32 "t1" e.t1, .add_u32 "t2" e.t2]) ++
        (if type = .ENTRY_PREFIX ∧ ntohl e.iaid ≠ 1 then
          [.add_u32 "iaid" (ntohl e.iaid)]
        else []) ++
        (if type = .ENTRY_PREFIX ∧ e.priority ≠ 0 then
          [.string_buffer "excluded" (.ntop6 e.router),
            .add_u16 "excluded_length" e.priority]
        else [])
      else []) ++
      [.close_table])

/-- `entry_to_blob` (ubus.c:228).  `data` is the buffer read as entries, `len`
its length in bytes and `sz` is `sizeof(struct odhcp6c_entry)`, so `e[i]` is
the entry at offset `i * sz`. -/
def entry_to_blob (name : String) (data : entry_view) (len sz : Nat) (type : entry_type) :
    List Call :=
  [.open_array name] ++
    (List.range (len / sz)).flatMap (fun i => entry_to_blob_iter name type (data (i * sz))) ++
    [.close_array]

/-- The `for` loop of `search_to_blob` from byte offset `off`; the step
`odhcp6c_next_entry(e)` advances by `sz + e->auxlen` (spec 3). -/
def search_to_blob_loop (start : entry_view) (len sz : Nat) : Nat → Nat → List Call
  | 0, _ => []
  | fuel + 1, off =>
    if off < len ∧ off + sz + (start off).auxlen ≤ len then
      (if (start off).valid = 0 then []
      else [Call.string_buffer ""
        (.lit (chars (cstr ((start off).auxtarget.take (start off).auxlen))))]) ++
        search_to_blob_loop start len sz fuel (off + sz + (start off).auxlen)
    else []

/-- `search_to_blob` (ubus.c:290).  Each step advances by at least `sz`, so
`len` steps are never exceeded when `sz > 0`. -/
def search_to_blob (name : String) (start : entry_view) (len sz : Nat) : List Call :=
  [.open_array name] ++ search_to_blob_loop start len sz len 0 ++ [.close_array]

/-! ## `s46_to_blob` -/

/-- The states of `enum odhcp6c_state` that `ubus.c` reads. -/
inductive odhcp6c_state
  | STATE_SERVER_ADDR
  | STATE_DNS
  | STATE_SEARCH
  | STATE_CUSTOM_OPTS
  | STATE_SNTP_IP
  | STATE_NTP_IP
  | STATE_NTP_FQDN
  | STATE_SIP_IP
  | STATE_SIP_FQDN
  | STATE_AFTR_NAME
  | STATE_CER
  | STATE_S46_MAPT
  | STATE_S46_MAPE
  | STATE_S46_LW
  | STATE_PASSTHRU
  | STATE_IA_PD
  | STATE_IA_NA
  | STATE_RA_PREFIX
  | STATE_RA_ROUTE
  | STATE_RA_DNS
  | STATE_RA_SEARCH
deriving DecidableEq, Repr

/-- Modelled from the spec: the option code of a softwire rule record
(`DHCPV6_OPT_S46_RULE` of `odhcp6c.h`, not part of `src/`); spec 4.4 names the
record kinds, the number is the one RFC 7598 assigns. -/
def DHCPV6_OPT_S46_RULE : Nat := 89

/-- Modelled from the spec: the option code of a border-relay option
(`DHCPV6_OPT_S46_BR` of `odhcp6c.h`, spec 4.4, RFC 7598). -/
def DHCPV6_OPT_S46_BR : Nat := 90

/-- Modelled from the spec: the option code of a double-mapping-rule option
(`DHCPV6_OPT_S46_DMR` of `odhcp6c.h`, spec 4.4, RFC 7598). -/
def DHCPV6_OPT_S46_DMR : Nat := 91

/-- Modelled from the spec: the option code of a bind record
(`DHCPV6_OPT_S46_V4V6BIND` of `odhcp6c.h`, spec 4.4, RFC 7598). -/
def DHCPV6_OPT_S46_V4V6BIND : Nat := 92

/-- Modelled from the spec: the option code of a port-parameters sub-option
(`DHCPV6_OPT_S46_PORTPARAMS` of `odhcp6c.h`, spec 4.4, RFC 7598). -/
def DHCPV6_OPT_S46_PORTPARAMS : Nat := 93

/-- Modelled from the spec: `sizeof(struct dhcpv6_s46_rule)`, the fixed header
of a rule record (spec 3): `flags`, `ea_len`, `prefix4_len`, the 4-byte
`ipv4_prefix` and `prefix6_len`, followed by the variable `ipv6_prefix`. -/
def sizeof_dhcpv6_s46_rule : Nat := 8

/-- Modelled from the spec: `sizeof(struct dhcpv6_s46_v4v6bind)`, the fixed
header of a bind record: the 4-byte `ipv4_address` and `bindprefix6_len`,
followed by the variable `bind_ipv6_prefix`. -/
def sizeof_dhcpv6_s46_v4v6bind : Nat := 5

/-- Modelled from the spec: `sizeof(struct dhcpv6_s46_dmr)`, the fixed header
of a double-mapping-rule option: `dmr_prefix6_len`, followed by the prefix. -/
def sizeof_dhcpv6_s46_dmr : Nat := 1

/-- Modelled from the spec: `sizeof(struct dhcpv6_s46_portparams)` (spec 3):
`offset`, `psid_len` and the 16-bit `psid`. -/
def sizeof_dhcpv6_s46_portparams : Nat := 4

/-- `sizeof(struct in6_addr)`. -/
def sizeof_in6_addr : Nat := 16

/-- The byte count the decoder derives from a prefix length in bits
(ubus.c:358, 397, 415). -/
def prefix6len_bytes (bits : Nat) : Nat := if bits % 8 = 0 then bits / 8 else bits / 8 + 1

/-- The test that makes the decoder drop a record (ubus.c:360, 399, 417):
the byte count exceeds `sizeof(in6)` or the option is shorter than its header
plus the prefix bytes. -/
def s46_prefix_rejected (header olen prefix6len : Nat) : Bool :=
  decide (prefix6len > sizeof_in6_addr ∨ olen < header + prefix6len)

/-- A zeroed `struct in6_addr` after `memcpy(&in6, src, n)`. -/
def in6_memcpy (src : List Byte) (n : Nat) : List Byte :=
  src.take n ++ List.replicate (sizeof_in6_addr - n) 0

/-- `s46_to_blob_portparams` (ubus.c:313). -/
def s46_to_blob_portparams (data : List Byte) : List Call :=
  (dhcpv6_for_each_option data).flatMap fun o =>
    if o.otype = DHCPV6_OPT_S46_PORTPARAMS ∧ o.olen = sizeof_dhcpv6_s46_portparams then
      [.add_u8 "offset" (o.odata.getD 0 0).val,
        .add_u8 "psidlen" (o.odata.getD 1 0).val,
        .add_u16 "psid" (be16 (o.odata.getD 2 0) (o.odata.getD 3 0))]
    else []

/-- The inner walk of a rule record over the whole buffer (ubus.c:385-409):
`br` outside MAP-T, `dmr` under MAP-T.  The address printed as `dmr` is `in6`
after `memset(&in6, 0, ..)`; the inner `continue` only ends that inner pass. -/
def s46_rule_companions (state : odhcp6c_state) (data : List Byte) : List Call :=
  (dhcpv6_for_each_option data).flatMap fun o =>
    if state ≠ .STATE_S46_MAPT ∧ o.otype = DHCPV6_OPT_S46_BR ∧ o.olen = sizeof_in6_addr then
      [.string_buffer "br" (.ntop6 o.odata)]
    else if state = .STATE_S46_MAPT ∧ o.otype = DHCPV6_OPT_S46_DMR ∧
        o.olen ≥ sizeof_dhcpv6_s46_dmr then
      if s46_prefix_rejected sizeof_dhcpv6_s46_dmr o.olen
          (prefix6len_bytes (o.odata.getD 0 0).val) then []
      else
        [.string_buffer "dmr" (.ntop6 (List.replicate sizeof_in6_addr 0)),
          .add_u8 "dmrprefix6len" (o.odata.getD 0 0).val]
    else []

/-- The inner walk of a bind record over the whole buffer (ubus.c:440-447). -/
def s46_bind_companions (data : List Byte) : List Call :=
  (dhcpv6_for_each_option data).flatMap fun o =>
    if o.otype = DHCPV6_OPT_S46_BR ∧ o.olen = sizeof_in6_addr then
      [.string_buffer "br" (.ntop6 o.odata)]
    else []

/-- One pass of the outer `for` body of `s46_to_blob` (ubus.c:348-449) on the
option `o` of the buffer `data`.  The table is opened first; the `continue`s of
lines 362 and 419 leave the body without closing it. -/
def s46_to_blob_iter (state : odhcp6c_state) (type : String) (data : List Byte)
    (o : dhcpv6_option) : List Call :=
  .open_table "" ::
    (if state ≠ .STATE_S46_LW ∧ o.otype = DHCPV6_OPT_S46_RULE ∧
        o.olen ≥ sizeof_dhcpv6_s46_rule then
      if s46_prefix_rejected sizeof_dhcpv6_s46_rule o.olen
          (prefix6len_bytes (o.odata.getD 7 0).val) then []
      else
        [.string_buffer "ipv4prefix" (.ntop4 ((o.odata.drop 3).take 4)),
          .string_buffer "ipv6prefix" (.ntop6 (in6_memcpy (o.odata.drop sizeof_dhcpv6_s46_rule)
            (prefix6len_bytes (o.odata.getD 7 0).val))),
          .add_u8 "fmr" (o.odata.getD 0 0).val,
          .add_string "type" type,
          .add_u8 "ealen" (o.odata.getD 1 0).val,
          .add_u8 "prefix4len" (o.odata.getD 2 0).val,
          .add_u8 "prefix6len" (o.odata.getD 7 0).val] ++
        s46_to_blob_portparams
          (((o.odata.drop sizeof_dhcpv6_s46_rule).drop
              (prefix6len_bytes (o.odata.getD 7 0).val)).take
            (o.olen - sizeof_dhcpv6_s46_rule - prefix6len_bytes (o.odata.getD 7 0).val)) ++
        s46_rule_companions state data ++
        [.close_table]
    else if state = .STATE_S46_LW ∧ o.otype = DHCPV6_OPT_S46_V4V6BIND ∧
        o.olen ≥ sizeof_dhcpv6_s46_v4v6bind then
      if s46_prefix_rejected sizeof_dhcpv6_s46_v4v6bind o.olen
          (prefix6len_bytes (o.odata.getD 4 0).val) then []
      else
        [.string_buffer "ipv4prefix" (.ntop4 (o.odata.take 4)),
          .string_buffer "ipv6prefix" (.ntop6 (in6_memcpy
            (o.odata.drop sizeof_dhcpv6_s46_v4v6bind)
            (prefix6len_bytes (o.odata.getD 4 0).val))),
          .add_string "type" type,
          .add_u8 "prefix4len" 32,
          .add_u8 "prefix6len" (o.odata.getD 4 0).val] ++
        s46_to_blob_portparams
          (((o.odata.drop sizeof_dhcpv6_s46_v4v6bind).drop
              (prefix6len_bytes (o.odata.getD 4 0).val)).take
            (o.olen - sizeof_dhcpv6_s46_v4v6bind - prefix6len_bytes (o.odata.getD 4 0).val)) ++
        s46_bind_companions data ++
        [.close_table]
    else [.close_table])

/-- `s46_to_blob` (ubus.c:330). -/
def s46_to_blob (state : odhcp6c_state) (data : List Byte) : List Call :=
  if data.length = 0 then []
  else
    [.open_array (if state = .STATE_S46_MAPE then "MAPE"
      else if state = .STATE_S46_MAPT then "MAPT" else "LW4O6")] ++
    (dhcpv6_for_each_option data).flatMap
      (s46_to_blob_iter state
        (if state = .STATE_S46_MAPE then "map-e"
          else if state = .STATE_S46_MAPT then "map-t" else "lw4o6") data) ++
    [.close_array]

/-! ## `ubus_dhcp_event` -/

/-- The return codes `ubus.c` produces; `other` is any further code that
`ubus_notify` may return. -/
inductive ubus_status
  | UBUS_STATUS_OK
  | UBUS_STATUS_UNKNOWN_ERROR
  | UBUS_STATUS_NO_MEMORY
  | other (code : Nat)
deriving DecidableEq, Repr

/-- What `ubus_dhcp_event` reads from the rest of the program: the bus
connection and subscriber flag, the state buffers (`odhcp6c_get_state`, the
length being the length of the byte list), the entry tables read as
`struct odhcp6c_entry` with `sizeof_entry` the size of the struct, the
is-bound query, the four router-advertisement getters, the value `ubus_notify`
returns, and `room`, the number of `blobmsg_alloc_string_buffer` calls that
succeed before one returns `NULL`. -/
structure Env where
  ubus : Bool
  has_subscribers : Bool
  odhcp6c_get_state : odhcp6c_state → List Byte
  entry_at : odhcp6c_state → entry_view
  sizeof_entry : Nat
  odhcp6c_is_bound : Bool
  ra_get_hoplimit : Nat
  ra_get_mtu : Nat
  ra_get_reachable : Nat
  ra_get_retransmit : Nat
  ubus_notify : ubus_status
  room : Nat

/-- The calls of lines 493-506, before the is-bound test. -/
def event_calls_head (env : Env) : List Call :=
  ipv6_to_blob "SERVER" (env.odhcp6c_get_state .STATE_SERVER_ADDR)
      ((env.odhcp6c_get_state .STATE_SERVER_ADDR).length / sizeof_in6_addr) ++
    ipv6_to_blob "RDNSS" (env.odhcp6c_get_state .STATE_DNS)
      ((env.odhcp6c_get_state .STATE_DNS).length / sizeof_in6_addr) ++
    ipv6_to_blob "SNTP_IP" (env.odhcp6c_get_state .STATE_SNTP_IP)
      ((env.odhcp6c_get_state .STATE_SNTP_IP).length / sizeof_in6_addr) ++
    ipv6_to_blob "NTP_IP" (env.odhcp6c_get_state .STATE_NTP_IP)
      ((env.odhcp6c_get_state .STATE_NTP_IP).length / sizeof_in6_addr) ++
    fqdn_to_blob "NTP_FQDN" (env.odhcp6c_get_state .STATE_NTP_FQDN) ++
    ipv6_to_blob "SIP_IP" (env.odhcp6c_get_state .STATE_SIP_IP)
      ((env.odhcp6c_get_state .STATE_SIP_IP).length / sizeof_in6_addr) ++
    fqdn_to_blob "DOMAINS" (env.odhcp6c_get_state .STATE_SEARCH) ++
    fqdn_to_blob "SIP_DOMAIN" (env.odhcp6c_get_state .STATE_SIP_FQDN) ++
    fqdn_to_blob "AFTR" (env.odhcp6c_get_state .STATE_AFTR_NAME) ++
    ipv6_to_blob "CER" (env.odhcp6c_get_state .STATE_CER)
      ((env.odhcp6c_get_state .STATE_CER).length / sizeof_in6_addr) ++
    s46_to_blob .STATE_S46_MAPE (env.odhcp6c_get_state .STATE_S46_MAPE) ++
    s46_to_blob .STATE_S46_MAPT (env.odhcp6c_get_state .STATE_S46_MAPT) ++
    s46_to_blob .STATE_S46_LW (env.odhcp6c_get_state .STATE_S46_LW) ++
    bin_to_blob (env.odhcp6c_get_state .STATE_CUSTOM_OPTS)

/-- The calls of lines 509-510, issued when `odhcp6c_is_bound()` holds. -/
def event_calls_bound (env : Env) : List Call :=
  entry_to_blob "PREFIXES" (env.entry_at .STATE_IA_PD)
      (env.odhcp6c_get_state .STATE_IA_PD).length env.sizeof_entry .ENTRY_PREFIX ++
    entry_to_blob "ADDRESSES" (env.entry_at .STATE_IA_NA)
      (env.odhcp6c_get_state .STATE_IA_NA).length env.sizeof_entry .ENTRY_ADDRESS

/-- The calls of lines 513-526, after the is-bound test. -/
def event_calls_tail (env : Env) : List Call :=
  entry_to_blob "RA_ADDRESSES" (env.entry_at .STATE_RA_PREFIX)
      (env.odhcp6c_get_state .STATE_RA_PREFIX).length env.sizeof_entry .ENTRY_ADDRESS ++
    entry_to_blob "RA_ROUTES" (env.entry_at .STATE_RA_ROUTE)
      (env.odhcp6c_get_state .STATE_RA_ROUTE).length env.sizeof_entry .ENTRY_ROUTE ++
    entry_to_blob "RA_DNS" (env.entry_at .STATE_RA_DNS)
      (env.odhcp6c_get_state .STATE_RA_DNS).length env.sizeof_entry .ENTRY_HOST ++
    search_to_blob "RA_DOMAINS" (env.entry_at .STATE_RA_SEARCH)
      (env.odhcp6c_get_state .STATE_RA_SEARCH).length env.sizeof_entry ++
    [.add_u32 "RA_HOPLIMIT" env.ra_get_hoplimit,
      .add_u32 "RA_MTU" env.ra_get_mtu,
      .add_u32 "RA_REACHABLE" env.ra_get_reachable,
      .add_u32 "RA_RETRANSMIT" env.ra_get_retransmit,
      .string_buffer "PASSTHRU"
        (.lit (String.mk (script_hexlify (env.odhcp6c_get_state .STATE_PASSTHRU))))]

/-- The calls `ubus_dhcp_event` issues on `b` between `blob_buf_init` and
`ubus_notify` when no allocation fails (ubus.c:493-526). -/
def event_calls (env : Env) : List Call :=
  event_calls_head env ++
    (if env.odhcp6c_is_bound then event_calls_bound env else []) ++
    event_calls_tail env

/-- Whether a call allocates a string buffer, the allocation `CHECK_ALLOC` tests. -/
def Call.allocates : Call → Bool
  | .string_buffer _ _ => true
  | _ => false

/-- The calls issued when only `room` string-buffer allocations succeed, and
whether the sequence ran to its end: the encoder returns at the first
allocation that fails, before anything is added for it. -/
def blob_alloc : Nat → List Call → List Call × Bool
  | _, [] => ([], true)
  | room, c :: cs =>
    if c.allocates then
      match room with
      | 0 => ([], false)
      | r + 1 => (c :: (blob_alloc r cs).1, (blob_alloc r cs).2)
    else (c :: (blob_alloc room cs).1, (blob_alloc room cs).2)

/-- What one run of `ubus_dhcp_event` does: the value returned, the calls issued
on `b` after `blob_buf_init`, the invocations of `ubus_notify` (the type string
and the calls that built the document handed over), and whether
`blob_buf_free` was called. -/
structure Run where
  status : ubus_status
  calls : List Call
  notified : List (String × List Call)
  freed : Bool
deriving DecidableEq, Repr

/-- `ubus_dhcp_event` (ubus.c:456). -/
def ubus_dhcp_event (env : Env) (status : String) : Run :=
  if env.ubus = false ∨ env.has_subscribers = false then
    ⟨.UBUS_STATUS_UNKNOWN_ERROR, [], [], false⟩
  else if (blob_alloc env.room (event_calls env)).2 = false then
    ⟨.UBUS_STATUS_NO_MEMORY, (blob_alloc env.room (event_calls env)).1, [], false⟩
  else if env.ubus_notify ≠ .UBUS_STATUS_OK then
    ⟨env.ubus_notify, (blob_alloc env.room (event_calls env)).1,
      [(status, (blob_alloc env.room (event_calls env)).1)], false⟩
  else
    ⟨.UBUS_STATUS_OK, (blob_alloc env.room (event_calls env)).1,
      [(status, (blob_alloc env.room (event_calls env)).1)], true⟩

/-! ## The lease-entry sub-tables, as the claims describe them -/

/-- The fields the description of the lease entry encoder lists for the
sub-table of an entry, by kind: host `target`; address `target, length, valid,
preferred, t1, t2`; route `target, length, router` (when the router is not the
all-zero address) `, valid, priority`; prefix `target, length, valid,
preferred, t1, t2, iaid` (when the host-order iaid is not 1) and
`excluded, excluded_length` (when the priority is not 0). -/
def entry_fields (type : entry_type) (e : odhcp6c_entry) : List Field :=
  match type with
  | .ENTRY_HOST => [⟨"target", .str (.ntop6 e.target)⟩]
  | .ENTRY_ADDRESS =>
    [⟨"target", .str (.ntop6 e.target)⟩, ⟨"length", .u8 e.length⟩, ⟨"valid", .u32 e.valid⟩,
      ⟨"preferred", .u32 e.preferred⟩, ⟨"t1", .u32 e.t1⟩, ⟨"t2", .u32 e.t2⟩]
  | .ENTRY_ROUTE =>
    [⟨"target", .str (.ntop6 e.target)⟩, ⟨"length", .u8 e.length⟩] ++
      (if e.router.any (fun b => b.val != 0) then [⟨"router", .str (.ntop6 e.router)⟩] else []) ++
      [⟨"valid", .u32 e.valid⟩, ⟨"priority", .u16 e.priority⟩]
  | .ENTRY_PREFIX =>
    [⟨"target", .str (.ntop6 e.target)⟩, ⟨"length", .u8 e.length⟩, ⟨"valid", .u32 e.valid⟩,
      ⟨"preferred", .u32 e.preferred⟩, ⟨"t1", .u32 e.t1⟩, ⟨"t2", .u32 e.t2⟩] ++
      (if ntohl e.iaid = 1 then [] else [⟨"iaid", .u32 (ntohl e.iaid)⟩]) ++
      (if e.priority = 0 then []
        else [⟨"excluded", .str (.ntop6 e.router)⟩, ⟨"excluded_length", .u16 e.priority⟩])

/-- A table of whole entries laid out in a buffer: entry `i` at offset `i * sz`. -/
def entry_table (sz : Nat) (es : List odhcp6c_entry) (dflt : odhcp6c_entry) : entry_view :=
  fun off => es.getD (off / sz) dflt

/-! ## Sample entries -/

/-- A sample entry: target `2001:db8::1/64`, router `fe80::1`, `valid = 3600`,
host-order iaid 1, no priority. -/
def sample_entry : odhcp6c_entry :=
  { router := [0xfe, 0x80, 0, 0, 0, 0, 0, 0, 0, 0, 0, 0, 0, 0, 0, 1]
    auxlen := 0
    length := 64
    target := [0x20, 0x01, 0x0d, 0xb8, 0, 0, 0, 0, 0, 0, 0, 0, 0, 0, 0, 1]
    priority := 0
    valid := 3600
    preferred := 1800
    t1 := 900
    t2 := 1440
    iaid := (0, 0, 0, 1)
    auxtarget := [] }

/-- The sample entry with `valid = 0`. -/
def sample_entry_invalid : odhcp6c_entry := { sample_entry with valid := 0 }

/-- The sample entry with `priority = 62`: as a prefix entry, one that carries
an excluded prefix of length 62 in `router`. -/
def sample_entry_excl : odhcp6c_entry := { sample_entry with priority := 62 }

/-! ## Sample softwire options -/

/-- A rule record (option 89) of declared length 8, the fixed header alone,
whose `prefix6_len` of 64 bits asks for 8 prefix bytes. -/
def sample_rule_short : List Byte :=
  [0, 89, 0, 8, 0, 16, 24, 192, 0, 2, 0, 64]

/-- A well-formed rule record (option 89) of declared length 10: IPv4 prefix
`192.0.2.0/24`, EA length 16, and a 16-bit IPv6 prefix `2001::/16`. -/
def sample_rule : List Byte :=
  [0, 89, 0, 10, 0, 16, 24, 192, 0, 2, 0, 16, 0x20, 0x01]

/-! ## Domain names, as the claims describe them -/

/-- Wire form of an uncompressed name: each label after its length byte, then
the zero byte that ends the name. -/
def name_wire : List (List Byte) → List Byte
  | [] => [0]
  | l :: ls => byte l.length :: l ++ name_wire ls

/-- Dotted text of a name: its labels separated by `.` (byte 46). -/
def name_text : List (List Byte) → List Byte
  | [] => []
  | [l] => l
  | l :: ls => l ++ byte 46 :: name_text ls

/-- A well-formed plain name: every label has 1 to 63 bytes, none of them NUL,
and the wire form has at most 255 bytes. -/
def plain_name (ls : List (List Byte)) : Prop :=
  (∀ l ∈ ls, 1 ≤ l.length ∧ l.length ≤ 63 ∧ ∀ b ∈ l, b.val ≠ 0) ∧ (name_wire ls).length ≤ 255

instance (ls : List (List Byte)) : Decidable (plain_name ls) := by
  unfold plain_name
  infer_instance

/-- Wire form of a sequence of names, one after the other. -/
def names_wire : List (List (List Byte)) → List Byte
  | [] => []
  | n :: ns => name_wire n ++ names_wire ns

/-- The size `fqdn_to_blob` gives its string buffers for a buffer of `len` bytes. -/
def fqdn_buf_size (len : Nat) : Nat := if len > 255 then 256 else len + 1

/-- The text `dn_expand` has written after the labels `ls`, from the text `dest`. -/
def name_text_acc (dest : List Byte) : List (List Byte) → List Byte
  | [] => dest
  | l :: ls => name_text_acc ((if dest.length ≠ 0 then dest ++ [byte 46] else dest) ++ l) ls

/-- The labels of `a.example`. -/
def name_a_example : List (List Byte) := [[97], [101, 120, 97, 109, 112, 108, 101]]

/-- The labels of `b.example`. -/
def name_b_example : List (List Byte) := [[98], [101, 120, 97, 109, 112, 108, 101]]

/-! ## Attribute names -/

/-- The name of the attribute a call creates, if it creates one. -/
def Call.name : Call → Option String
  | .open_array n => some n
  | .open_table n => some n
  | .add_u8 n _ => some n
  | .add_u16 n _ => some n
  | .add_u32 n _ => some n
  | .add_string n _ => some n
  | .string_buffer n _ => some n
  | .close_array => none
  | .close_table => none

/-- Whether a name is `PREFIXES` or `ADDRESSES`, the two lease fields. -/
def lease_name (s : String) : Bool := s == "PREFIXES" || s == "ADDRESSES"

/-- Whether a call creates an attribute named `PREFIXES` or `ADDRESSES`. -/
def Call.lease (c : Call) : Bool :=
  match c.name with
  | some s => lease_name s
  | none => false

/-- No call of the sequence creates an attribute named `PREFIXES` or `ADDRESSES`. -/
def no_lease (cs : List Call) : Bool := cs.all fun c => !c.lease

/-- The number of string buffers a call sequence allocates. -/
def alloc_count (cs : List Call) : Nat := (cs.filter Call.allocates).length

/-- A sample environment: connected, with a subscriber, every option buffer
empty, the prefix, address and router-advertisement prefix tables holding one
56-byte entry read as `sample_entry`, and room for 16 string buffers. -/
def sample_env (bound : Bool) : Env :=
  { ubus := true
    has_subscribers := true
    odhcp6c_get_state := fun s =>
      match s with
      | .STATE_IA_PD => List.replicate 56 0
      | .STATE_IA_NA => List.replicate 56 0
      | .STATE_RA_PREFIX => List.replicate 56 0
      | _ => []
    entry_at := fun _ _ => sample_entry
    sizeof_entry := 56
    odhcp6c_is_bound := bound
    ra_get_hoplimit := 64
    ra_get_mtu := 1500
    ra_get_reachable := 0
    ra_get_retransmit := 0
    ubus_notify := .UBUS_STATUS_OK
    room := 16 }

/-! ## Softwire records, as the claims describe them -/

/-- A softwire rule record: flags, EA length, IPv4 prefix length, the 4-byte
IPv4 prefix, IPv6 prefix length in bits, the IPv6 prefix bytes, and the bytes
of the nested sub-options that follow. -/
structure S46Rule where
  flags : Byte
  ea_len : Byte
  prefix4_len : Byte
  ipv4_prefix : List Byte
  prefix6_len : Byte
  ipv6_prefix : List Byte
  options : List Byte
deriving DecidableEq, Repr

/-- A well-formed rule record: a 4-byte IPv4 prefix, at most 128 prefix bits,
and exactly `ceil(prefix6_len / 8)` IPv6 prefix bytes. -/
def S46Rule.wf (r : S46Rule) : Prop :=
  r.ipv4_prefix.length = 4 ∧ r.prefix6_len.val ≤ 128 ∧
    r.ipv6_prefix.length = (r.prefix6_len.val + 7) / 8

instance (r : S46Rule) : Decidable r.wf := by
  unfold S46Rule.wf
  infer_instance

/-- The value bytes of a rule option. -/
def S46Rule.value (r : S46Rule) : List Byte :=
  r.flags :: r.ea_len :: r.prefix4_len :: (r.ipv4_prefix ++ r.prefix6_len ::
    (r.ipv6_prefix ++ r.options))

/-- The rule record as the walker hands it to the loop body. -/
def S46Rule.option (r : S46Rule) : dhcpv6_option :=
  ⟨DHCPV6_OPT_S46_RULE, r.value.length, r.value⟩

/-- A 16-byte address holding the prefix bytes followed by zero bytes. -/
def zero_padded (pfx : List Byte) : List Byte := pfx ++ List.replicate (16 - pfx.length) 0

/-- The fields a rule sub-table is claimed to begin with. -/
def S46Rule.fields (r : S46Rule) (type : String) : List Call :=
  [.string_buffer "ipv4prefix" (.ntop4 r.ipv4_prefix),
    .string_buffer "ipv6prefix" (.ntop6 (zero_padded r.ipv6_prefix)),
    .add_u8 "fmr" r.flags.val,
    .add_string "type" type,
    .add_u8 "ealen" r.ea_len.val,
    .add_u8 "prefix4len" r.prefix4_len.val,
    .add_u8 "prefix6len" r.prefix6_len.val]

/-- A softwire bind record: the 4-byte IPv4 address, the bind prefix length in
bits, the bind prefix bytes, and the bytes of the nested sub-options. -/
structure S46Bind where
  ipv4_address : List Byte
  bindprefix6_len : Byte
  bind_ipv6_prefix : List Byte
  options : List Byte
deriving DecidableEq, Repr

/-- A well-formed bind record. -/
def S46Bind.wf (r : S46Bind) : Prop :=
  r.ipv4_address.length = 4 ∧ r.bindprefix6_len.val ≤ 128 ∧
    r.bind_ipv6_prefix.length = (r.bindprefix6_len.val + 7) / 8

instance (r : S46Bind) : Decidable r.wf := by
  unfold S46Bind.wf
  infer_instance

/-- The value bytes of a bind option. -/
def S46Bind.value (r : S46Bind) : List Byte :=
  r.ipv4_address ++ r.bindprefix6_len :: (r.bind_ipv6_prefix ++ r.options)

/-- The bind record as the walker hands it to the loop body. -/
def S46Bind.option (r : S46Bind) : dhcpv6_option :=
  ⟨DHCPV6_OPT_S46_V4V6BIND, r.value.length, r.value⟩

/-- The fields a bind sub-table is claimed to begin with. -/
def S46Bind.fields (r : S46Bind) (type : String) : List Call :=
  [.string_buffer "ipv4prefix" (.ntop4 r.ipv4_address),
    .string_buffer "ipv6prefix" (.ntop6 (zero_padded r.bind_ipv6_prefix)),
    .add_string "type" type,
    .add_u8 "prefix4len" 32,
    .add_u8 "prefix6len" r.bindprefix6_len.val]

/-- The array name `s46_to_blob` uses for a mechanism. -/
def s46_name (state : odhcp6c_state) : String :=
  if state = .STATE_S46_MAPE then "MAPE" else if state = .STATE_S46_MAPT then "MAPT" else "LW4O6"

/-- The `type` string `s46_to_blob` uses for a mechanism. -/
def s46_type (state : odhcp6c_state) : String :=
  if state = .STATE_S46_MAPE then "map-e" else if state = .STATE_S46_MAPT then "map-t" else "lw4o6"

/-- The option record the walker yields for a wire record. -/
def TlvRecord.option (r : TlvRecord) : dhcpv6_option := ⟨r.type, r.value.length, r.value⟩

/-- The fields claimed for one nested sub-option of a record: `offset`,
`psidlen` and the big-endian `psid` of a port-parameters sub-option of exactly
4 bytes, nothing for any other sub-option. -/
def portparams_fields (s : TlvRecord) : List Call :=
  if s.type = DHCPV6_OPT_S46_PORTPARAMS ∧ s.value.length = 4 then
    [.add_u8 "offset" (s.value.getD 0 0).val,
      .add_u8 "psidlen" (s.value.getD 1 0).val,
      .add_u16 "psid" ((s.value.getD 2 0).val * 256 + (s.value.getD 3 0).val)]
  else []

/-- The `br` field claimed for one top-level record of the buffer: the text of
the 16-byte address of a border-relay option, nothing for any other record. -/
def br_field (s : TlvRecord) : List Call :=
  if s.type = DHCPV6_OPT_S46_BR ∧ s.value.length = 16 then
    [.string_buffer "br" (.ntop6 s.value)]
  else []

/-- A border-relay option (option 90) holding `2001:db8::1`. -/
def sample_br : List Byte :=
  [0, 90, 0, 16, 0x20, 0x01, 0x0d, 0xb8, 0, 0, 0, 0, 0, 0, 0, 0, 0, 0, 0, 1]

/-- A DMR option (option 91) holding the 96-bit prefix `64:ff9b::/96`. -/
def sample_dmr : List Byte :=
  [0, 91, 0, 13, 96, 0x00, 0x64, 0xff, 0x9b, 0, 0, 0, 0, 0, 0, 0, 0]

/-- The rule record of `sample_rule`. -/
def sample_rule_record : S46Rule :=
  { flags := 0, ea_len := 16, prefix4_len := 24, ipv4_prefix := [192, 0, 2, 0],
    prefix6_len := 16, ipv6_prefix := [0x20, 0x01], options := [] }

/-- A rule record with a port-parameters sub-option (offset 6, PSID length 8,
PSID 0x3400) after a port-parameters sub-option of the wrong length 2. -/
def sample_rule_ports : S46Rule :=
  { sample_rule_record with options := [0, 93, 0, 2, 9, 9, 0, 93, 0, 4, 6, 8, 0x34, 0x00] }

/-- A bind record: address `192.0.2.1`, bind prefix `2001:db8::/32`. -/
def sample_bind_record : S46Bind :=
  { ipv4_address := [192, 0, 2, 1], bindprefix6_len := 32,
    bind_ipv6_prefix := [0x20, 0x01, 0x0d, 0xb8], options := [] }

/-- Whether a call creates an attribute with one of the given names. -/
def Call.named (names : List String) (c : Call) : Bool :=
  match c.name with
  | some s => names.contains s
  | none => false

/-- No call of the sequence creates an attribute with one of the given names. -/
def none_named (names : List String) (cs : List Call) : Bool :=
  cs.all fun c => !c.named names

/-! ## Search-domain tables, as the claims describe them -/

/-- Entries laid out one after the other from byte offset `off`, each taking
the fixed `sz` bytes plus its `auxlen` auxiliary bytes. -/
def laid_out (start : entry_view) (sz : Nat) : Nat → List odhcp6c_entry → Bool
  | _, [] => true
  | off, e :: es => decide (start off = e) && laid_out start sz (off + sz + e.auxlen) es

/-- The bytes a run of entries takes. -/
def table_bytes (sz : Nat) : List odhcp6c_entry → Nat
  | [] => 0
  | e :: es => sz + e.auxlen + table_bytes sz es

/-- Whether an entry read at offset `off` lies wholly inside a buffer of `len`
bytes. -/
def entry_fits (start : entry_view) (len sz off : Nat) : Bool :=
  decide (off < len ∧ off + sz + (start off).auxlen ≤ len)

/-- The string claimed for a visited entry: its `auxlen` auxiliary bytes. -/
def search_string_claimed (e : odhcp6c_entry) : Call :=
  .string_buffer "" (.lit (chars (e.auxtarget.take e.auxlen)))

/-- The string of a visited entry: the C string its `auxlen` auxiliary bytes
hold, that is the bytes before the first NUL. -/
def search_string (e : odhcp6c_entry) : Call :=
  .string_buffer "" (.lit (chars (cstr (e.auxtarget.take e.auxlen))))

/-- A search-domain entry holding `lan` in 3 auxiliary bytes. -/
def sample_search_lan : odhcp6c_entry :=
  { sample_entry with auxlen := 3, auxtarget := [108, 97, 110] }

/-- A search-domain entry whose 3 auxiliary bytes are `a`, NUL, `b`. -/
def sample_search_nul : odhcp6c_entry :=
  { sample_entry with auxlen := 3, auxtarget := [97, 0, 98] }

/-- A table of two search-domain entries of 56 + 3 bytes each: `lan`, then an
entry with `valid == 0`. -/
def sample_search_table : entry_view :=
  fun off => if off = 0 then sample_search_lan else { sample_search_lan with valid := 0 }

/-! ## Top-level attributes -/

/-- Whether a call opens or closes an array. -/
def Call.is_array : Call → Bool
  | .open_array _ => true
  | .close_array => true
  | _ => false

/-- No call of the sequence opens or closes an array. -/
def no_array (cs : List Call) : Bool := cs.all fun c => !c.is_array

/-- The names of the top-level attributes a call sequence creates, in order:
the arrays it opens and the attributes it adds while no array is open
(`inside` tells whether one is open at the start). -/
def top_names : Bool → List Call → List String
  | _, [] => []
  | _, .open_array n :: cs => n :: top_names true cs
  | _, .close_array :: cs => top_names false cs
  | true, _ :: cs => top_names true cs
  | false, c :: cs =>
    match c.name with
    | some n => n :: top_names false cs
    | none => top_names false cs

/-- The name of a top-level attribute of the document. -/
def Attr.name : Attr → String
  | .field f => f.name
  | .array n _ => n

/-- The names of the top-level attributes begun so far at a cursor. -/
def Cursor.names : Cursor → List String
  | .top doc => doc.map Attr.name
  | .in_array doc n _ => doc.map Attr.name ++ [n]
  | .in_table doc n _ _ _ => doc.map Attr.name ++ [n]

/-- Whether an array is open at a cursor. -/
def Cursor.inside : Cursor → Bool
  | .top _ => false
  | _ => true

/-- The wire form of the name `a.example`. -/
def sample_fqdn : List Byte := [1, 97, 7, 101, 120, 97, 109, 112, 108, 101, 0]

/-- A sample environment with every source buffer non-empty, bound, with room
for 64 string buffers: one address in each address list, `a.example` in each
name list, a rule record with a companion option in the MAP-E and MAP-T
buffers, a bind record in the lw4o6 buffer, the custom option 99 = `AB CD`,
two pass-through bytes, and one 56-byte entry in each table. -/
def sample_env_full : Env :=
  { ubus := true
    has_subscribers := true
    odhcp6c_get_state := fun s =>
      match s with
      | .STATE_NTP_FQDN => sample_fqdn
      | .STATE_SEARCH => sample_fqdn
      | .STATE_SIP_FQDN => sample_fqdn
      | .STATE_AFTR_NAME => sample_fqdn
      | .STATE_S46_MAPE => sample_rule ++ sample_br
      | .STATE_S46_MAPT => sample_rule ++ sample_dmr
      | .STATE_S46_LW => [0, 92, 0, 9, 192, 0, 2, 1, 32, 0x20, 0x01, 0x0d, 0xb8]
      | .STATE_CUSTOM_OPTS => [0, 99, 0, 2, 0xAB, 0xCD]
      | .STATE_PASSTHRU => [0x01, 0x02]
      | .STATE_SERVER_ADDR => sample_entry.target
      | .STATE_DNS => sample_entry.target
      | .STATE_SNTP_IP => sample_entry.target
      | .STATE_NTP_IP => sample_entry.target
      | .STATE_SIP_IP => sample_entry.target
      | .STATE_CER => sample_entry.target
      | _ => List.replicate 56 0
    entry_at := fun _ _ => sample_entry
    sizeof_entry := 56
    odhcp6c_is_bound := true
    ra_get_hoplimit := 64
    ra_get_mtu := 1500
    ra_get_reachable := 0
    ra_get_retransmit := 0
    ubus_notify := .UBUS_STATUS_OK
    room := 64 }

/-- The sample environment, bound, in which no string buffer can be allocated. -/
def sample_env_no_room : Env := { sample_env true with room := 0 }

/-! # Lemmas and theorems -/

/-! ## Lemmas on the walker -/

theorem be16_byte (n : Nat) (h : n < 65536) : be16 (byte (n / 256)) (byte (n % 256)) = n := by
  simp only [be16, byte]
  omega

theorem be16_lt (hi lo : Byte) : be16 hi lo < 65536 := by
  simp only [be16]
  omega

theorem byte_val (b : Byte) : byte b.val = b := by
  apply Fin.ext
  simp only [byte]
  omega

theorem tlv_walk_fuel (f1 : Nat) : ∀ (f2 : Nat) (buf : List Byte),
    buf.length ≤ f1 → buf.length ≤ f2 → tlv_walk f1 buf = tlv_walk f2 buf := by
  induction f1 with
  | zero =>
    intro f2 buf h1 _
    have hb : buf = [] := List.length_eq_zero.mp (Nat.le_zero.mp h1)
    subst hb
    cases f2 <;> rfl
  | succ n ih =>
    intro f2 buf h1 h2
    match buf, h1, h2 with
    | [], _, _ => cases f2 <;> rfl
    | [_], _, _ => cases f2 <;> rfl
    | [_, _], _, _ => cases f2 <;> rfl
    | [_, _, _], _, _ => cases f2 <;> rfl
    | t0 :: t1 :: l0 :: l1 :: rest, h1, h2 =>
      cases f2 with
      | zero => simp at h2
      | succ m =>
        simp only [tlv_walk]
        split
        · congr 1
          apply ih
          · simp only [List.length_drop, List.length_cons] at *
            omega
          · simp only [List.length_drop, List.length_cons] at *
            omega
        · rfl

theorem walk_nofit (buf : List Byte) (h : tlv_fits buf = false) :
    dhcpv6_for_each_option buf = [] := by
  unfold dhcpv6_for_each_option
  match buf, h with
  | [], _ => rfl
  | [_], _ => rfl
  | [_, _], _ => rfl
  | [_, _, _], _ => rfl
  | t0 :: t1 :: l0 :: l1 :: rest, h =>
    simp only [tlv_fits, decide_eq_false_iff_not] at h
    simp only [List.length_cons, tlv_walk, if_neg h]

theorem walk_wire (r : TlvRecord) (hr : r.wf) (rest : List Byte) :
    dhcpv6_for_each_option (r.wire ++ rest) =
      ⟨r.type, r.value.length, r.value⟩ :: dhcpv6_for_each_option rest := by
  obtain ⟨ht, hl⟩ := hr
  unfold dhcpv6_for_each_option
  simp only [TlvRecord.wire, List.cons_append, List.length_cons]
  simp only [tlv_walk, be16_byte _ ht, be16_byte _ hl, List.length_append, Nat.le_add_right,
    if_true, List.take_left', List.drop_left']
  congr 1
  apply tlv_walk_fuel <;> omega

theorem walk_tlv_wire (rs : List TlvRecord) (hrs : ∀ r ∈ rs, r.wf) (tail : List Byte)
    (htail : tlv_fits tail = false) :
    dhcpv6_for_each_option (tlv_wire rs ++ tail) =
      rs.map fun r => ⟨r.type, r.value.length, r.value⟩ := by
  induction rs with
  | nil => simpa [tlv_wire] using walk_nofit tail htail
  | cons r rs ih =>
    simp only [tlv_wire, List.append_assoc, List.map_cons]
    rw [walk_wire r (hrs r (List.mem_cons_self _ _)), ih]
    intro x hx
    exact hrs x (List.mem_cons_of_mem _ hx)

/-- Every buffer is a run of whole records followed by bytes that do not start
a whole record. -/
theorem tlv_split (n : Nat) : ∀ buf : List Byte, buf.length ≤ n →
    ∃ (rs : List TlvRecord) (tail : List Byte),
      buf = tlv_wire rs ++ tail ∧ (∀ r ∈ rs, r.wf) ∧ tlv_fits tail = false := by
  induction n with
  | zero =>
    intro buf h
    have hb : buf = [] := List.length_eq_zero.mp (Nat.le_zero.mp h)
    exact ⟨[], [], by simp [hb, tlv_wire], by simp, rfl⟩
  | succ n ih =>
    intro buf h
    cases hf : tlv_fits buf with
    | false => exact ⟨[], buf, by simp [tlv_wire], by simp, hf⟩
    | true =>
      match buf, h, hf with
      | t0 :: t1 :: l0 :: l1 :: rest, h, hf =>
        simp only [tlv_fits, decide_eq_true_eq] at hf
        have hlen : (rest.drop (be16 l0 l1)).length ≤ n := by
          simp only [List.length_drop, List.length_cons] at *
          omega
        obtain ⟨rs, tail, hsplit, hwf, hno⟩ := ih _ hlen
        refine ⟨⟨be16 t0 t1, rest.take (be16 l0 l1)⟩ :: rs, tail, ?_, ?_, hno⟩
        · have hmin : min (be16 l0 l1) rest.length = be16 l0 l1 := Nat.min_eq_left hf
          have h0 : byte (be16 t0 t1 / 256) = t0 := by
            rw [← byte_val t0]; simp only [be16, byte]; apply Fin.ext; simp only; omega
          have h1 : byte (be16 t0 t1 % 256) = t1 := by
            rw [← byte_val t1]; simp only [be16, byte]; apply Fin.ext; simp only; omega
          have h2 : byte (be16 l0 l1 / 256) = l0 := by
            rw [← byte_val l0]; simp only [be16, byte]; apply Fin.ext; simp only; omega
          have h3 : byte (be16 l0 l1 % 256) = l1 := by
            rw [← byte_val l1]; simp only [be16, byte]; apply Fin.ext; simp only; omega
          simp only [tlv_wire, TlvRecord.wire, List.length_take, hmin, h0, h1, h2, h3,
            List.cons_append, List.append_assoc, ← hsplit, List.take_append_drop]
        · intro r hr
          rcases List.mem_cons.mp hr with rfl | hr
          · refine ⟨be16_lt _ _, ?_⟩
            simp only [List.length_take]
            have := be16_lt l0 l1
            omega
          · exact hwf r hr

/-! ## `bin_to_blob` -/

theorem snprintf_fits (size : Nat) (s : String) (h : s.length < size) : snprintf size s = s := by
  unfold snprintf
  rw [List.take_of_length_le]
  show s.data.length ≤ size - 1
  have : s.data.length = s.length := rfl
  omega

theorem option_name_fits (t : Nat) (ht : t < 65536) :
    snprintf 14 ("OPTION_" ++ toString t) = "OPTION_" ++ toString t := by
  apply snprintf_fits
  have h5 : (Nat.repr t).length ≤ 5 := Nat.repr_length t 5 (by decide) (by omega)
  have : ("OPTION_" ++ toString t).length = 7 + (Nat.repr t).length := by
    rw [String.length_append]
    rfl
  omega

theorem walk_otype_lt (fuel : Nat) : ∀ (buf : List Byte), ∀ o ∈ tlv_walk fuel buf,
    o.otype < 65536 ∧ o.olen = o.odata.length := by
  induction fuel with
  | zero => intro buf o ho; simp [tlv_walk] at ho
  | succ n ih =>
    intro buf o ho
    match buf, ho with
    | [], ho => simp [tlv_walk] at ho
    | [_], ho => simp [tlv_walk] at ho
    | [_, _], ho => simp [tlv_walk] at ho
    | [_, _, _], ho => simp [tlv_walk] at ho
    | t0 :: t1 :: l0 :: l1 :: rest, ho =>
      simp only [tlv_walk] at ho
      split at ho
      · rename_i hle
        rcases List.mem_cons.mp ho with rfl | ho
        · exact ⟨be16_lt _ _, by simp [List.length_take, Nat.min_eq_left hle]⟩
        · exact ih _ o ho
      · simp at ho

theorem bin_to_blob_eq (opts : List Byte) :
    bin_to_blob opts = (dhcpv6_for_each_option opts).map fun o =>
      option_field ⟨o.otype, o.odata⟩ := by
  unfold bin_to_blob
  apply List.map_congr_left
  intro o ho
  simp only [option_field]
  rw [option_name_fits _ (walk_otype_lt _ _ o ho).1]

theorem bin_to_blob_wire (rs : List TlvRecord) (tail : List Byte) (hrs : ∀ r ∈ rs, r.wf)
    (htail : tlv_fits tail = false) :
    bin_to_blob (tlv_wire rs ++ tail) = rs.map option_field := by
  rw [bin_to_blob_eq, walk_tlv_wire rs hrs tail htail, List.map_map]
  rfl

theorem script_hexlify_length (v : List Byte) : (script_hexlify v).length = 2 * v.length := by
  induction v with
  | nil => rfl
  | cons b bs ih => simp only [script_hexlify, List.length_cons, ih]; omega

/-- C1: for every custom-options buffer, `bin_to_blob` emits one attribute per
TLV record, in wire order, for exactly the leading records that lie wholly
inside the buffer: a buffer made of the wire forms of records `rs` followed by
bytes `tail` that do not start a whole record yields the attributes of `rs` and
nothing for `tail`; every buffer splits in this way; and a buffer shorter than
4 bytes yields no attribute. -/
theorem bin_to_blob_visits_fitting_records :
    (∀ (rs : List TlvRecord) (tail : List Byte), (∀ r ∈ rs, r.wf) → tlv_fits tail = false →
      bin_to_blob (tlv_wire rs ++ tail) = rs.map option_field) ∧
    (∀ opts : List Byte, ∃ (rs : List TlvRecord) (tail : List Byte),
      opts = tlv_wire rs ++ tail ∧ (∀ r ∈ rs, r.wf) ∧ tlv_fits tail = false ∧
      bin_to_blob opts = rs.map option_field) ∧
    (∀ opts : List Byte, opts.length < 4 → bin_to_blob opts = []) := by
  refine ⟨fun rs tail hrs htail => bin_to_blob_wire rs tail hrs htail, ?_, ?_⟩
  · intro opts
    obtain ⟨rs, tail, hsplit, hwf, hno⟩ := tlv_split opts.length opts (Nat.le_refl _)
    exact ⟨rs, tail, hsplit, hwf, hno, hsplit ▸ bin_to_blob_wire rs tail hwf hno⟩
  · intro opts hlen
    have hno : tlv_fits opts = false := by
      match opts, hlen with
      | [], _ => rfl
      | [_], _ => rfl
      | [_, _], _ => rfl
      | [_, _, _], _ => rfl
      | _ :: _ :: _ :: _ :: rest, h => simp only [List.length_cons] at h; omega
    simp only [bin_to_blob, walk_nofit opts hno, List.map_nil]

/-- Witness of C1: two whole records (types 99 and 3) followed by a truncated
third one yield exactly two attributes, and a 3-byte buffer yields none. -/
theorem bin_to_blob_visits_fitting_records_witness :
    bin_to_blob ([0, 99, 0, 2, 0xAB, 0xCD, 0, 3, 0, 0] ++ [0, 7, 0, 5, 1]) =
      [.string_buffer "OPTION_99" (.lit "abcd"), .string_buffer "OPTION_3" (.lit "")] ∧
    bin_to_blob [0, 99, 0] = [] :=
  ⟨bin_to_blob_visits_fitting_records.1 [⟨99, [0xAB, 0xCD]⟩, ⟨3, []⟩] [0, 7, 0, 5, 1]
      (by decide) (by decide),
    bin_to_blob_visits_fitting_records.2.2 [0, 99, 0] (by decide)⟩

/-- C2: every record visited by `bin_to_blob` yields an attribute named
`OPTION_<type in decimal>` (the 14-byte name buffer never truncates it) whose
value is the hexadecimal text of the value bytes: two digits per byte, high
nibble first, drawn from `0123456789abcdef`, so of length `2 * |v|`; one record
of type 99 with value `AB CD` yields exactly `OPTION_99 = "abcd"`. -/
theorem bin_to_blob_name_and_hex :
    (∀ opts : List Byte, bin_to_blob opts = (dhcpv6_for_each_option opts).map fun o =>
      Call.string_buffer ("OPTION_" ++ toString o.otype)
        (.lit (String.mk (o.odata.flatMap fun b =>
          [hexdigit (b.val / 16), hexdigit (b.val % 16)])))) ∧
    (∀ v : List Byte, (String.mk (script_hexlify v)).length = 2 * v.length ∧
      ∀ c ∈ script_hexlify v, c ∈ "0123456789abcdef".toList) ∧
    bin_to_blob [0, 99, 0, 2, 0xAB, 0xCD] = [.string_buffer "OPTION_99" (.lit "abcd")] := by
  refine ⟨?_, ?_, by decide⟩
  · intro opts
    rw [bin_to_blob_eq]
    apply List.map_congr_left
    intro o _
    simp only [option_field]
    congr 3
    induction o.odata with
    | nil => rfl
    | cons b bs ih => simp only [script_hexlify, List.flatMap_cons, List.cons_append, List.nil_append, ih]
  · intro v
    refine ⟨script_hexlify_length v, ?_⟩
    induction v with
    | nil => intro c hc; simp [script_hexlify] at hc
    | cons b bs ih =>
      intro c hc
      simp only [script_hexlify, List.mem_cons] at hc
      have hd : ∀ n, n < 16 → hexdigit n ∈ "0123456789abcdef".toList := by decide
      rcases hc with rfl | rfl | hc
      · exact hd _ (by omega)
      · exact hd _ (by omega)
      · exact ih c hc

/-! ## Prefix arithmetic of the softwire decoder -/

theorem prefix6len_bytes_ceil (bits : Nat) : prefix6len_bytes bits = (bits + 7) / 8 := by
  unfold prefix6len_bytes
  split <;> omega

theorem s46_rejected_of_gt (header olen n : Nat) (h : sizeof_in6_addr < n) :
    s46_prefix_rejected header olen n = true := by
  simp only [s46_prefix_rejected, decide_eq_true_eq]
  exact Or.inl h

theorem s46_accepted (header olen n : Nat) (h1 : n ≤ sizeof_in6_addr) (h2 : header + n ≤ olen) :
    s46_prefix_rejected header olen n = false := by
  simp only [s46_prefix_rejected, decide_eq_false_iff_not]
  omega

/-- C3: for every 8-bit prefix length `bits` the byte count the softwire
decoder derives is `ceil(bits / 8)`; for `bits ≤ 128` it is at most 16 and the
length test accepts every option that holds its header and that many prefix
bytes, so the rule, bind and DMR fields are decoded; for `129 ≤ bits` it
exceeds 16, the test rejects whatever the option length, and no field is
decoded from the rule record, the bind record or the DMR option. -/
theorem s46_prefix_bytes (bits : Nat) (hb : bits < 256) :
    (prefix6len_bytes bits = (bits + 7) / 8 ∧ bits ≤ 8 * prefix6len_bytes bits ∧
      8 * prefix6len_bytes bits < bits + 8) ∧
    (bits ≤ 128 → prefix6len_bytes bits ≤ 16 ∧
      (∀ header olen : Nat, header + prefix6len_bytes bits ≤ olen →
        s46_prefix_rejected header olen (prefix6len_bytes bits) = false) ∧
      (∀ (state : odhcp6c_state) (type : String) (data : List Byte) (o : dhcpv6_option),
        state ≠ .STATE_S46_LW → o.otype = DHCPV6_OPT_S46_RULE →
        (o.odata.getD 7 0).val = bits → sizeof_dhcpv6_s46_rule + prefix6len_bytes bits ≤ o.olen →
        Call.add_u8 "prefix6len" bits ∈ s46_to_blob_iter state type data o) ∧
      (∀ (type : String) (data : List Byte) (o : dhcpv6_option),
        o.otype = DHCPV6_OPT_S46_V4V6BIND → (o.odata.getD 4 0).val = bits →
        sizeof_dhcpv6_s46_v4v6bind + prefix6len_bytes bits ≤ o.olen →
        Call.add_u8 "prefix6len" bits ∈ s46_to_blob_iter .STATE_S46_LW type data o) ∧
      (∀ v : List Byte, v.length < 65536 → (v.getD 0 0).val = bits →
        sizeof_dhcpv6_s46_dmr + prefix6len_bytes bits ≤ v.length →
        Call.add_u8 "dmrprefix6len" bits ∈
          s46_rule_companions .STATE_S46_MAPT (TlvRecord.wire ⟨DHCPV6_OPT_S46_DMR, v⟩))) ∧
    (129 ≤ bits → 16 < prefix6len_bytes bits ∧
      (∀ header olen : Nat, s46_prefix_rejected header olen (prefix6len_bytes bits) = true) ∧
      (∀ (state : odhcp6c_state) (type : String) (data : List Byte) (o : dhcpv6_option),
        state ≠ .STATE_S46_LW → o.otype = DHCPV6_OPT_S46_RULE →
        (o.odata.getD 7 0).val = bits →
        s46_to_blob_iter state type data o = [.open_table ""] ∨
        s46_to_blob_iter state type data o = [.open_table "", .close_table]) ∧
      (∀ (type : String) (data : List Byte) (o : dhcpv6_option),
        o.otype = DHCPV6_OPT_S46_V4V6BIND → (o.odata.getD 4 0).val = bits →
        s46_to_blob_iter .STATE_S46_LW type data o = [.open_table ""] ∨
        s46_to_blob_iter .STATE_S46_LW type data o = [.open_table "", .close_table]) ∧
      (∀ v : List Byte, v.length < 65536 → (v.getD 0 0).val = bits →
        s46_rule_companions .STATE_S46_MAPT (TlvRecord.wire ⟨DHCPV6_OPT_S46_DMR, v⟩) = [])) := by
  have hceil := prefix6len_bytes_ceil bits
  refine ⟨⟨hceil, by omega, by omega⟩, ?_, ?_⟩
  · intro h128
    have h16 : prefix6len_bytes bits ≤ sizeof_in6_addr := by
      simp only [sizeof_in6_addr]; omega
    refine ⟨h16, fun header olen h => s46_accepted header olen _ h16 h, ?_, ?_, ?_⟩
    · intro state type data o hs ht hbits hlen
      have hge : o.olen ≥ sizeof_dhcpv6_s46_rule := by omega
      simp only [s46_to_blob_iter, hs, ht, hbits, hge, ne_eq, not_false_eq_true, and_self,
        if_true, s46_accepted _ _ _ h16 hlen]
      simp
    · intro type data o ht hbits hlen
      have hge : o.olen ≥ sizeof_dhcpv6_s46_v4v6bind := by omega
      have hne : DHCPV6_OPT_S46_V4V6BIND ≠ DHCPV6_OPT_S46_RULE := by decide
      simp only [s46_to_blob_iter, ht, hbits, hge, hne, ne_eq, not_true_eq_false, false_and,
        and_false, if_false, and_self, if_true, s46_accepted _ _ _ h16 hlen]
      simp
    · intro v hv hbits hlen
      have hwf : TlvRecord.wf ⟨DHCPV6_OPT_S46_DMR, v⟩ :=
        ⟨show DHCPV6_OPT_S46_DMR < 65536 by decide, hv⟩
      have hw := walk_wire ⟨DHCPV6_OPT_S46_DMR, v⟩ hwf []
      simp only [List.append_nil] at hw
      have hnil : dhcpv6_for_each_option [] = [] := rfl
      have hge : v.length ≥ sizeof_dhcpv6_s46_dmr := by omega
      have hne : DHCPV6_OPT_S46_DMR ≠ DHCPV6_OPT_S46_BR := by decide
      simp only [s46_rule_companions, hw, hnil, List.flatMap_cons, List.flatMap_nil,
        List.append_nil, hne, hbits, hge, ne_eq, not_true_eq_false, false_and, and_false,
        if_false, and_self, if_true, s46_accepted _ _ _ h16 hlen]
      simp
  · intro h129
    have h16 : sizeof_in6_addr < prefix6len_bytes bits := by
      simp only [sizeof_in6_addr]; omega
    refine ⟨h16, fun header olen => s46_rejected_of_gt header olen _ h16, ?_, ?_, ?_⟩
    · intro state type data o hs ht hbits
      by_cases hge : o.olen ≥ sizeof_dhcpv6_s46_rule
      · left
        simp only [s46_to_blob_iter, hs, ht, hbits, hge, ne_eq, not_false_eq_true, and_self,
          if_true, s46_rejected_of_gt _ _ _ h16]
      · right
        simp only [s46_to_blob_iter, hs, ht, hge, ne_eq, not_false_eq_true, and_false,
          if_false, false_and]
    · intro type data o ht hbits
      have hne : DHCPV6_OPT_S46_V4V6BIND ≠ DHCPV6_OPT_S46_RULE := by decide
      by_cases hge : o.olen ≥ sizeof_dhcpv6_s46_v4v6bind
      · left
        simp only [s46_to_blob_iter, ht, hbits, hge, hne, ne_eq, not_true_eq_false, false_and,
          and_false, if_false, and_self, if_true, s46_rejected_of_gt _ _ _ h16]
      · right
        simp only [s46_to_blob_iter, ht, hge, hne, ne_eq, not_true_eq_false, false_and,
          and_false, if_false]
    · intro v hv hbits
      have hwf : TlvRecord.wf ⟨DHCPV6_OPT_S46_DMR, v⟩ :=
        ⟨show DHCPV6_OPT_S46_DMR < 65536 by decide, hv⟩
      have hw := walk_wire ⟨DHCPV6_OPT_S46_DMR, v⟩ hwf []
      simp only [List.append_nil] at hw
      have hnil : dhcpv6_for_each_option [] = [] := rfl
      have hne : DHCPV6_OPT_S46_DMR ≠ DHCPV6_OPT_S46_BR := by decide
      by_cases hge : v.length ≥ sizeof_dhcpv6_s46_dmr
      · simp only [s46_rule_companions, hw, hnil, List.flatMap_cons, List.flatMap_nil,
          List.append_nil, hne, hbits, hge, ne_eq, not_true_eq_false, false_and, and_false,
          if_false, and_self, if_true, s46_rejected_of_gt _ _ _ h16]
      · simp only [s46_rule_companions, hw, hnil, List.flatMap_cons, List.flatMap_nil,
          List.append_nil, hne, hge, ne_eq, not_true_eq_false, false_and, and_false,
          if_false]

/-- Witness of C3: 13 bits take 2 bytes, 128 bits take 16 bytes and are
accepted in an option of 8 + 16 bytes, 129 bits take 17 bytes and are rejected
even in an option of 100 bytes. -/
theorem s46_prefix_bytes_witness :
    prefix6len_bytes 13 = 2 ∧
    s46_prefix_rejected 8 24 (prefix6len_bytes 128) = false ∧
    s46_prefix_rejected 8 100 (prefix6len_bytes 129) = true :=
  ⟨(s46_prefix_bytes 13 (by decide)).1.1,
    ((s46_prefix_bytes 128 (by decide)).2.1 (by decide)).2.1 8 24 (by decide),
    ((s46_prefix_bytes 129 (by decide)).2.2 (by decide)).2.1 8 100⟩

/-! ## Reading call sequences back as documents -/

theorem blob_apply_append (xs ys : List Call) : ∀ c : Cursor,
    blob_apply c (xs ++ ys) = (blob_apply c xs).bind fun c1 => blob_apply c1 ys := by
  induction xs with
  | nil => intro c; rfl
  | cons x xs ih =>
    intro c
    simp only [List.cons_append, blob_apply]
    cases blob_step c x with
    | none => rfl
    | some c1 => exact ih c1

theorem blob_apply_flatMap {α : Type} (f : α → List Call) (g : α → Elem) (doc : Document)
    (n : String) (l : List α) : ∀ es : List Elem,
    (∀ a ∈ l, ∀ es1 : List Elem,
      blob_apply (.in_array doc n es1) (f a) = some (.in_array doc n (es1 ++ [g a]))) →
    blob_apply (.in_array doc n es) (l.flatMap f) = some (.in_array doc n (es ++ l.map g)) := by
  induction l with
  | nil => intro es _; simp [blob_apply]
  | cons a l ih =>
    intro es h
    rw [List.flatMap_cons, blob_apply_append, h a (List.mem_cons_self _ _) es]
    simp only [Option.some_bind]
    rw [ih (es ++ [g a]) fun b hb => h b (List.mem_cons_of_mem _ hb)]
    rw [List.map_cons, List.append_assoc, List.singleton_append]

theorem blob_parse_array (n : String) (xs : List Call) (es : List Elem)
    (h : blob_apply (.in_array [] n []) xs = some (.in_array [] n es)) :
    blob_parse ([.open_array n] ++ xs ++ [.close_array]) = some [.array n es] := by
  unfold blob_parse
  have h1 : blob_apply (.top []) ([.open_array n] ++ xs ++ [.close_array]) =
      some (.top [.array n es]) := by
    rw [List.append_assoc, blob_apply_append]
    show blob_apply (.in_array [] n []) (xs ++ [.close_array]) = _
    rw [blob_apply_append, h]
    rfl
  rw [h1]

/-! ## `entry_to_blob` -/

theorem unspecified_iff (a : List Byte) :
    IN6_IS_ADDR_UNSPECIFIED a = !(a.any fun b => b.val != 0) := by
  unfold IN6_IS_ADDR_UNSPECIFIED
  induction a with
  | nil => rfl
  | cons b bs ih =>
    simp only [List.all_cons, List.any_cons, ih, Bool.not_or]
    cases h : (b.val == 0) <;> simp [bne, h]

theorem entry_iter_apply (name : String) (type : entry_type) (e : odhcp6c_entry)
    (h : e.valid ≠ 0 ∨ type = .ENTRY_PREFIX) (doc : Document) (n : String) (es : List Elem) :
    blob_apply (.in_array doc n es) (entry_to_blob_iter name type e) =
      some (.in_array doc n (es ++ [.table name (entry_fields type e)])) := by
  have hc : ¬ (e.valid = 0 ∧ type ≠ .ENTRY_PREFIX) := by
    rintro ⟨h0, hp⟩
    rcases h with h | h
    · exact h h0
    · exact hp h
  unfold entry_to_blob_iter
  rw [if_neg hc]
  cases type
  · simp [entry_fields, blob_apply, blob_step, Cursor.put]
  · simp [entry_fields, blob_apply, blob_step, Cursor.put]
  · simp only [entry_fields, unspecified_iff]
    cases hr : (e.router.any fun b => b.val != 0) <;>
      simp [blob_apply, blob_step, Cursor.put]
  · simp only [entry_fields]
    by_cases hi : ntohl e.iaid = 1 <;> by_cases hp : e.priority = 0 <;>
      simp [hi, hp, blob_apply, blob_step, Cursor.put]

theorem entry_to_blob_parse (name : String) (data : entry_view) (len sz : Nat)
    (type : entry_type)
    (h : ∀ i, i < len / sz → (data (i * sz)).valid ≠ 0 ∨ type = .ENTRY_PREFIX) :
    blob_parse (entry_to_blob name data len sz type) =
      some [.array name ((List.range (len / sz)).map fun i =>
        .table name (entry_fields type (data (i * sz))))] := by
  unfold entry_to_blob
  apply blob_parse_array
  have := blob_apply_flatMap (fun i => entry_to_blob_iter name type (data (i * sz)))
    (fun i => Elem.table name (entry_fields type (data (i * sz)))) [] name
    (List.range (len / sz)) []
    (fun i hi es1 => entry_iter_apply name type _ (h i (List.mem_range.mp hi)) [] name es1)
  simpa using this

/-- C4: for every entry kind and every table whose `len / sizeof(entry)` whole
entries all have `valid != 0`, the calls of `entry_to_blob` build one array
that holds exactly that many sub-tables, in table order, and the sub-table of
an entry holds exactly the fields listed for its kind (`entry_fields`), in
that order. -/
theorem entry_to_blob_valid_table (name : String) (data : entry_view) (len sz : Nat)
    (type : entry_type) (hvalid : ∀ i, i < len / sz → (data (i * sz)).valid ≠ 0) :
    blob_parse (entry_to_blob name data len sz type) =
      some [.array name ((List.range (len / sz)).map fun i =>
        .table name (entry_fields type (data (i * sz))))] ∧
    ((List.range (len / sz)).map fun i =>
      Elem.table name (entry_fields type (data (i * sz)))).length = len / sz :=
  ⟨entry_to_blob_parse name data len sz type fun i hi => Or.inl (hvalid i hi), by simp⟩

/-- Witness of C4: a route table of two valid entries, the second with an
all-zero router, yields two sub-tables, the second without `router`. -/
theorem entry_to_blob_valid_table_witness :
    blob_parse (entry_to_blob "RA_ROUTES"
      (entry_table 56 [sample_entry, { sample_entry with router := List.replicate 16 0 }]
        sample_entry) 112 56 .ENTRY_ROUTE) =
      some [.array "RA_ROUTES"
        [.table "RA_ROUTES" [⟨"target", .str (.ntop6 sample_entry.target)⟩,
            ⟨"length", .u8 64⟩, ⟨"router", .str (.ntop6 sample_entry.router)⟩,
            ⟨"valid", .u32 3600⟩, ⟨"priority", .u16 0⟩],
          .table "RA_ROUTES" [⟨"target", .str (.ntop6 sample_entry.target)⟩,
            ⟨"length", .u8 64⟩, ⟨"valid", .u32 3600⟩, ⟨"priority", .u16 0⟩]]] :=
  (entry_to_blob_valid_table "RA_ROUTES"
    (entry_table 56 [sample_entry, { sample_entry with router := List.replicate 16 0 }]
      sample_entry) 112 56 .ENTRY_ROUTE (by decide)).1

/-- C5 (the code at the failing input): for an address table holding an entry
with `valid == 0` followed by a valid one, `entry_to_blob` opens a table for
the first entry and never closes it, so its calls differ from those for the
table without that entry and do not form a properly nested document. -/
theorem entry_to_blob_skip_leaves_table_open :
    entry_to_blob "ADDRESSES" (entry_table 56 [sample_entry_invalid, sample_entry] sample_entry)
        112 56 .ENTRY_ADDRESS =
      [.open_array "ADDRESSES",
        .open_table "ADDRESSES",
        .open_table "ADDRESSES",
        .string_buffer "target" (.ntop6 sample_entry.target),
        .add_u8 "length" 64, .add_u32 "valid" 3600, .add_u32 "preferred" 1800,
        .add_u32 "t1" 900, .add_u32 "t2" 1440,
        .close_table,
        .close_array] ∧
    entry_to_blob "ADDRESSES" (entry_table 56 [sample_entry] sample_entry) 56 56
        .ENTRY_ADDRESS =
      [.open_array "ADDRESSES",
        .open_table "ADDRESSES",
        .string_buffer "target" (.ntop6 sample_entry.target),
        .add_u8 "length" 64, .add_u32 "valid" 3600, .add_u32 "preferred" 1800,
        .add_u32 "t1" 900, .add_u32 "t2" 1440,
        .close_table,
        .close_array] ∧
    blob_parse (entry_to_blob "ADDRESSES"
      (entry_table 56 [sample_entry_invalid, sample_entry] sample_entry) 112 56
      .ENTRY_ADDRESS) = none := by
  decide

/-- C6: for the prefix kind every whole entry yields a sub-table whatever its
`valid` field: the calls of `entry_to_blob` over a prefix table of `len` bytes
build one array of exactly `len / sizeof(entry)` sub-tables, in table order,
and the sub-table of an entry with `valid == 0` carries its `target`, its
`length` and `valid = 0`. -/
theorem entry_to_blob_prefix_keeps_invalid (name : String) (data : entry_view)
    (len sz : Nat) :
    blob_parse (entry_to_blob name data len sz .ENTRY_PREFIX) =
      some [.array name ((List.range (len / sz)).map fun i =>
        .table name (entry_fields .ENTRY_PREFIX (data (i * sz))))] ∧
    ((List.range (len / sz)).map fun i =>
      Elem.table name (entry_fields .ENTRY_PREFIX (data (i * sz)))).length = len / sz ∧
    ∀ e : odhcp6c_entry, e.valid = 0 →
      (⟨"target", .str (.ntop6 e.target)⟩ : Field) ∈ entry_fields .ENTRY_PREFIX e ∧
      (⟨"length", .u8 e.length⟩ : Field) ∈ entry_fields .ENTRY_PREFIX e ∧
      (⟨"valid", .u32 0⟩ : Field) ∈ entry_fields .ENTRY_PREFIX e := by
  refine ⟨entry_to_blob_parse name data len sz .ENTRY_PREFIX fun i _ => Or.inr rfl,
    by simp, ?_⟩
  intro e h0
  simp [entry_fields, h0]

/-- Witness of C6: a prefix table of one entry with `valid == 0` (and 10
trailing bytes short of a second entry) yields one sub-table with `valid = 0`. -/
theorem entry_to_blob_prefix_keeps_invalid_witness :
    blob_parse (entry_to_blob "PREFIXES" (entry_table 56 [sample_entry_invalid] sample_entry)
      66 56 .ENTRY_PREFIX) =
      some [.array "PREFIXES"
        [.table "PREFIXES" [⟨"target", .str (.ntop6 sample_entry.target)⟩,
          ⟨"length", .u8 64⟩, ⟨"valid", .u32 0⟩, ⟨"preferred", .u32 1800⟩,
          ⟨"t1", .u32 900⟩, ⟨"t2", .u32 1440⟩]]] ∧
    (⟨"valid", .u32 0⟩ : Field) ∈ entry_fields .ENTRY_PREFIX sample_entry_invalid :=
  ⟨(entry_to_blob_prefix_keeps_invalid "PREFIXES"
      (entry_table 56 [sample_entry_invalid] sample_entry) 66 56).1,
    ((entry_to_blob_prefix_keeps_invalid "PREFIXES"
      (entry_table 56 [sample_entry_invalid] sample_entry) 66 56).2.2
        sample_entry_invalid rfl).2.2⟩

theorem entry_iter_no_excluded (name : String) (type : entry_type) (e : odhcp6c_entry)
    (ht : type ≠ .ENTRY_PREFIX) :
    ∀ c ∈ entry_to_blob_iter name type e, ∀ f : Field, c.field = some f →
      f.name ≠ "excluded" ∧ f.name ≠ "excluded_length" := by
  intro c hc f hf
  unfold entry_to_blob_iter at hc
  cases type
  · by_cases hv : e.valid = 0
    · simp [hv] at hc
      subst hc
      simp [Call.field] at hf
    · simp [hv] at hc
      rcases hc with rfl | rfl | rfl | rfl | rfl | rfl | rfl | rfl <;>
        simp [Call.field] at hf <;> subst hf <;> simp
  · by_cases hv : e.valid = 0
    · simp [hv] at hc
      subst hc
      simp [Call.field] at hf
    · simp [hv] at hc
      rcases hc with rfl | rfl | rfl <;> simp [Call.field] at hf
      subst hf
      simp
  · by_cases hv : e.valid = 0
    · simp [hv] at hc
      subst hc
      simp [Call.field] at hf
    · by_cases hr : IN6_IS_ADDR_UNSPECIFIED e.router = false
      · simp [hv, hr] at hc
        rcases hc with rfl | rfl | rfl | rfl | rfl | rfl | rfl <;>
          simp [Call.field] at hf <;> subst hf <;> simp
      · simp [hv, hr] at hc
        rcases hc with rfl | rfl | rfl | rfl | rfl | rfl <;>
          simp [Call.field] at hf <;> subst hf <;> simp
  · exact absurd rfl ht

/-- C7: the sub-tables of a prefix table are those of `entry_fields`; for a
prefix entry with `priority != 0` the sub-table holds `excluded`, the text form
of the entry's router address, and `excluded_length`, equal to the priority,
and no field named `router` or `priority`; with `priority == 0` it holds
`valid`, `preferred`, `t1`, `t2` and no field named `excluded` or
`excluded_length`.  For the address, host and route kinds no call of
`entry_to_blob` adds a field named `excluded` or `excluded_length`. -/
theorem entry_to_blob_exclusion (name : String) (data : entry_view) (len sz : Nat) :
    blob_parse (entry_to_blob name data len sz .ENTRY_PREFIX) =
      some [.array name ((List.range (len / sz)).map fun i =>
        .table name (entry_fields .ENTRY_PREFIX (data (i * sz))))] ∧
    (∀ e : odhcp6c_entry, e.priority ≠ 0 →
      (⟨"excluded", .str (.ntop6 e.router)⟩ : Field) ∈ entry_fields .ENTRY_PREFIX e ∧
      (⟨"excluded_length", .u16 e.priority⟩ : Field) ∈ entry_fields .ENTRY_PREFIX e ∧
      ∀ f ∈ entry_fields .ENTRY_PREFIX e, f.name ≠ "router" ∧ f.name ≠ "priority") ∧
    (∀ e : odhcp6c_entry, e.priority = 0 →
      (⟨"valid", .u32 e.valid⟩ : Field) ∈ entry_fields .ENTRY_PREFIX e ∧
      (⟨"preferred", .u32 e.preferred⟩ : Field) ∈ entry_fields .ENTRY_PREFIX e ∧
      (⟨"t1", .u32 e.t1⟩ : Field) ∈ entry_fields .ENTRY_PREFIX e ∧
      (⟨"t2", .u32 e.t2⟩ : Field) ∈ entry_fields .ENTRY_PREFIX e ∧
      ∀ f ∈ entry_fields .ENTRY_PREFIX e, f.name ≠ "excluded" ∧ f.name ≠ "excluded_length") ∧
    (∀ type : entry_type, type ≠ .ENTRY_PREFIX →
      ∀ c ∈ entry_to_blob name data len sz type, ∀ f : Field, c.field = some f →
        f.name ≠ "excluded" ∧ f.name ≠ "excluded_length") := by
  refine ⟨entry_to_blob_parse name data len sz .ENTRY_PREFIX fun i _ => Or.inr rfl,
    ?_, ?_, ?_⟩
  · intro e hp
    refine ⟨by simp [entry_fields, hp], by simp [entry_fields, hp], ?_⟩
    intro f hf
    by_cases hi : ntohl e.iaid = 1
    · simp [entry_fields, hp, hi] at hf
      rcases hf with rfl | rfl | rfl | rfl | rfl | rfl | rfl | rfl <;> simp
    · simp [entry_fields, hp, hi] at hf
      rcases hf with rfl | rfl | rfl | rfl | rfl | rfl | rfl | rfl | rfl <;> simp
  · intro e hp
    refine ⟨by simp [entry_fields], by simp [entry_fields], by simp [entry_fields],
      by simp [entry_fields], ?_⟩
    intro f hf
    by_cases hi : ntohl e.iaid = 1
    · simp [entry_fields, hp, hi] at hf
      rcases hf with rfl | rfl | rfl | rfl | rfl | rfl <;> simp
    · simp [entry_fields, hp, hi] at hf
      rcases hf with rfl | rfl | rfl | rfl | rfl | rfl | rfl <;> simp
  · intro type ht c hc f hf
    unfold entry_to_blob at hc
    simp only [List.mem_append, List.mem_singleton, List.mem_flatMap, List.mem_range] at hc
    rcases hc with (rfl | ⟨i, _, hc⟩) | rfl
    · simp [Call.field] at hf
    · exact entry_iter_no_excluded name type _ ht c hc f hf
    · simp [Call.field] at hf

/-- Witness of C7: the sample prefix entry with priority 62 carries
`excluded_length = 62`, the one with priority 0 carries `t2`. -/
theorem entry_to_blob_exclusion_witness :
    (⟨"excluded_length", .u16 62⟩ : Field) ∈ entry_fields .ENTRY_PREFIX sample_entry_excl ∧
    (⟨"t2", .u32 1440⟩ : Field) ∈ entry_fields .ENTRY_PREFIX sample_entry ∧
    (∀ c ∈ entry_to_blob "RA_ROUTES" (entry_table 56 [sample_entry_excl] sample_entry) 56 56
        .ENTRY_ROUTE, ∀ f : Field, c.field = some f →
      f.name ≠ "excluded" ∧ f.name ≠ "excluded_length") :=
  ⟨((entry_to_blob_exclusion "PREFIXES" (entry_table 56 [sample_entry_excl] sample_entry)
      56 56).2.1 sample_entry_excl (by decide)).2.1,
    ((entry_to_blob_exclusion "PREFIXES" (entry_table 56 [sample_entry] sample_entry)
      56 56).2.2.1 sample_entry rfl).2.2.2.1,
    (entry_to_blob_exclusion "RA_ROUTES" (entry_table 56 [sample_entry_excl] sample_entry)
      56 56).2.2.2 .ENTRY_ROUTE (by decide)⟩

/-! ## `s46_to_blob` -/

/-- C8 (the code at the failing input): for a MAP-E buffer holding a rule
record shorter than its header plus prefix bytes, followed by a well-formed
rule record, `s46_to_blob` does decode the second record, but it has opened a
table for the first one and never closes it; its calls differ from those for
the buffer without the short record, which build one properly closed
sub-table, and they do not form a properly nested document. -/
theorem s46_to_blob_short_rule_leaves_table_open :
    s46_to_blob .STATE_S46_MAPE (sample_rule_short ++ sample_rule) =
      [.open_array "MAPE",
        .open_table "",
        .open_table "",
        .string_buffer "ipv4prefix" (.ntop4 [192, 0, 2, 0]),
        .string_buffer "ipv6prefix" (.ntop6 [0x20, 0x01, 0, 0, 0, 0, 0, 0, 0, 0, 0, 0, 0, 0, 0, 0]),
        .add_u8 "fmr" 0, .add_string "type" "map-e", .add_u8 "ealen" 16,
        .add_u8 "prefix4len" 24, .add_u8 "prefix6len" 16,
        .close_table,
        .close_array] ∧
    blob_parse (s46_to_blob .STATE_S46_MAPE (sample_rule_short ++ sample_rule)) = none ∧
    blob_parse (s46_to_blob .STATE_S46_MAPE sample_rule) =
      some [.array "MAPE" [.table ""
        [⟨"ipv4prefix", .str (.ntop4 [192, 0, 2, 0])⟩,
          ⟨"ipv6prefix", .str (.ntop6 [0x20, 0x01, 0, 0, 0, 0, 0, 0, 0, 0, 0, 0, 0, 0, 0, 0])⟩,
          ⟨"fmr", .u8 0⟩, ⟨"type", .str (.lit "map-e")⟩, ⟨"ealen", .u8 16⟩,
          ⟨"prefix4len", .u8 24⟩, ⟨"prefix6len", .u8 16⟩]]] := by
  decide

/-! ## `fqdn_to_blob` -/

theorem land_c0_of_lt : ∀ n, n < 64 → n &&& 0xc0 = 0 := by decide

theorem name_text_acc_length (ls : List (List Byte)) : ∀ dest : List Byte,
    dest.length ≤ (name_text_acc dest ls).length := by
  induction ls with
  | nil => intro dest; exact Nat.le_refl _
  | cons l ls ih =>
    intro dest
    simp only [name_text_acc]
    refine Nat.le_trans ?_ (ih _)
    split <;> simp only [List.length_append] <;> omega

theorem getD_append_cons (pre rest : List Byte) (x : Byte) :
    (pre ++ x :: rest).getD pre.length 0 = x := by
  induction pre with
  | nil => rfl
  | cons a pre ih => simpa using ih

theorem dn_expand_loop_plain (msg : List Byte) (dend : Nat) (ls : List (List Byte)) :
    ∀ (fuel : Nat) (pre rest dest : List Byte),
      msg = pre ++ name_wire ls ++ rest →
      (∀ l ∈ ls, 1 ≤ l.length ∧ l.length ≤ 63) →
      ls.length + 1 ≤ fuel →
      (name_text_acc dest ls).length < dend →
      dn_expand_loop msg dend fuel pre.length dest none =
        (((pre.length + (name_wire ls).length : Nat) : Int), name_text_acc dest ls) := by
  induction ls with
  | nil =>
    intro fuel pre rest dest hmsg _ hfuel _
    obtain ⟨f, rfl⟩ : ∃ f, fuel = f + 1 := ⟨fuel - 1, by omega⟩
    have hget : msg.getD pre.length 0 = 0 := by
      rw [hmsg]
      simp only [name_wire, List.append_assoc, List.singleton_append]
      exact getD_append_cons pre rest 0
    rw [dn_expand_loop, hget]
    simp [name_wire, name_text_acc]
  | cons l ls ih =>
    intro fuel pre rest dest hmsg hls hfuel hdend
    obtain ⟨f, rfl⟩ : ∃ f, fuel = f + 1 := ⟨fuel - 1, by simp only [List.length_cons] at hfuel; omega⟩
    obtain ⟨hl1, hl63⟩ := hls l (List.mem_cons_self _ _)
    have hmsg1 : msg = pre ++ byte l.length :: (l ++ (name_wire ls ++ rest)) := by
      rw [hmsg]
      simp only [name_wire, List.append_assoc, List.cons_append]
    have hget : msg.getD pre.length 0 = byte l.length := by
      rw [hmsg1]
      exact getD_append_cons pre _ _
    have hval : (byte l.length).val = l.length := by
      simp only [byte]
      omega
    have hland : l.length &&& 0xc0 = 0 := land_c0_of_lt _ (by omega)
    have hmsglen : msg.length = pre.length + 1 + l.length + ((name_wire ls).length + rest.length) := by
      rw [hmsg1]
      simp only [List.length_append, List.length_cons]
      omega
    have hwpos : 1 ≤ (name_wire ls).length := by
      cases ls <;> simp [name_wire]
    have hdrop : (msg.drop (pre.length + 1)).take l.length = l := by
      rw [hmsg1]
      have : pre ++ byte l.length :: (l ++ (name_wire ls ++ rest)) =
          (pre ++ [byte l.length]) ++ (l ++ (name_wire ls ++ rest)) := by simp
      rw [this]
      have hlen : (pre ++ [byte l.length]).length = pre.length + 1 := by simp
      rw [← hlen, List.drop_left, List.take_left]
    have hacc := name_text_acc_length ls
      ((if dest.length ≠ 0 then dest ++ [byte 46] else dest) ++ l)
    simp only [name_text_acc] at hdend
    have hd1 : (if dest.length ≠ 0 then dest ++ [byte 46] else dest).length + l.length < dend := by
      simp only [List.length_append] at hacc
      omega
    have hcond : ¬ (l.length ≥ msg.length - (pre.length + 1) ∨
        l.length ≥ dend - (if dest.length ≠ 0 then dest ++ [byte 46] else dest).length) := by
      omega
    have hrec := ih f (pre ++ byte l.length :: l) rest
      ((if dest.length ≠ 0 then dest ++ [byte 46] else dest) ++ l)
      (by rw [hmsg1]; simp)
      (fun x hx => hls x (List.mem_cons_of_mem _ hx))
      (by simp only [List.length_cons] at hfuel; omega)
      hdend
    have hplen : (pre ++ byte l.length :: l).length = pre.length + 1 + l.length := by
      simp only [List.length_append, List.length_cons]
      omega
    rw [hplen] at hrec
    rw [dn_expand_loop]
    simp only [hget, hval, hland, ne_eq, not_true_eq_false, if_false]
    rw [if_pos (by omega : ¬ l.length = 0)]
    simp only [ne_eq] at hcond
    rw [if_neg hcond, hdrop]
    simp only [ne_eq] at hrec
    rw [hrec]
    simp only [name_wire, name_text_acc, List.length_cons, List.length_append, ne_eq]
    congr 2
    omega

theorem name_text_cons (l : List Byte) (ls : List (List Byte)) :
    name_text (l :: ls) = l ++ ls.flatMap fun x => byte 46 :: x := by
  induction ls generalizing l with
  | nil => simp [name_text]
  | cons m ms ih => simp only [name_text, ih m, List.flatMap_cons, List.cons_append]

theorem name_text_acc_of_ne (ls : List (List Byte)) : ∀ dest : List Byte, dest.length ≠ 0 →
    name_text_acc dest ls = dest ++ ls.flatMap fun x => byte 46 :: x := by
  induction ls with
  | nil => intro dest _; simp [name_text_acc]
  | cons l ls ih =>
    intro dest hd
    simp only [name_text_acc, if_pos hd]
    rw [ih _ (by simp only [List.length_append, List.length_singleton]; omega)]
    simp

theorem name_text_acc_nil (ls : List (List Byte)) (h : ∀ l ∈ ls, 1 ≤ l.length) :
    name_text_acc [] ls = name_text ls := by
  cases ls with
  | nil => rfl
  | cons l ls =>
    have hl := h l (List.mem_cons_self _ _)
    simp only [name_text_acc, List.length_nil, ne_eq, not_true_eq_false, if_false,
      List.nil_append]
    rw [name_text_acc_of_ne ls l (by omega), name_text_cons]

theorem name_wire_length (ls : List (List Byte)) :
    (name_wire ls).length = (ls.flatMap fun x => byte 46 :: x).length + 1 := by
  induction ls with
  | nil => rfl
  | cons l ls ih =>
    simp only [name_wire, List.length_cons, List.length_append, ih, List.flatMap_cons]
    omega

theorem name_text_lt_wire (ls : List (List Byte)) :
    (name_text ls).length < (name_wire ls).length ∧
    ((name_text ls).length = 0 ∨ (name_text ls).length + 2 ≤ (name_wire ls).length) := by
  cases ls with
  | nil => simp [name_text, name_wire]
  | cons l ls =>
    rw [name_text_cons]
    simp only [name_wire, List.length_cons, List.length_append, name_wire_length ls]
    omega

theorem labels_le_wire (ls : List (List Byte)) (h : ∀ l ∈ ls, 1 ≤ l.length) :
    2 * ls.length + 1 ≤ (name_wire ls).length := by
  induction ls with
  | nil => simp [name_wire]
  | cons l ls ih =>
    have hl := h l (List.mem_cons_self _ _)
    have := ih fun x hx => h x (List.mem_cons_of_mem _ hx)
    simp only [name_wire, List.length_cons, List.length_append]
    omega

theorem name_text_no_nul (ls : List (List Byte)) (h : ∀ l ∈ ls, ∀ b ∈ l, b.val ≠ 0) :
    ∀ b ∈ name_text ls, b.val ≠ 0 := by
  induction ls with
  | nil => intro b hb; simp [name_text] at hb
  | cons l ls ih =>
    intro b hb
    rw [name_text_cons] at hb
    rcases List.mem_append.mp hb with hb | hb
    · exact h l (List.mem_cons_self _ _) b hb
    · obtain ⟨x, hx, hbx⟩ := List.mem_flatMap.mp hb
      rcases List.mem_cons.mp hbx with rfl | hbx
      · decide
      · exact h x (List.mem_cons_of_mem _ hx) b hbx

theorem cstr_of_no_nul (t : List Byte) (h : ∀ b ∈ t, b.val ≠ 0) : cstr t = t := by
  induction t with
  | nil => rfl
  | cons c cs ih =>
    simp only [cstr, if_neg (h c (List.mem_cons_self _ _))]
    rw [ih fun b hb => h b (List.mem_cons_of_mem _ hb)]

theorem dn_expand_plain (ls : List (List Byte)) (rest : List Byte) (space : Nat)
    (hp : plain_name ls) (hs : (name_wire ls).length < space ∨ 254 < space) :
    dn_expand (name_wire ls ++ rest) space =
      ((((name_wire ls).length : Nat) : Int), name_text ls) := by
  obtain ⟨hls, h255⟩ := hp
  have hl1 : ∀ l ∈ ls, 1 ≤ l.length := fun l hl => (hls l hl).1
  have hwl := labels_le_wire ls hl1
  have htl := name_text_lt_wire ls
  have hne : ¬ ((name_wire ls ++ rest).length = 0 ∨ space = 0) := by
    simp only [List.length_append]
    omega
  unfold dn_expand
  rw [if_neg hne]
  have h := dn_expand_loop_plain (name_wire ls ++ rest) (if space > 254 then 254 else space) ls
    (((name_wire ls ++ rest).length + 1) / 2) [] rest [] (by simp)
    (fun l hl => ⟨(hls l hl).1, (hls l hl).2.1⟩)
    (by simp only [List.length_append]; omega)
    (by rw [name_text_acc_nil ls hl1]; split <;> omega)
  simp only [List.length_nil, Nat.zero_add] at h
  rw [h, name_text_acc_nil ls hl1]

theorem fqdn_loop_plain (name : String) (L : Nat) (ns : List (List (List Byte))) :
    ∀ fuel : Nat, (∀ n ∈ ns, plain_name n) → (names_wire ns).length ≤ fuel →
      (names_wire ns).length ≤ L →
      fqdn_to_blob_loop name (fqdn_buf_size L) fuel (names_wire ns) =
        ns.map fun n => Call.string_buffer name (.lit (chars (name_text n))) := by
  induction ns with
  | nil =>
    intro fuel _ _ _
    cases fuel <;> simp [fqdn_to_blob_loop, names_wire]
  | cons n ns ih =>
    intro fuel hp hfuel hL
    have hpn := hp n (List.mem_cons_self _ _)
    have hwl := labels_le_wire n fun l hl => (hpn.1 l hl).1
    simp only [names_wire, List.length_append] at hfuel hL
    obtain ⟨f, rfl⟩ : ∃ f, fuel = f + 1 := ⟨fuel - 1, by omega⟩
    have hs : (name_wire n).length < fqdn_buf_size L ∨ 254 < fqdn_buf_size L := by
      unfold fqdn_buf_size
      split <;> omega
    have hdn := dn_expand_plain n (names_wire ns) (fqdn_buf_size L) hpn hs
    have hne : ¬ (name_wire n ++ names_wire ns).length = 0 := by
      simp only [List.length_append]
      omega
    have hlt : ¬ (((name_wire n).length : Nat) : Int) < 1 := by omega
    have htake : (name_text n).take (name_wire n).length = name_text n :=
      List.take_of_length_le (Nat.le_of_lt (name_text_lt_wire n).1)
    have hc : cstr (name_text n) = name_text n :=
      cstr_of_no_nul _ (name_text_no_nul n fun l hl => (hpn.1 l hl).2.2)
    simp only [names_wire, fqdn_to_blob_loop, if_neg hne, hdn, if_neg hlt, Int.toNat_ofNat,
      htake, hc, List.drop_left, List.map_cons]
    rw [ih f (fun m hm => hp m (List.mem_cons_of_mem _ hm)) (by omega) (by omega)]

theorem blob_apply_items (doc : Document) (n : String) (fs : List Field) : ∀ es : List Elem,
    blob_apply (.in_array doc n es) (fs.map fun f => Call.string_buffer f.name
      (match f.val with | .str t => t | _ => .lit "")) =
      some (.in_array doc n (es ++ fs.map fun f => Elem.item ⟨f.name, .str
        (match f.val with | .str t => t | _ => .lit "")⟩)) := by
  induction fs with
  | nil => intro es; simp [blob_apply]
  | cons f fs ih =>
    intro es
    simp only [List.map_cons, blob_apply, blob_step, Cursor.put]
    rw [ih]
    simp

theorem fqdn_to_blob_names (name : String) (ns : List (List (List Byte)))
    (hns : ∀ n ∈ ns, plain_name n) :
    fqdn_to_blob name (names_wire ns) =
      [.open_array name] ++
        (ns.map fun n => Call.string_buffer name (.lit (chars (name_text n)))) ++
        [.close_array] := by
  unfold fqdn_to_blob
  have h := fqdn_loop_plain name (names_wire ns).length ns (names_wire ns).length hns
    (Nat.le_refl _) (Nat.le_refl _)
  unfold fqdn_buf_size at h
  rw [h]

set_option maxRecDepth 8192 in
/-- C9: for a buffer made of `k` well-formed plain names one after the other,
`fqdn_to_blob` issues exactly `k` strings between the open and the close of
the array, the dotted text of each name in order (each expansion starts at the
byte after the previous name's wire form), and they build an array of `k`
strings; for the wire forms of `a.example` and `b.example` the array is
`["a.example", "b.example"]`. -/
theorem fqdn_to_blob_sequential_names :
    (∀ (name : String) (ns : List (List (List Byte))), (∀ n ∈ ns, plain_name n) →
      fqdn_to_blob name (names_wire ns) =
        [.open_array name] ++
          (ns.map fun n => Call.string_buffer name (.lit (chars (name_text n)))) ++
          [.close_array] ∧
      blob_parse (fqdn_to_blob name (names_wire ns)) =
        some [.array name (ns.map fun n => .item ⟨name, .str (.lit (chars (name_text n)))⟩)] ∧
      (ns.map fun n => Elem.item ⟨name, .str (.lit (chars (name_text n)))⟩).length =
        ns.length) ∧
    fqdn_to_blob "DOMAINS"
        [1, 97, 7, 101, 120, 97, 109, 112, 108, 101, 0,
          1, 98, 7, 101, 120, 97, 109, 112, 108, 101, 0] =
      [.open_array "DOMAINS", .string_buffer "DOMAINS" (.lit "a.example"),
        .string_buffer "DOMAINS" (.lit "b.example"), .close_array] := by
  refine ⟨?_, ?_⟩
  · intro name ns hns
    refine ⟨fqdn_to_blob_names name ns hns, ?_, by simp⟩
    rw [fqdn_to_blob_names name ns hns]
    apply blob_parse_array
    have h := blob_apply_items [] name
      (ns.map fun n => (⟨name, .str (.lit (chars (name_text n)))⟩ : Field)) []
    simpa [List.map_map, Function.comp_def] using h
  · exact fqdn_to_blob_names "DOMAINS" [name_a_example, name_b_example] (by decide)

set_option maxRecDepth 8192 in
/-- Witness of C9: the names `a.example` and `b.example` are well-formed plain
names and their wire forms, one after the other, yield the two strings. -/
theorem fqdn_to_blob_sequential_names_witness :
    blob_parse (fqdn_to_blob "DOMAINS" (names_wire [name_a_example, name_b_example])) =
      some [.array "DOMAINS" [.item ⟨"DOMAINS", .str (.lit "a.example")⟩,
        .item ⟨"DOMAINS", .str (.lit "b.example")⟩]] :=
  (fqdn_to_blob_sequential_names.1 "DOMAINS" [name_a_example, name_b_example]
    (by decide)).2.1

/-! ## `ubus_dhcp_event` -/

theorem no_lease_append (a b : List Call) : no_lease (a ++ b) = (no_lease a && no_lease b) := by
  simp [no_lease, List.all_append]

theorem no_lease_flatMap {α : Type} (l : List α) (f : α → List Call)
    (h : ∀ x ∈ l, no_lease (f x) = true) : no_lease (l.flatMap f) = true := by
  induction l with
  | nil => rfl
  | cons a l ih =>
    rw [List.flatMap_cons, no_lease_append, h a (List.mem_cons_self _ _),
      ih fun x hx => h x (List.mem_cons_of_mem _ hx)]
    rfl

theorem no_lease_map {α : Type} (l : List α) (f : α → Call)
    (h : ∀ x ∈ l, (f x).lease = false) : no_lease (l.map f) = true := by
  induction l with
  | nil => rfl
  | cons a l ih =>
    have h1 := h a (List.mem_cons_self _ _)
    have h2 := ih fun x hx => h x (List.mem_cons_of_mem _ hx)
    simp only [no_lease, List.map_cons, List.all_cons, h1, Bool.not_false, Bool.true_and] at h2 ⊢
    exact h2

theorem no_lease_mem (cs : List Call) (h : no_lease cs = true) :
    ∀ c ∈ cs, c.name ≠ some "PREFIXES" ∧ c.name ≠ some "ADDRESSES" := by
  intro c hc
  have hl : c.lease = false := by
    have := List.all_eq_true.mp h c hc
    simpa using this
  unfold Call.lease at hl
  cases hn : c.name with
  | none => simp
  | some s =>
    rw [hn] at hl
    simp only [lease_name, Bool.or_eq_false_iff, beq_eq_false_iff_ne, ne_eq] at hl
    simp only [ne_eq, Option.some.injEq]
    exact hl

theorem no_lease_ipv6 (name : String) (addr : List Byte) (cnt : Nat)
    (hn : lease_name name = false) : no_lease (ipv6_to_blob name addr cnt) = true := by
  unfold ipv6_to_blob
  rw [no_lease_append, no_lease_append, no_lease_map _ _ (fun _ _ => by rfl)]
  simp [no_lease, Call.lease, Call.name, hn]

theorem no_lease_fqdn_loop (name : String) (bs : Nat) (hn : lease_name name = false) :
    ∀ (fuel : Nat) (fqdn : List Byte), no_lease (fqdn_to_blob_loop name bs fuel fqdn) = true := by
  intro fuel
  induction fuel with
  | zero => intro fqdn; rfl
  | succ n ih =>
    intro fqdn
    unfold fqdn_to_blob_loop
    split
    · rfl
    · split
      · simp [no_lease, Call.lease, Call.name, hn]
      · have := ih (fqdn.drop (dn_expand fqdn bs).1.toNat)
        simp only [no_lease, List.all_cons, Call.lease, Call.name, hn, Bool.not_false,
          Bool.true_and] at this ⊢
        exact this

theorem no_lease_fqdn (name : String) (fqdn : List Byte) (hn : lease_name name = false) :
    no_lease (fqdn_to_blob name fqdn) = true := by
  unfold fqdn_to_blob
  rw [no_lease_append, no_lease_append, no_lease_fqdn_loop name _ hn]
  simp [no_lease, Call.lease, Call.name, hn]

theorem option_name_not_lease (t : Nat) :
    lease_name (snprintf 14 ("OPTION_" ++ toString t)) = false := by
  have hd : (snprintf 14 ("OPTION_" ++ toString t)).data =
      'O' :: (("PTION_".data ++ (toString t).data).take 12) := by
    simp only [snprintf, String.data_append]
    rfl
  have h1 : snprintf 14 ("OPTION_" ++ toString t) ≠ "PREFIXES" := by
    intro h
    have := congrArg String.data h
    rw [hd] at this
    exact absurd (List.cons.inj this).1 (by decide)
  have h2 : snprintf 14 ("OPTION_" ++ toString t) ≠ "ADDRESSES" := by
    intro h
    have := congrArg String.data h
    rw [hd] at this
    exact absurd (List.cons.inj this).1 (by decide)
  simp [lease_name, h1, h2]

theorem no_lease_bin (opts : List Byte) : no_lease (bin_to_blob opts) = true := by
  unfold bin_to_blob
  apply no_lease_map
  intro o _
  simp only [Call.lease, Call.name, option_name_not_lease]

theorem no_lease_portparams (data : List Byte) :
    no_lease (s46_to_blob_portparams data) = true := by
  unfold s46_to_blob_portparams
  apply no_lease_flatMap
  intro o _
  dsimp only
  split <;> rfl

theorem no_lease_rule_companions (state : odhcp6c_state) (data : List Byte) :
    no_lease (s46_rule_companions state data) = true := by
  unfold s46_rule_companions
  apply no_lease_flatMap
  intro o _
  dsimp only
  split
  · rfl
  · split
    · split <;> rfl
    · rfl

theorem no_lease_bind_companions (data : List Byte) :
    no_lease (s46_bind_companions data) = true := by
  unfold s46_bind_companions
  apply no_lease_flatMap
  intro o _
  dsimp only
  split <;> rfl

theorem no_lease_cons (c : Call) (cs : List Call) :
    no_lease (c :: cs) = (!c.lease && no_lease cs) := rfl

theorem no_lease_s46_iter (state : odhcp6c_state) (type : String) (data : List Byte)
    (o : dhcpv6_option) : no_lease (s46_to_blob_iter state type data o) = true := by
  unfold s46_to_blob_iter
  rw [no_lease_cons]
  split
  · split
    · rfl
    · simp only [no_lease_append, no_lease_portparams, no_lease_rule_companions]
      rfl
  · split
    · split
      · rfl
      · simp only [no_lease_append, no_lease_portparams, no_lease_bind_companions]
        rfl
    · rfl

theorem no_lease_s46 (state : odhcp6c_state) (data : List Byte) :
    no_lease (s46_to_blob state data) = true := by
  unfold s46_to_blob
  split
  · rfl
  · rw [no_lease_append, no_lease_append,
      no_lease_flatMap _ _ fun o _ => no_lease_s46_iter state _ data o]
    split
    · rfl
    · split <;> rfl

theorem no_lease_entry_iter (name : String) (type : entry_type) (e : odhcp6c_entry)
    (hn : lease_name name = false) : no_lease (entry_to_blob_iter name type e) = true := by
  unfold entry_to_blob_iter
  rw [no_lease_cons]
  have h0 : (Call.open_table name).lease = false := by simp only [Call.lease, Call.name, hn]
  rw [h0]
  split
  · rfl
  · cases type <;> simp only [ne_eq, reduceCtorEq, not_false_eq_true, not_true_eq_false,
      if_true, if_false, false_and, true_and]
    · rfl
    · rfl
    · split <;> rfl
    · split <;> split <;> rfl

theorem no_lease_entry (name : String) (data : entry_view) (len sz : Nat) (type : entry_type)
    (hn : lease_name name = false) : no_lease (entry_to_blob name data len sz type) = true := by
  unfold entry_to_blob
  rw [no_lease_append, no_lease_append,
    no_lease_flatMap _ _ fun i _ => no_lease_entry_iter name type _ hn]
  simp [no_lease, Call.lease, Call.name, hn]

theorem no_lease_search_loop (start : entry_view) (len sz : Nat) :
    ∀ (fuel off : Nat), no_lease (search_to_blob_loop start len sz fuel off) = true := by
  intro fuel
  induction fuel with
  | zero => intro off; rfl
  | succ n ih =>
    intro off
    unfold search_to_blob_loop
    split
    · rw [no_lease_append, ih]
      split <;> rfl
    · rfl

theorem no_lease_search (name : String) (start : entry_view) (len sz : Nat)
    (hn : lease_name name = false) : no_lease (search_to_blob name start len sz) = true := by
  unfold search_to_blob
  rw [no_lease_append, no_lease_append, no_lease_search_loop]
  simp [no_lease, Call.lease, Call.name, hn]

theorem no_lease_head (env : Env) : no_lease (event_calls_head env) = true := by
  unfold event_calls_head
  simp only [no_lease_append, no_lease_bin, no_lease_s46,
    no_lease_ipv6 _ _ _ (show lease_name "SERVER" = false by decide),
    no_lease_ipv6 _ _ _ (show lease_name "RDNSS" = false by decide),
    no_lease_ipv6 _ _ _ (show lease_name "SNTP_IP" = false by decide),
    no_lease_ipv6 _ _ _ (show lease_name "NTP_IP" = false by decide),
    no_lease_ipv6 _ _ _ (show lease_name "SIP_IP" = false by decide),
    no_lease_ipv6 _ _ _ (show lease_name "CER" = false by decide),
    no_lease_fqdn _ _ (show lease_name "NTP_FQDN" = false by decide),
    no_lease_fqdn _ _ (show lease_name "DOMAINS" = false by decide),
    no_lease_fqdn _ _ (show lease_name "SIP_DOMAIN" = false by decide),
    no_lease_fqdn _ _ (show lease_name "AFTR" = false by decide), Bool.and_self]

theorem no_lease_tail (env : Env) : no_lease (event_calls_tail env) = true := by
  unfold event_calls_tail
  simp only [no_lease_append,
    no_lease_entry _ _ _ _ _ (show lease_name "RA_ADDRESSES" = false by decide),
    no_lease_entry _ _ _ _ _ (show lease_name "RA_ROUTES" = false by decide),
    no_lease_entry _ _ _ _ _ (show lease_name "RA_DNS" = false by decide),
    no_lease_search _ _ _ _ (show lease_name "RA_DOMAINS" = false by decide), Bool.true_and]
  rfl

theorem blob_alloc_of_count (cs : List Call) : ∀ room : Nat, alloc_count cs ≤ room →
    blob_alloc room cs = (cs, true) := by
  induction cs with
  | nil => intro room _; rfl
  | cons c cs ih =>
    intro room h
    unfold alloc_count at h
    cases hc : c.allocates with
    | false =>
      simp only [List.filter_cons, hc] at h
      simp only [blob_alloc, hc, ih room h]
      rfl
    | true =>
      simp only [List.filter_cons, hc, if_true, List.length_cons] at h
      obtain ⟨r, rfl⟩ : ∃ r, room = r + 1 := ⟨room - 1, by omega⟩
      have hr : alloc_count cs ≤ r := by unfold alloc_count; omega
      simp only [blob_alloc, hc, if_true, ih r hr]

theorem blob_alloc_prefix (cs : List Call) : ∀ room : Nat,
    ∃ rest, cs = (blob_alloc room cs).1 ++ rest := by
  induction cs with
  | nil => intro room; exact ⟨[], rfl⟩
  | cons c cs ih =>
    intro room
    cases hc : c.allocates with
    | false =>
      obtain ⟨rest, hrest⟩ := ih room
      refine ⟨rest, ?_⟩
      simp only [blob_alloc, hc, Bool.false_eq_true, if_false, List.cons_append]
      rw [← hrest]
    | true =>
      cases room with
      | zero => exact ⟨c :: cs, by simp [blob_alloc, hc]⟩
      | succ r =>
        obtain ⟨rest, hrest⟩ := ih r
        refine ⟨rest, ?_⟩
        simp only [blob_alloc, hc, if_true, List.cons_append, ← hrest]

theorem event_run_calls (env : Env) (status : String) (hbus : env.ubus = true)
    (hsub : env.has_subscribers = true) :
    (ubus_dhcp_event env status).calls = (blob_alloc env.room (event_calls env)).1 := by
  unfold ubus_dhcp_event
  rw [if_neg (by simp [hbus, hsub])]
  by_cases h1 : (blob_alloc env.room (event_calls env)).2 = false
  · rw [if_pos h1]
  · rw [if_neg h1]
    by_cases h2 : env.ubus_notify ≠ .UBUS_STATUS_OK
    · rw [if_pos h2]
    · rw [if_neg h2]

/-- C10: in every state with a bus connection and a subscriber, when the
is-bound query returns false no call of `ubus_dhcp_event` creates an attribute
named `PREFIXES` or `ADDRESSES`, whatever the delegated-prefix and
assigned-address tables hold (and whether or not an allocation fails), and,
when no allocation fails, the calls are those of lines 493-506 followed at once
by `RA_ADDRESSES`, `RA_ROUTES`, `RA_DNS` and `RA_DOMAINS`, built from their
source buffers, and the scalars of lines 518-526; when the query returns true
and no allocation fails, the arrays `PREFIXES` and `ADDRESSES` are built from
the two tables between these two parts. -/
theorem ubus_dhcp_event_bound_gate (env : Env) (status : String) (hbus : env.ubus = true)
    (hsub : env.has_subscribers = true) :
    (env.odhcp6c_is_bound = false →
      (∀ c ∈ (ubus_dhcp_event env status).calls,
        c.name ≠ some "PREFIXES" ∧ c.name ≠ some "ADDRESSES") ∧
      (alloc_count (event_calls env) ≤ env.room →
        (ubus_dhcp_event env status).calls =
          event_calls_head env ++
            (entry_to_blob "RA_ADDRESSES" (env.entry_at .STATE_RA_PREFIX)
                (env.odhcp6c_get_state .STATE_RA_PREFIX).length env.sizeof_entry .ENTRY_ADDRESS ++
              entry_to_blob "RA_ROUTES" (env.entry_at .STATE_RA_ROUTE)
                (env.odhcp6c_get_state .STATE_RA_ROUTE).length env.sizeof_entry .ENTRY_ROUTE ++
              entry_to_blob "RA_DNS" (env.entry_at .STATE_RA_DNS)
                (env.odhcp6c_get_state .STATE_RA_DNS).length env.sizeof_entry .ENTRY_HOST ++
              search_to_blob "RA_DOMAINS" (env.entry_at .STATE_RA_SEARCH)
                (env.odhcp6c_get_state .STATE_RA_SEARCH).length env.sizeof_entry ++
              [.add_u32 "RA_HOPLIMIT" env.ra_get_hoplimit,
                .add_u32 "RA_MTU" env.ra_get_mtu,
                .add_u32 "RA_REACHABLE" env.ra_get_reachable,
                .add_u32 "RA_RETRANSMIT" env.ra_get_retransmit,
                .string_buffer "PASSTHRU"
                  (.lit (String.mk (script_hexlify (env.odhcp6c_get_state .STATE_PASSTHRU))))]))) ∧
    (env.odhcp6c_is_bound = true → alloc_count (event_calls env) ≤ env.room →
      (ubus_dhcp_event env status).calls =
        event_calls_head env ++
          (entry_to_blob "PREFIXES" (env.entry_at .STATE_IA_PD)
              (env.odhcp6c_get_state .STATE_IA_PD).length env.sizeof_entry .ENTRY_PREFIX ++
            entry_to_blob "ADDRESSES" (env.entry_at .STATE_IA_NA)
              (env.odhcp6c_get_state .STATE_IA_NA).length env.sizeof_entry .ENTRY_ADDRESS) ++
          event_calls_tail env ∧
      Call.open_array "PREFIXES" ∈ (ubus_dhcp_event env status).calls ∧
      Call.open_array "ADDRESSES" ∈ (ubus_dhcp_event env status).calls) := by
  have hcalls := event_run_calls env status hbus hsub
  refine ⟨?_, ?_⟩
  · intro hb
    have hev : event_calls env = event_calls_head env ++ event_calls_tail env := by
      simp only [event_calls, hb, Bool.false_eq_true, if_false, List.append_nil]
    refine ⟨?_, ?_⟩
    · have hno : no_lease (event_calls env) = true := by
        rw [hev, no_lease_append, no_lease_head, no_lease_tail]
        rfl
      obtain ⟨rest, hrest⟩ := blob_alloc_prefix (event_calls env) env.room
      intro c hc
      rw [hcalls] at hc
      apply no_lease_mem (event_calls env) hno c
      rw [hrest]
      exact List.mem_append_left _ hc
    · intro hroom
      rw [hcalls, blob_alloc_of_count _ _ hroom, hev]
      rfl
  · intro hb hroom
    have hev : event_calls env =
        event_calls_head env ++ event_calls_bound env ++ event_calls_tail env := by
      simp only [event_calls, hb, if_true]
    have h1 : (ubus_dhcp_event env status).calls =
        event_calls_head env ++ event_calls_bound env ++ event_calls_tail env := by
      rw [hcalls, blob_alloc_of_count _ _ hroom, hev]
    refine ⟨by rw [h1]; simp only [event_calls_bound, List.append_assoc], ?_, ?_⟩
    · rw [h1]
      simp [event_calls_bound, entry_to_blob]
    · rw [h1]
      simp [event_calls_bound, entry_to_blob]

set_option maxRecDepth 8192 in
/-- Witness of C10: in the sample environment, not bound, no call names
`PREFIXES` or `ADDRESSES` and `RA_ADDRESSES` is opened; bound, `PREFIXES` is
opened. -/
theorem ubus_dhcp_event_bound_gate_witness :
    (∀ c ∈ (ubus_dhcp_event (sample_env false) "unbound").calls,
      c.name ≠ some "PREFIXES" ∧ c.name ≠ some "ADDRESSES") ∧
    Call.open_array "PREFIXES" ∈ (ubus_dhcp_event (sample_env true) "bound").calls :=
  ⟨((ubus_dhcp_event_bound_gate (sample_env false) "unbound" rfl rfl).1 rfl).1,
    ((ubus_dhcp_event_bound_gate (sample_env true) "bound" rfl rfl).2 rfl (by decide)).2.1⟩

/-! ## The sub-table of a softwire record -/

theorem list_length_four (l : List Byte) (h : l.length = 4) :
    ∃ a b c d, l = [a, b, c, d] := by
  match l, h with
  | [a, b, c, d], _ => exact ⟨a, b, c, d, rfl⟩

theorem s46_to_blob_eq (state : odhcp6c_state) (data : List Byte) (h : data ≠ []) :
    s46_to_blob state data =
      [.open_array (s46_name state)] ++
        (dhcpv6_for_each_option data).flatMap (s46_to_blob_iter state (s46_type state) data) ++
        [.close_array] := by
  have hl : ¬ data.length = 0 := fun h0 => h (List.length_eq_zero.mp h0)
  simp only [s46_to_blob, if_neg hl, s46_name, s46_type]

theorem s46_iter_rule (state : odhcp6c_state) (type : String) (data : List Byte) (r : S46Rule)
    (hwf : r.wf) (hs : state ≠ .STATE_S46_LW) :
    s46_to_blob_iter state type data r.option =
      .open_table "" :: (r.fields type ++ s46_to_blob_portparams r.options ++
        s46_rule_companions state data ++ [.close_table]) := by
  obtain ⟨h4, h128, h6⟩ := hwf
  obtain ⟨a, b, c, d, hab⟩ := list_length_four _ h4
  have hbytes : prefix6len_bytes r.prefix6_len.val = r.ipv6_prefix.length := by
    rw [prefix6len_bytes_ceil, h6]
  have hlen : r.value.length = 8 + r.ipv6_prefix.length + r.options.length := by
    simp only [S46Rule.value, hab, List.length_cons, List.length_append, List.cons_append,
      List.nil_append]
    omega
  have h7 : r.value.getD 7 0 = r.prefix6_len := by
    simp only [S46Rule.value, hab, List.cons_append, List.nil_append]
    rfl
  have hge : r.value.length ≥ sizeof_dhcpv6_s46_rule := by
    simp only [sizeof_dhcpv6_s46_rule]
    omega
  have hacc : s46_prefix_rejected sizeof_dhcpv6_s46_rule r.value.length
      r.ipv6_prefix.length = false :=
    s46_accepted _ _ _ (by simp only [sizeof_in6_addr]; omega)
      (by simp only [sizeof_dhcpv6_s46_rule]; omega)
  have hdrop8 : r.value.drop sizeof_dhcpv6_s46_rule = r.ipv6_prefix ++ r.options := by
    simp only [S46Rule.value, hab, List.cons_append, List.nil_append, sizeof_dhcpv6_s46_rule]
    rfl
  have hipv4 : (r.value.drop 3).take 4 = r.ipv4_prefix := by
    simp only [S46Rule.value, hab, List.cons_append, List.nil_append]
    rfl
  have h0 : r.value.getD 0 0 = r.flags := rfl
  have h1 : r.value.getD 1 0 = r.ea_len := rfl
  have h2 : r.value.getD 2 0 = r.prefix4_len := rfl
  have hopts : ((r.ipv6_prefix ++ r.options).drop r.ipv6_prefix.length).take
      (r.value.length - sizeof_dhcpv6_s46_rule - r.ipv6_prefix.length) = r.options := by
    rw [List.drop_left, hlen]
    apply List.take_of_length_le
    simp only [sizeof_dhcpv6_s46_rule]
    omega
  have hpad : in6_memcpy (r.ipv6_prefix ++ r.options) r.ipv6_prefix.length =
      zero_padded r.ipv6_prefix := by
    simp only [in6_memcpy, zero_padded, List.take_left, sizeof_in6_addr]
  simp only [s46_to_blob_iter, S46Rule.option, hs, ne_eq, not_false_eq_true, true_and, hge,
    and_self, if_true, h7, hbytes, hacc, Bool.false_eq_true, if_false, hdrop8, hipv4, h0, h1,
    h2, hopts, hpad, S46Rule.fields, List.cons_append, List.nil_append, List.append_assoc]

theorem s46_iter_bind (type : String) (data : List Byte) (r : S46Bind) (hwf : r.wf) :
    s46_to_blob_iter .STATE_S46_LW type data r.option =
      .open_table "" :: (r.fields type ++ s46_to_blob_portparams r.options ++
        s46_bind_companions data ++ [.close_table]) := by
  obtain ⟨h4, h128, h6⟩ := hwf
  obtain ⟨a, b, c, d, hab⟩ := list_length_four _ h4
  have hbytes : prefix6len_bytes r.bindprefix6_len.val = r.bind_ipv6_prefix.length := by
    rw [prefix6len_bytes_ceil, h6]
  have hlen : r.value.length = 5 + r.bind_ipv6_prefix.length + r.options.length := by
    simp only [S46Bind.value, hab, List.length_cons, List.length_append, List.cons_append,
      List.nil_append]
    omega
  have h4b : r.value.getD 4 0 = r.bindprefix6_len := by
    simp only [S46Bind.value, hab, List.cons_append, List.nil_append]
    rfl
  have hge : r.value.length ≥ sizeof_dhcpv6_s46_v4v6bind := by
    simp only [sizeof_dhcpv6_s46_v4v6bind]
    omega
  have hacc : s46_prefix_rejected sizeof_dhcpv6_s46_v4v6bind r.value.length
      r.bind_ipv6_prefix.length = false :=
    s46_accepted _ _ _ (by simp only [sizeof_in6_addr]; omega)
      (by simp only [sizeof_dhcpv6_s46_v4v6bind]; omega)
  have hdrop5 : r.value.drop sizeof_dhcpv6_s46_v4v6bind = r.bind_ipv6_prefix ++ r.options := by
    simp only [S46Bind.value, hab, List.cons_append, List.nil_append,
      sizeof_dhcpv6_s46_v4v6bind]
    rfl
  have hipv4 : r.value.take 4 = r.ipv4_address := by
    simp only [S46Bind.value, hab, List.cons_append, List.nil_append]
    rfl
  have hopts : ((r.bind_ipv6_prefix ++ r.options).drop r.bind_ipv6_prefix.length).take
      (r.value.length - sizeof_dhcpv6_s46_v4v6bind - r.bind_ipv6_prefix.length) =
      r.options := by
    rw [List.drop_left, hlen]
    apply List.take_of_length_le
    simp only [sizeof_dhcpv6_s46_v4v6bind]
    omega
  have hpad : in6_memcpy (r.bind_ipv6_prefix ++ r.options) r.bind_ipv6_prefix.length =
      zero_padded r.bind_ipv6_prefix := by
    simp only [in6_memcpy, zero_padded, List.take_left, sizeof_in6_addr]
  have hne : DHCPV6_OPT_S46_V4V6BIND ≠ DHCPV6_OPT_S46_RULE := by decide
  simp only [s46_to_blob_iter, S46Bind.option, hne, ne_eq, not_true_eq_false, false_and,
    and_false, if_false, true_and, hge, and_self, if_true, h4b, hbytes, hacc,
    Bool.false_eq_true, hdrop5, hipv4, hopts, hpad, S46Bind.fields, List.cons_append,
    List.nil_append, List.append_assoc]

theorem walk_records (rs : List TlvRecord) (hrs : ∀ r ∈ rs, r.wf) (tail : List Byte)
    (htail : tlv_fits tail = false) :
    dhcpv6_for_each_option (tlv_wire rs ++ tail) = rs.map TlvRecord.option :=
  walk_tlv_wire rs hrs tail htail

theorem portparams_records (subs : List TlvRecord) (hs : ∀ r ∈ subs, r.wf) (tail : List Byte)
    (htail : tlv_fits tail = false) :
    s46_to_blob_portparams (tlv_wire subs ++ tail) = subs.flatMap portparams_fields := by
  unfold s46_to_blob_portparams
  rw [walk_records subs hs tail htail, List.flatMap_map]
  rfl

theorem bind_companions_records (rs : List TlvRecord) (hrs : ∀ r ∈ rs, r.wf) (tail : List Byte)
    (htail : tlv_fits tail = false) :
    s46_bind_companions (tlv_wire rs ++ tail) = rs.flatMap br_field := by
  unfold s46_bind_companions
  rw [walk_records rs hrs tail htail, List.flatMap_map]
  rfl

theorem rule_companions_mape (state : odhcp6c_state) (hs : state ≠ .STATE_S46_MAPT)
    (data : List Byte) : s46_rule_companions state data = s46_bind_companions data := by
  unfold s46_rule_companions s46_bind_companions
  congr 1
  funext o
  simp only [hs, ne_eq, not_false_eq_true, true_and, false_and, if_false]

theorem s46_records (state : odhcp6c_state) (rs : List TlvRecord) (hrs : ∀ r ∈ rs, r.wf)
    (tail : List Byte) (htail : tlv_fits tail = false) (hne : tlv_wire rs ++ tail ≠ []) :
    s46_to_blob state (tlv_wire rs ++ tail) =
      [.open_array (s46_name state)] ++
        rs.flatMap (fun r =>
          s46_to_blob_iter state (s46_type state) (tlv_wire rs ++ tail) r.option) ++
        [.close_array] := by
  rw [s46_to_blob_eq state _ hne, walk_records rs hrs tail htail, List.flatMap_map]

/-- C13 (the code at the failing input): for a MAP-E buffer holding one
well-formed rule record followed by a border-relay option, `s46_to_blob` builds
an array of two sub-tables, the decoded rule and an empty table for the
border-relay option, where one sub-table per decoded rule record is claimed. -/
theorem s46_to_blob_empty_table_for_other_option :
    s46_to_blob .STATE_S46_MAPE (sample_rule ++ sample_br) =
      [.open_array "MAPE",
        .open_table "",
        .string_buffer "ipv4prefix" (.ntop4 [192, 0, 2, 0]),
        .string_buffer "ipv6prefix" (.ntop6 [0x20, 0x01, 0, 0, 0, 0, 0, 0, 0, 0, 0, 0, 0, 0, 0, 0]),
        .add_u8 "fmr" 0, .add_string "type" "map-e", .add_u8 "ealen" 16,
        .add_u8 "prefix4len" 24, .add_u8 "prefix6len" 16,
        .string_buffer "br"
          (.ntop6 [0x20, 0x01, 0x0d, 0xb8, 0, 0, 0, 0, 0, 0, 0, 0, 0, 0, 0, 1]),
        .close_table,
        .open_table "",
        .close_table,
        .close_array] ∧
    blob_parse (s46_to_blob .STATE_S46_MAPE (sample_rule ++ sample_br)) =
      some [.array "MAPE"
        [.table ""
          [⟨"ipv4prefix", .str (.ntop4 [192, 0, 2, 0])⟩,
            ⟨"ipv6prefix", .str (.ntop6 [0x20, 0x01, 0, 0, 0, 0, 0, 0, 0, 0, 0, 0, 0, 0, 0, 0])⟩,
            ⟨"fmr", .u8 0⟩, ⟨"type", .str (.lit "map-e")⟩, ⟨"ealen", .u8 16⟩,
            ⟨"prefix4len", .u8 24⟩, ⟨"prefix6len", .u8 16⟩,
            ⟨"br", .str (.ntop6 [0x20, 0x01, 0x0d, 0xb8, 0, 0, 0, 0, 0, 0, 0, 0, 0, 0, 0, 1])⟩],
          .table "" []]] := by
  decide

theorem none_named_append (names : List String) (a b : List Call) :
    none_named names (a ++ b) = (none_named names a && none_named names b) := by
  simp [none_named, List.all_append]

theorem none_named_cons (names : List String) (c : Call) (cs : List Call) :
    none_named names (c :: cs) = (!c.named names && none_named names cs) := rfl

theorem none_named_flatMap {α : Type} (names : List String) (l : List α) (f : α → List Call)
    (h : ∀ x ∈ l, none_named names (f x) = true) : none_named names (l.flatMap f) = true := by
  induction l with
  | nil => rfl
  | cons a l ih =>
    rw [List.flatMap_cons, none_named_append, h a (List.mem_cons_self _ _),
      ih fun x hx => h x (List.mem_cons_of_mem _ hx)]
    rfl

theorem none_named_mem (names : List String) (cs : List Call) (h : none_named names cs = true) :
    ∀ c ∈ cs, ∀ s ∈ names, c.name ≠ some s := by
  intro c hc s hs hn
  have hl := List.all_eq_true.mp h c hc
  simp only [Call.named, hn, Bool.not_eq_true', List.contains_eq_any_beq, List.any_eq_false,
    beq_iff_eq] at hl
  exact hl s hs rfl

theorem portparams_not_named (names : List String)
    (hn : names = ["dmr", "dmrprefix6len"] ∨ names = ["br"]) (data : List Byte) :
    none_named names (s46_to_blob_portparams data) = true := by
  unfold s46_to_blob_portparams
  apply none_named_flatMap
  intro o _
  dsimp only
  rcases hn with rfl | rfl <;> (split <;> rfl)

theorem bind_companions_no_dmr (data : List Byte) :
    none_named ["dmr", "dmrprefix6len"] (s46_bind_companions data) = true := by
  unfold s46_bind_companions
  apply none_named_flatMap
  intro o _
  dsimp only
  split <;> rfl

theorem rule_companions_mapt_no_br (data : List Byte) :
    none_named ["br"] (s46_rule_companions .STATE_S46_MAPT data) = true := by
  unfold s46_rule_companions
  apply none_named_flatMap
  intro o _
  simp only [ne_eq, not_true_eq_false, false_and, if_false, true_and]
  split
  · split <;> rfl
  · rfl

theorem s46_iter_no_dmr (state : odhcp6c_state) (hs : state ≠ .STATE_S46_MAPT) (type : String)
    (data : List Byte) (o : dhcpv6_option) :
    none_named ["dmr", "dmrprefix6len"] (s46_to_blob_iter state type data o) = true := by
  unfold s46_to_blob_iter
  rw [none_named_cons]
  split
  · split
    · rfl
    · simp only [none_named_append, portparams_not_named _ (Or.inl rfl),
        rule_companions_mape state hs, bind_companions_no_dmr]
      rfl
  · split
    · split
      · rfl
      · simp only [none_named_append, portparams_not_named _ (Or.inl rfl),
          bind_companions_no_dmr]
        rfl
    · rfl

theorem s46_iter_mapt_no_br (type : String) (data : List Byte) (o : dhcpv6_option) :
    none_named ["br"] (s46_to_blob_iter .STATE_S46_MAPT type data o) = true := by
  unfold s46_to_blob_iter
  rw [none_named_cons]
  simp only [reduceCtorEq, false_and, if_false, ne_eq, not_false_eq_true, true_and]
  split
  · split
    · rfl
    · simp only [none_named_append, portparams_not_named _ (Or.inr rfl),
        rule_companions_mapt_no_br]
      rfl
  · rfl

theorem s46_none_named (names : List String) (state : odhcp6c_state) (data : List Byte)
    (hname : (Call.open_array (s46_name state)).named names = false)
    (h : ∀ o, none_named names (s46_to_blob_iter state (s46_type state) data o) = true) :
    none_named names (s46_to_blob state data) = true := by
  by_cases hd : data = []
  · subst hd
    rfl
  · rw [s46_to_blob_eq state data hd, none_named_append, none_named_append,
      none_named_flatMap _ _ _ fun o _ => h o]
    simp only [none_named, List.all_cons, hname, List.all_nil]
    rfl

/-- C14: mechanism-irrelevant fields never appear.  For every buffer, no call
of `s46_to_blob` under MAP-E or lw4o6 creates an attribute named `dmr` or
`dmrprefix6len`, and none under MAP-T creates one named `br`; under lw4o6 a
rule-typed record, and under MAP-E or MAP-T a bind-typed record, yields no
field at all (only the opening and closing of its table). -/
theorem s46_to_blob_mechanism_fields :
    (∀ (data : List Byte) (c : Call), c ∈ s46_to_blob .STATE_S46_MAPE data →
      c.name ≠ some "dmr" ∧ c.name ≠ some "dmrprefix6len") ∧
    (∀ (data : List Byte) (c : Call), c ∈ s46_to_blob .STATE_S46_LW data →
      c.name ≠ some "dmr" ∧ c.name ≠ some "dmrprefix6len") ∧
    (∀ (data : List Byte) (c : Call), c ∈ s46_to_blob .STATE_S46_MAPT data →
      c.name ≠ some "br") ∧
    (∀ (type : String) (data : List Byte) (o : dhcpv6_option),
      o.otype = DHCPV6_OPT_S46_RULE →
      s46_to_blob_iter .STATE_S46_LW type data o = [.open_table "", .close_table]) ∧
    (∀ (state : odhcp6c_state) (type : String) (data : List Byte) (o : dhcpv6_option),
      state = .STATE_S46_MAPE ∨ state = .STATE_S46_MAPT →
      o.otype = DHCPV6_OPT_S46_V4V6BIND →
      s46_to_blob_iter state type data o = [.open_table "", .close_table]) := by
  refine ⟨?_, ?_, ?_, ?_, ?_⟩
  · intro data c hc
    have h := none_named_mem _ _ (s46_none_named ["dmr", "dmrprefix6len"] .STATE_S46_MAPE data
      rfl fun o => s46_iter_no_dmr _ (by decide) _ data o) c hc
    exact ⟨h "dmr" (by simp), h "dmrprefix6len" (by simp)⟩
  · intro data c hc
    have h := none_named_mem _ _ (s46_none_named ["dmr", "dmrprefix6len"] .STATE_S46_LW data
      rfl fun o => s46_iter_no_dmr _ (by decide) _ data o) c hc
    exact ⟨h "dmr" (by simp), h "dmrprefix6len" (by simp)⟩
  · intro data c hc
    exact none_named_mem _ _ (s46_none_named ["br"] .STATE_S46_MAPT data
      rfl fun o => s46_iter_mapt_no_br _ data o) c hc "br" (by simp)
  · intro type data o ht
    have hne : DHCPV6_OPT_S46_RULE ≠ DHCPV6_OPT_S46_V4V6BIND := by decide
    simp only [s46_to_blob_iter, ht, hne, ne_eq, not_true_eq_false, false_and, and_false,
      if_false]
  · intro state type data o hs ht
    have hne : DHCPV6_OPT_S46_V4V6BIND ≠ DHCPV6_OPT_S46_RULE := by decide
    have hlw : state ≠ .STATE_S46_LW := by
      rcases hs with rfl | rfl <;> decide
    simp only [s46_to_blob_iter, ht, hne, hlw, ne_eq, not_false_eq_true, false_and, and_false,
      if_false]

/-- Witness of C14: a MAP-E buffer holding a rule record and a well-formed DMR
option yields no `dmr` field, and under lw4o6 the rule record yields no field. -/
theorem s46_to_blob_mechanism_fields_witness :
    (∀ c ∈ s46_to_blob .STATE_S46_MAPE (sample_rule ++ sample_dmr),
      c.name ≠ some "dmr" ∧ c.name ≠ some "dmrprefix6len") ∧
    s46_to_blob_iter .STATE_S46_LW "lw4o6" sample_rule sample_rule_record.option =
      [.open_table "", .close_table] :=
  ⟨fun c hc => s46_to_blob_mechanism_fields.1 (sample_rule ++ sample_dmr) c hc,
    s46_to_blob_mechanism_fields.2.2.2.1 "lw4o6" sample_rule sample_rule_record.option rfl⟩

theorem zero_padded_length (pfx : List Byte) (h : pfx.length ≤ 16) :
    (zero_padded pfx).length = 16 := by
  simp only [zero_padded, List.length_append, List.length_replicate]
  omega

/-- C15: a buffer of whole records is decoded record by record, in order, and
the sub-table of every well-formed rule record under MAP-E or MAP-T begins
with, in order, `ipv4prefix` (text of the 4-byte IPv4 prefix), `ipv6prefix`
(text of the 16-byte address made of the prefix bytes followed by zeros),
`fmr` (the flags byte), `type` (`map-e` or `map-t`, matching the mechanism),
`ealen`, `prefix4len` and `prefix6len`; the sub-table of a well-formed bind
record under lw4o6 begins with `ipv4prefix` (the bind IPv4 address),
`ipv6prefix` (the zero-padded bind prefix), `type = lw4o6`, `prefix4len = 32`
and `prefix6len`. -/
theorem s46_to_blob_record_fields :
    (∀ (state : odhcp6c_state) (rs : List TlvRecord) (tail : List Byte),
      (∀ r ∈ rs, r.wf) → tlv_fits tail = false → tlv_wire rs ++ tail ≠ [] →
      s46_to_blob state (tlv_wire rs ++ tail) =
        [.open_array (s46_name state)] ++
          rs.flatMap (fun r =>
            s46_to_blob_iter state (s46_type state) (tlv_wire rs ++ tail) r.option) ++
          [.close_array]) ∧
    (∀ (data : List Byte) (r : S46Rule), r.wf →
      s46_to_blob_iter .STATE_S46_MAPE (s46_type .STATE_S46_MAPE) data
          (TlvRecord.option ⟨DHCPV6_OPT_S46_RULE, r.value⟩) =
        .open_table "" ::
          ([.string_buffer "ipv4prefix" (.ntop4 r.ipv4_prefix),
            .string_buffer "ipv6prefix" (.ntop6 (zero_padded r.ipv6_prefix)),
            .add_u8 "fmr" r.flags.val,
            .add_string "type" "map-e",
            .add_u8 "ealen" r.ea_len.val,
            .add_u8 "prefix4len" r.prefix4_len.val,
            .add_u8 "prefix6len" r.prefix6_len.val] ++
          (s46_to_blob_portparams r.options ++
            s46_rule_companions .STATE_S46_MAPE data ++ [.close_table])) ∧
      (zero_padded r.ipv6_prefix).length = 16) ∧
    (∀ (data : List Byte) (r : S46Rule), r.wf →
      s46_to_blob_iter .STATE_S46_MAPT (s46_type .STATE_S46_MAPT) data
          (TlvRecord.option ⟨DHCPV6_OPT_S46_RULE, r.value⟩) =
        .open_table "" ::
          ([.string_buffer "ipv4prefix" (.ntop4 r.ipv4_prefix),
            .string_buffer "ipv6prefix" (.ntop6 (zero_padded r.ipv6_prefix)),
            .add_u8 "fmr" r.flags.val,
            .add_string "type" "map-t",
            .add_u8 "ealen" r.ea_len.val,
            .add_u8 "prefix4len" r.prefix4_len.val,
            .add_u8 "prefix6len" r.prefix6_len.val] ++
          (s46_to_blob_portparams r.options ++
            s46_rule_companions .STATE_S46_MAPT data ++ [.close_table]))) ∧
    (∀ (data : List Byte) (r : S46Bind), r.wf →
      s46_to_blob_iter .STATE_S46_LW (s46_type .STATE_S46_LW) data
          (TlvRecord.option ⟨DHCPV6_OPT_S46_V4V6BIND, r.value⟩) =
        .open_table "" ::
          ([.string_buffer "ipv4prefix" (.ntop4 r.ipv4_address),
            .string_buffer "ipv6prefix" (.ntop6 (zero_padded r.bind_ipv6_prefix)),
            .add_string "type" "lw4o6",
            .add_u8 "prefix4len" 32,
            .add_u8 "prefix6len" r.bindprefix6_len.val] ++
          (s46_to_blob_portparams r.options ++ s46_bind_companions data ++
            [.close_table])) ∧
      (zero_padded r.bind_ipv6_prefix).length = 16) := by
  refine ⟨fun state rs tail hrs htail hne => s46_records state rs hrs tail htail hne,
    ?_, ?_, ?_⟩
  · intro data r hwf
    refine ⟨?_, zero_padded_length _ (by have := hwf.2.1; have := hwf.2.2; omega)⟩
    have h := s46_iter_rule .STATE_S46_MAPE (s46_type .STATE_S46_MAPE) data r hwf (by decide)
    simpa [S46Rule.fields, s46_type, List.append_assoc] using h
  · intro data r hwf
    have h := s46_iter_rule .STATE_S46_MAPT (s46_type .STATE_S46_MAPT) data r hwf (by decide)
    simpa [S46Rule.fields, s46_type, List.append_assoc] using h
  · intro data r hwf
    refine ⟨?_, zero_padded_length _ (by have := hwf.2.1; have := hwf.2.2; omega)⟩
    have h := s46_iter_bind (s46_type .STATE_S46_LW) data r hwf
    simpa [S46Bind.fields, s46_type, List.append_assoc] using h

/-- Witness of C15: the sample rule record under MAP-E and the sample bind
record under lw4o6. -/
theorem s46_to_blob_record_fields_witness :
    s46_to_blob_iter .STATE_S46_MAPE "map-e" sample_rule sample_rule_record.option =
      [.open_table "",
        .string_buffer "ipv4prefix" (.ntop4 [192, 0, 2, 0]),
        .string_buffer "ipv6prefix" (.ntop6 [0x20, 0x01, 0, 0, 0, 0, 0, 0, 0, 0, 0, 0, 0, 0, 0, 0]),
        .add_u8 "fmr" 0, .add_string "type" "map-e", .add_u8 "ealen" 16,
        .add_u8 "prefix4len" 24, .add_u8 "prefix6len" 16,
        .close_table] ∧
    (zero_padded sample_bind_record.bind_ipv6_prefix).length = 16 :=
  ⟨(s46_to_blob_record_fields.2.1 sample_rule sample_rule_record (by decide)).1,
    (s46_to_blob_record_fields.2.2.2 [] sample_bind_record (by decide)).2⟩

/-- C16 (the code at the failing input): for a MAP-T buffer holding a
well-formed rule record and a well-formed DMR option with the 96-bit prefix
`64:ff9b::/96`, the rule's sub-table holds `dmrprefix6len = 96`, but its `dmr`
field is the text of the all-zero address: `in6` is cleared at line 395 and the
prefix bytes of the option are never copied into it before line 405 prints it. -/
theorem s46_to_blob_dmr_is_zero_address :
    s46_to_blob .STATE_S46_MAPT (sample_rule ++ sample_dmr) =
      [.open_array "MAPT",
        .open_table "",
        .string_buffer "ipv4prefix" (.ntop4 [192, 0, 2, 0]),
        .string_buffer "ipv6prefix" (.ntop6 [0x20, 0x01, 0, 0, 0, 0, 0, 0, 0, 0, 0, 0, 0, 0, 0, 0]),
        .add_u8 "fmr" 0, .add_string "type" "map-t", .add_u8 "ealen" 16,
        .add_u8 "prefix4len" 24, .add_u8 "prefix6len" 16,
        .string_buffer "dmr" (.ntop6 [0, 0, 0, 0, 0, 0, 0, 0, 0, 0, 0, 0, 0, 0, 0, 0]),
        .add_u8 "dmrprefix6len" 96,
        .close_table,
        .open_table "",
        .close_table,
        .close_array] ∧
    zero_padded [0x00, 0x64, 0xff, 0x9b, 0, 0, 0, 0, 0, 0, 0, 0] =
      [0x00, 0x64, 0xff, 0x9b, 0, 0, 0, 0, 0, 0, 0, 0, 0, 0, 0, 0] := by
  decide

/-- C17: the nested walk of a well-formed rule or bind record runs over the
bytes that follow its IPv6 prefix, exactly `olen - header - ceil(bits / 8)`
bytes of the record, and over a run of whole sub-options it adds `offset`,
`psidlen` and the big-endian `psid` for each port-parameters sub-option of
exactly 4 bytes and nothing for a port-parameters sub-option of another length
or a sub-option of another type, going on to the sub-options that follow. -/
theorem s46_portparams_walk :
    (∀ (subs : List TlvRecord) (tail : List Byte), (∀ s ∈ subs, s.wf) →
      tlv_fits tail = false →
      s46_to_blob_portparams (tlv_wire subs ++ tail) = subs.flatMap portparams_fields) ∧
    (∀ (state : odhcp6c_state) (type : String) (data : List Byte) (r : S46Rule), r.wf →
      state ≠ .STATE_S46_LW →
      s46_to_blob_iter state type data r.option =
        .open_table "" :: (r.fields type ++ s46_to_blob_portparams r.options ++
          s46_rule_companions state data ++ [.close_table]) ∧
      r.options = r.option.odata.drop
        (sizeof_dhcpv6_s46_rule + (r.prefix6_len.val + 7) / 8) ∧
      r.options.length =
        r.option.olen - sizeof_dhcpv6_s46_rule - (r.prefix6_len.val + 7) / 8) ∧
    (∀ (type : String) (data : List Byte) (r : S46Bind), r.wf →
      s46_to_blob_iter .STATE_S46_LW type data r.option =
        .open_table "" :: (r.fields type ++ s46_to_blob_portparams r.options ++
          s46_bind_companions data ++ [.close_table]) ∧
      r.options = r.option.odata.drop
        (sizeof_dhcpv6_s46_v4v6bind + (r.bindprefix6_len.val + 7) / 8) ∧
      r.options.length =
        r.option.olen - sizeof_dhcpv6_s46_v4v6bind - (r.bindprefix6_len.val + 7) / 8) := by
  refine ⟨fun subs tail hs htail => portparams_records subs hs tail htail, ?_, ?_⟩
  · intro state type data r hwf hs
    refine ⟨s46_iter_rule state type data r hwf hs, ?_, ?_⟩
    · obtain ⟨h4, _, h6⟩ := hwf
      obtain ⟨a, b, c, d, hab⟩ := list_length_four _ h4
      simp only [S46Rule.option, S46Rule.value, hab, sizeof_dhcpv6_s46_rule, ← h6,
        List.cons_append, List.nil_append]
      rw [show 8 + r.ipv6_prefix.length = r.ipv6_prefix.length + 8 by omega]
      simp only [List.drop_succ_cons, List.drop_left]
    · obtain ⟨h4, _, h6⟩ := hwf
      simp only [S46Rule.option, S46Rule.value, sizeof_dhcpv6_s46_rule, ← h6,
        List.length_cons, List.length_append, h4]
      omega
  · intro type data r hwf
    refine ⟨s46_iter_bind type data r hwf, ?_, ?_⟩
    · obtain ⟨h4, _, h6⟩ := hwf
      obtain ⟨a, b, c, d, hab⟩ := list_length_four _ h4
      simp only [S46Bind.option, S46Bind.value, hab, sizeof_dhcpv6_s46_v4v6bind, ← h6,
        List.cons_append, List.nil_append]
      rw [show 5 + r.bind_ipv6_prefix.length = r.bind_ipv6_prefix.length + 5 by omega]
      simp only [List.drop_succ_cons, List.drop_left]
    · obtain ⟨h4, _, h6⟩ := hwf
      simp only [S46Bind.option, S46Bind.value, sizeof_dhcpv6_s46_v4v6bind, ← h6,
        List.length_cons, List.length_append, h4]
      omega

/-- Witness of C17: in the sample rule record whose nested bytes hold a
port-parameters sub-option of length 2 and then one of length 4, the first
adds nothing and the second adds offset 6, PSID length 8 and PSID 0x3400. -/
theorem s46_portparams_walk_witness :
    s46_to_blob_portparams sample_rule_ports.options =
      [.add_u8 "offset" 6, .add_u8 "psidlen" 8, .add_u16 "psid" 13312] ∧
    s46_to_blob_iter .STATE_S46_MAPE "map-e" [] sample_rule_ports.option =
      [.open_table "",
        .string_buffer "ipv4prefix" (.ntop4 [192, 0, 2, 0]),
        .string_buffer "ipv6prefix" (.ntop6 [0x20, 0x01, 0, 0, 0, 0, 0, 0, 0, 0, 0, 0, 0, 0, 0, 0]),
        .add_u8 "fmr" 0, .add_string "type" "map-e", .add_u8 "ealen" 16,
        .add_u8 "prefix4len" 24, .add_u8 "prefix6len" 16,
        .add_u8 "offset" 6, .add_u8 "psidlen" 8, .add_u16 "psid" 13312,
        .close_table] :=
  ⟨s46_portparams_walk.1 [⟨93, [9, 9]⟩, ⟨93, [6, 8, 0x34, 0x00]⟩] [] (by decide) rfl,
    (s46_portparams_walk.2.1 .STATE_S46_MAPE "map-e" [] sample_rule_ports (by decide)
      (by decide)).1⟩

/-- C18: a buffer of whole records is decoded record by record, in order,
whatever the inner walks do; in the sub-table of every well-formed rule record
(bind record under lw4o6) the companion fields are one and the same sequence,
computed from the whole buffer and not from the record or its nested
sub-options: the `br` fields of the border-relay options of the buffer under
MAP-E and lw4o6, fields named `dmr` or `dmrprefix6len` under MAP-T. -/
theorem s46_companions_from_whole_buffer (rs : List TlvRecord) (tail : List Byte)
    (hrs : ∀ r ∈ rs, r.wf) (htail : tlv_fits tail = false) (hne : tlv_wire rs ++ tail ≠ []) :
    (∀ state : odhcp6c_state,
      s46_to_blob state (tlv_wire rs ++ tail) =
        [.open_array (s46_name state)] ++
          rs.flatMap (fun r =>
            s46_to_blob_iter state (s46_type state) (tlv_wire rs ++ tail) r.option) ++
          [.close_array]) ∧
    (∀ r : S46Rule, r.wf →
      s46_to_blob_iter .STATE_S46_MAPE (s46_type .STATE_S46_MAPE) (tlv_wire rs ++ tail)
          r.option =
        .open_table "" :: (r.fields "map-e" ++ s46_to_blob_portparams r.options ++
          rs.flatMap br_field ++ [.close_table])) ∧
    (∃ comp : List Call,
      (∀ c ∈ comp, c.name = some "dmr" ∨ c.name = some "dmrprefix6len") ∧
      ∀ r : S46Rule, r.wf →
        s46_to_blob_iter .STATE_S46_MAPT (s46_type .STATE_S46_MAPT) (tlv_wire rs ++ tail)
            r.option =
          .open_table "" :: (r.fields "map-t" ++ s46_to_blob_portparams r.options ++
            comp ++ [.close_table])) ∧
    (∀ r : S46Bind, r.wf →
      s46_to_blob_iter .STATE_S46_LW (s46_type .STATE_S46_LW) (tlv_wire rs ++ tail)
          r.option =
        .open_table "" :: (r.fields "lw4o6" ++ s46_to_blob_portparams r.options ++
          rs.flatMap br_field ++ [.close_table])) := by
  refine ⟨fun state => s46_records state rs hrs tail htail hne, ?_, ?_, ?_⟩
  · intro r hwf
    rw [s46_iter_rule _ _ _ r hwf (by decide), rule_companions_mape _ (by decide),
      bind_companions_records rs hrs tail htail]
    rfl
  · refine ⟨s46_rule_companions .STATE_S46_MAPT (tlv_wire rs ++ tail), ?_, ?_⟩
    · intro c hc
      unfold s46_rule_companions at hc
      obtain ⟨o, _, hco⟩ := List.mem_flatMap.mp hc
      simp only [ne_eq, not_true_eq_false, false_and, if_false, true_and] at hco
      split at hco
      · split at hco
        · simp at hco
        · simp only [List.mem_cons, List.mem_singleton, List.not_mem_nil, or_false] at hco
          rcases hco with rfl | rfl
          · exact Or.inl rfl
          · exact Or.inr rfl
      · simp at hco
    · intro r hwf
      rw [s46_iter_rule _ _ _ r hwf (by decide)]
      rfl
  · intro r hwf
    rw [s46_iter_bind _ _ r hwf, bind_companions_records rs hrs tail htail]
    rfl

/-- Witness of C18: in the MAP-E buffer made of a rule record with nested
port parameters, the border-relay option and a second rule record, both rules
are decoded and both sub-tables carry the same `br` field. -/
theorem s46_companions_from_whole_buffer_witness :
    s46_to_blob_iter .STATE_S46_MAPE "map-e"
        (tlv_wire [⟨89, sample_rule_ports.value⟩, ⟨90, sample_br.drop 4⟩,
          ⟨89, sample_rule_record.value⟩] ++ []) sample_rule_record.option =
      [.open_table "",
        .string_buffer "ipv4prefix" (.ntop4 [192, 0, 2, 0]),
        .string_buffer "ipv6prefix" (.ntop6 [0x20, 0x01, 0, 0, 0, 0, 0, 0, 0, 0, 0, 0, 0, 0, 0, 0]),
        .add_u8 "fmr" 0, .add_string "type" "map-e", .add_u8 "ealen" 16,
        .add_u8 "prefix4len" 24, .add_u8 "prefix6len" 16,
        .string_buffer "br"
          (.ntop6 [0x20, 0x01, 0x0d, 0xb8, 0, 0, 0, 0, 0, 0, 0, 0, 0, 0, 0, 1]),
        .close_table] :=
  (s46_companions_from_whole_buffer
    [⟨89, sample_rule_ports.value⟩, ⟨90, sample_br.drop 4⟩, ⟨89, sample_rule_record.value⟩] []
    (by decide) rfl (by decide)).2.1 sample_rule_record (by decide)

/-! ## `fqdn_to_blob`: expansion failure -/

theorem fqdn_loop_fail (name : String) (bs fuel : Nat) (fqdn : List Byte) (hne : fqdn ≠ [])
    (hfail : (dn_expand fqdn bs).1 < 1) :
    fqdn_to_blob_loop name bs (fuel + 1) fqdn = [.string_buffer name (.lit "")] := by
  have hl : ¬ fqdn.length = 0 := fun h => hne (List.length_eq_zero.mp h)
  simp only [fqdn_to_blob_loop, if_neg hl, if_pos hfail]

theorem fqdn_loop_ok (name : String) (bs fuel : Nat) (fqdn : List Byte) (hne : fqdn ≠ [])
    (hok : ¬ (dn_expand fqdn bs).1 < 1) :
    fqdn_to_blob_loop name bs (fuel + 1) fqdn =
      .string_buffer name
          (.lit (chars (cstr ((dn_expand fqdn bs).2.take (dn_expand fqdn bs).1.toNat)))) ::
        fqdn_to_blob_loop name bs fuel (fqdn.drop (dn_expand fqdn bs).1.toNat) := by
  have hl : ¬ fqdn.length = 0 := fun h => hne (List.length_eq_zero.mp h)
  simp only [fqdn_to_blob_loop, if_neg hl, if_neg hok]

theorem fqdn_loop_fuel (name : String) (bs : Nat) (f1 : Nat) :
    ∀ (f2 : Nat) (fqdn : List Byte), fqdn.length ≤ f1 → fqdn.length ≤ f2 →
      fqdn_to_blob_loop name bs f1 fqdn = fqdn_to_blob_loop name bs f2 fqdn := by
  induction f1 with
  | zero =>
    intro f2 fqdn h1 _
    have hb : fqdn = [] := List.length_eq_zero.mp (Nat.le_zero.mp h1)
    subst hb
    cases f2 <;> simp [fqdn_to_blob_loop]
  | succ n ih =>
    intro f2 fqdn h1 h2
    by_cases hne : fqdn = []
    · subst hne
      cases f2 <;> simp [fqdn_to_blob_loop]
    · have hpos : 0 < fqdn.length := List.length_pos.mpr hne
      obtain ⟨m, rfl⟩ : ∃ m, f2 = m + 1 := ⟨f2 - 1, by omega⟩
      by_cases hfail : (dn_expand fqdn bs).1 < 1
      · rw [fqdn_loop_fail name bs n fqdn hne hfail, fqdn_loop_fail name bs m fqdn hne hfail]
      · rw [fqdn_loop_ok name bs n fqdn hne hfail, fqdn_loop_ok name bs m fqdn hne hfail]
        congr 1
        have hl : 1 ≤ (dn_expand fqdn bs).1.toNat := by omega
        apply ih <;> simp only [List.length_drop] <;> omega

theorem fqdn_loop_length (name : String) (bs : Nat) (fuel : Nat) :
    ∀ fqdn : List Byte, (fqdn_to_blob_loop name bs fuel fqdn).length ≤ fqdn.length := by
  induction fuel with
  | zero => intro fqdn; simp [fqdn_to_blob_loop]
  | succ n ih =>
    intro fqdn
    by_cases hne : fqdn = []
    · subst hne
      simp [fqdn_to_blob_loop]
    · have hpos : 0 < fqdn.length := List.length_pos.mpr hne
      by_cases hfail : (dn_expand fqdn bs).1 < 1
      · rw [fqdn_loop_fail name bs n fqdn hne hfail]
        simpa using hpos
      · rw [fqdn_loop_ok name bs n fqdn hne hfail]
        have hl : 1 ≤ (dn_expand fqdn bs).1.toNat := by omega
        have := ih (fqdn.drop (dn_expand fqdn bs).1.toNat)
        simp only [List.length_cons, List.length_drop] at this ⊢
        omega

theorem fqdn_loop_plain_then (name : String) (L : Nat) (ns : List (List (List Byte)))
    (rest : List Byte) :
    ∀ fuel : Nat, (∀ n ∈ ns, plain_name n) → (names_wire ns ++ rest).length ≤ fuel →
      (names_wire ns ++ rest).length ≤ L →
      fqdn_to_blob_loop name (fqdn_buf_size L) fuel (names_wire ns ++ rest) =
        (ns.map fun n => Call.string_buffer name (.lit (chars (name_text n)))) ++
          fqdn_to_blob_loop name (fqdn_buf_size L) rest.length rest := by
  induction ns with
  | nil =>
    intro fuel _ hfuel _
    simp only [names_wire, List.nil_append, List.map_nil] at hfuel ⊢
    exact fqdn_loop_fuel name _ fuel rest.length rest hfuel (Nat.le_refl _)
  | cons n ns ih =>
    intro fuel hp hfuel hL
    have hpn := hp n (List.mem_cons_self _ _)
    have hwl := labels_le_wire n fun l hl => (hpn.1 l hl).1
    simp only [names_wire, List.length_append, List.append_assoc] at hfuel hL
    obtain ⟨f, rfl⟩ : ∃ f, fuel = f + 1 := ⟨fuel - 1, by omega⟩
    have hs : (name_wire n).length < fqdn_buf_size L ∨ 254 < fqdn_buf_size L := by
      unfold fqdn_buf_size
      split <;> omega
    have hdn := dn_expand_plain n (names_wire ns ++ rest) (fqdn_buf_size L) hpn hs
    have hne : name_wire n ++ (names_wire ns ++ rest) ≠ [] := by
      intro h
      have := congrArg List.length h
      simp only [List.length_append, List.length_nil] at this
      omega
    have hok : ¬ (dn_expand (name_wire n ++ (names_wire ns ++ rest)) (fqdn_buf_size L)).1 < 1 := by
      rw [hdn]
      show ¬ (((name_wire n).length : Nat) : Int) < 1
      omega
    have htake : (name_text n).take (name_wire n).length = name_text n :=
      List.take_of_length_le (Nat.le_of_lt (name_text_lt_wire n).1)
    have hc : cstr (name_text n) = name_text n :=
      cstr_of_no_nul _ (name_text_no_nul n fun l hl => (hpn.1 l hl).2.2)
    simp only [names_wire, List.append_assoc, List.map_cons, List.cons_append]
    rw [fqdn_loop_ok name _ f _ hne hok, hdn]
    simp only [Int.toNat_ofNat, htake, hc, List.drop_left]
    rw [ih f (fun m hm => hp m (List.mem_cons_of_mem _ hm))
      (by simp only [List.length_append]; omega) (by simp only [List.length_append]; omega)]

theorem event_run_ok (env : Env) (status : String) (hbus : env.ubus = true)
    (hsub : env.has_subscribers = true) (hroom : alloc_count (event_calls env) ≤ env.room)
    (hnotify : env.ubus_notify = .UBUS_STATUS_OK) :
    ubus_dhcp_event env status =
      ⟨.UBUS_STATUS_OK, event_calls env, [(status, event_calls env)], true⟩ := by
  unfold ubus_dhcp_event
  rw [if_neg (by simp [hbus, hsub]), blob_alloc_of_count _ _ hroom]
  simp [hnotify]

theorem fqdn_to_blob_names_then_fail (name : String) (ns : List (List (List Byte)))
    (bad : List Byte) (hns : ∀ n ∈ ns, plain_name n) (hbad : bad ≠ [])
    (hfail : (dn_expand bad (fqdn_buf_size (names_wire ns ++ bad).length)).1 < 1) :
    fqdn_to_blob name (names_wire ns ++ bad) =
      [.open_array name] ++
        ((ns.map name_text ++ [[]]).map fun t => Call.string_buffer name (.lit (chars t))) ++
        [.close_array] := by
  unfold fqdn_to_blob
  have h := fqdn_loop_plain_then name (names_wire ns ++ bad).length ns bad
    (names_wire ns ++ bad).length hns (Nat.le_refl _) (Nat.le_refl _)
  have hpos : 0 < bad.length := List.length_pos.mpr hbad
  obtain ⟨f, hf⟩ : ∃ f, bad.length = f + 1 := ⟨bad.length - 1, by omega⟩
  rw [hf, fqdn_loop_fail name _ f bad hbad hfail] at h
  unfold fqdn_buf_size at h hfail
  rw [h]
  simp only [List.map_append, List.map_map, List.map_cons, List.map_nil]
  rfl

set_option maxRecDepth 8192 in
/-- C19: when the expansion of a name fails, `fqdn_to_blob` adds one empty
string for it and ends the loop, whatever follows in the buffer, and after a
successful expansion it adds the name and goes on at least one byte further;
so for a buffer made of well-formed plain names followed by bytes whose
expansion fails, the array holds the texts of those names, then one empty
string, and is closed.  The loop adds at most `len` strings for a buffer of
`len` bytes, so `len` rounds are enough.  The call sequence is complete either
way: with no allocation failing and `ubus_notify` succeeding,
`ubus_dhcp_event` returns success and sends the notification once. -/
theorem fqdn_to_blob_expansion_failure :
    (∀ (name : String) (bs fuel : Nat) (fqdn : List Byte), fqdn ≠ [] →
      ((dn_expand fqdn bs).1 < 1 →
        fqdn_to_blob_loop name bs (fuel + 1) fqdn = [.string_buffer name (.lit "")]) ∧
      (¬ (dn_expand fqdn bs).1 < 1 →
        1 ≤ (dn_expand fqdn bs).1.toNat ∧
        fqdn_to_blob_loop name bs (fuel + 1) fqdn =
          .string_buffer name
              (.lit (chars (cstr ((dn_expand fqdn bs).2.take (dn_expand fqdn bs).1.toNat)))) ::
            fqdn_to_blob_loop name bs fuel (fqdn.drop (dn_expand fqdn bs).1.toNat))) ∧
    (∀ (name : String) (ns : List (List (List Byte))) (bad : List Byte),
      (∀ n ∈ ns, plain_name n) → bad ≠ [] →
      (dn_expand bad (fqdn_buf_size (names_wire ns ++ bad).length)).1 < 1 →
      fqdn_to_blob name (names_wire ns ++ bad) =
        [.open_array name] ++
          ((ns.map name_text ++ [[]]).map fun t =>
            Call.string_buffer name (.lit (chars t))) ++
          [.close_array] ∧
      blob_parse (fqdn_to_blob name (names_wire ns ++ bad)) =
        some [.array name ((ns.map name_text ++ [[]]).map fun t =>
          .item ⟨name, .str (.lit (chars t))⟩)]) ∧
    (∀ (name : String) (bs : Nat) (fqdn : List Byte),
      (fqdn_to_blob_loop name bs fqdn.length fqdn).length ≤ fqdn.length ∧
      ∀ fuel : Nat, fqdn.length ≤ fuel →
        fqdn_to_blob_loop name bs fuel fqdn = fqdn_to_blob_loop name bs fqdn.length fqdn) ∧
    (∀ (env : Env) (status : String), env.ubus = true → env.has_subscribers = true →
      alloc_count (event_calls env) ≤ env.room → env.ubus_notify = .UBUS_STATUS_OK →
      (ubus_dhcp_event env status).status = .UBUS_STATUS_OK ∧
      (ubus_dhcp_event env status).notified = [(status, event_calls env)]) := by
  refine ⟨?_, ?_, ?_, ?_⟩
  · intro name bs fuel fqdn hne
    refine ⟨fun hfail => fqdn_loop_fail name bs fuel fqdn hne hfail, fun hok => ⟨by omega, ?_⟩⟩
    exact fqdn_loop_ok name bs fuel fqdn hne hok
  · intro name ns bad hns hbad hfail
    have h := fqdn_to_blob_names_then_fail name ns bad hns hbad hfail
    refine ⟨h, ?_⟩
    rw [h]
    apply blob_parse_array
    have h2 := blob_apply_items [] name
      ((ns.map name_text ++ [[]]).map fun t => (⟨name, .str (.lit (chars t))⟩ : Field)) []
    simpa [List.map_map, Function.comp_def] using h2
  · intro name bs fqdn
    exact ⟨fqdn_loop_length name bs _ fqdn,
      fun fuel hf => fqdn_loop_fuel name bs fuel _ fqdn hf (Nat.le_refl _)⟩
  · intro env status hbus hsub hroom hnotify
    rw [event_run_ok env status hbus hsub hroom hnotify]
    exact ⟨rfl, rfl⟩

set_option maxRecDepth 8192 in
/-- Witness of C19: `a.example` followed by a compression pointer past the end
of the buffer and by the name `b`: the array holds `a.example` and one empty
string, and `b` is not decoded. -/
theorem fqdn_to_blob_expansion_failure_witness :
    fqdn_to_blob "DOMAINS" (names_wire [name_a_example] ++ [0xC0, 0x50, 1, 98, 0]) =
      [.open_array "DOMAINS", .string_buffer "DOMAINS" (.lit "a.example"),
        .string_buffer "DOMAINS" (.lit ""), .close_array] :=
  (fqdn_to_blob_expansion_failure.2.1 "DOMAINS" [name_a_example] [0xC0, 0x50, 1, 98, 0]
    (by decide) (by decide) (by decide)).1

/-! ## `search_to_blob` -/

theorem search_loop_entries (start : entry_view) (len sz : Nat) (hsz : 0 < sz)
    (es : List odhcp6c_entry) : ∀ (off fuel : Nat), laid_out start sz off es = true →
      off + table_bytes sz es ≤ len → es.length ≤ fuel →
      entry_fits start len sz (off + table_bytes sz es) = false →
      search_to_blob_loop start len sz fuel off =
        (es.filter fun e => decide (e.valid ≠ 0)).map search_string := by
  induction es with
  | nil =>
    intro off fuel _ _ _ hstop
    simp only [table_bytes, Nat.add_zero, entry_fits, decide_eq_false_iff_not] at hstop
    cases fuel with
    | zero => rfl
    | succ f => simp only [search_to_blob_loop, if_neg hstop, List.filter_nil, List.map_nil]
  | cons e es ih =>
    intro off fuel hlaid hlen hfuel hstop
    simp only [laid_out, Bool.and_eq_true, decide_eq_true_eq] at hlaid
    obtain ⟨he, hrest⟩ := hlaid
    simp only [table_bytes] at hlen hstop
    obtain ⟨f, rfl⟩ : ∃ f, fuel = f + 1 :=
      ⟨fuel - 1, by simp only [List.length_cons] at hfuel; omega⟩
    have hcond : off < len ∧ off + sz + (start off).auxlen ≤ len := by
      rw [he]
      omega
    have hrec := ih (off + sz + e.auxlen) f hrest (by omega)
      (by simp only [List.length_cons] at hfuel; omega)
      (by rw [← hstop]; congr 1; omega)
    rw [search_to_blob_loop, if_pos hcond, he, hrec]
    by_cases hv : e.valid = 0
    · simp [hv]
    · simp [hv, search_string]

theorem table_length_le (sz : Nat) (hsz : 0 < sz) (es : List odhcp6c_entry) :
    es.length ≤ table_bytes sz es := by
  induction es with
  | nil => exact Nat.le_refl _
  | cons e es ih =>
    simp only [List.length_cons, table_bytes]
    omega

theorem search_split (start : entry_view) (len sz : Nat) (hsz : 0 < sz) (n : Nat) :
    ∀ off : Nat, len - off ≤ n → off ≤ len →
      ∃ es : List odhcp6c_entry, laid_out start sz off es = true ∧
        off + table_bytes sz es ≤ len ∧
        entry_fits start len sz (off + table_bytes sz es) = false := by
  induction n with
  | zero =>
    intro off h hle
    refine ⟨[], rfl, by simp only [table_bytes]; omega, ?_⟩
    simp only [table_bytes, entry_fits, decide_eq_false_iff_not]
    omega
  | succ n ih =>
    intro off h hle
    cases hf : entry_fits start len sz off with
    | false => exact ⟨[], rfl, by simp only [table_bytes]; omega, by simpa [table_bytes] using hf⟩
    | true =>
      simp only [entry_fits, decide_eq_true_eq] at hf
      obtain ⟨es, hl, hb, hs⟩ := ih (off + sz + (start off).auxlen) (by omega) (by omega)
      refine ⟨start off :: es, ?_, ?_, ?_⟩
      · simp only [laid_out, decide_True, Bool.true_and, hl]
      · simp only [table_bytes]
        omega
      · rw [← hs]
        simp only [table_bytes]
        congr 1
        omega

theorem search_loop_fuel (start : entry_view) (len sz : Nat) (hsz : 0 < sz) (fuel : Nat)
    (hfuel : len ≤ fuel) :
    search_to_blob_loop start len sz fuel 0 = search_to_blob_loop start len sz len 0 := by
  obtain ⟨es, hl, hb, hs⟩ := search_split start len sz hsz len 0 (by omega) (Nat.zero_le _)
  have hle := table_length_le sz hsz es
  rw [search_loop_entries start len sz hsz es 0 fuel hl hb (by omega) hs,
    search_loop_entries start len sz hsz es 0 len hl hb (by omega) hs]

/-- C20 as stated fails: for a table of one valid entry whose 3 auxiliary
bytes are `a`, NUL, `b`, the string `search_to_blob` adds is `a`, the C string
in the buffer, and not the 3 auxiliary bytes. -/
theorem search_to_blob_string_stops_at_nul :
    search_to_blob "RA_DOMAINS" (fun _ => sample_search_nul) 59 56 =
      [.open_array "RA_DOMAINS", .string_buffer "" (.lit "a"), .close_array] ∧
    search_to_blob "RA_DOMAINS" (fun _ => sample_search_nul) 59 56 ≠
      [.open_array "RA_DOMAINS", search_string_claimed sample_search_nul, .close_array] := by
  decide

/-- C20, amended: for every search-domain table, with `sizeof(entry) > 0`,
`search_to_blob` walks the entries with the variable stride and visits exactly
the leading entries that lie wholly inside the buffer: when the entries `es`
are laid out from offset 0 and no whole entry starts after them, the calls are
the open of the array, one string per entry of `es` with `valid != 0`, in table
order, holding the C string of that entry's `auxlen` auxiliary bytes (all of
them when none is NUL), and the close of the array; entries with `valid == 0`
add nothing; every table splits in this way; and the walk ends within `len`
rounds. -/
theorem search_to_blob_entries (name : String) (start : entry_view) (len sz : Nat)
    (hsz : 0 < sz) :
    (∀ es : List odhcp6c_entry, laid_out start sz 0 es = true → table_bytes sz es ≤ len →
      entry_fits start len sz (table_bytes sz es) = false →
      search_to_blob name start len sz =
        [.open_array name] ++
          ((es.filter fun e => decide (e.valid ≠ 0)).map search_string) ++
          [.close_array]) ∧
    (∃ es : List odhcp6c_entry, laid_out start sz 0 es = true ∧ table_bytes sz es ≤ len ∧
      entry_fits start len sz (table_bytes sz es) = false) ∧
    (∀ e : odhcp6c_entry, (∀ b ∈ e.auxtarget.take e.auxlen, b.val ≠ 0) →
      search_string e = search_string_claimed e) ∧
    (∀ fuel : Nat, len ≤ fuel →
      search_to_blob_loop start len sz fuel 0 = search_to_blob_loop start len sz len 0) := by
  refine ⟨?_, ?_, ?_, fun fuel hf => search_loop_fuel start len sz hsz fuel hf⟩
  · intro es hl hb hs
    have hle := table_length_le sz hsz es
    unfold search_to_blob
    rw [search_loop_entries start len sz hsz es 0 len hl (by omega) (by omega)
      (by simpa using hs)]
  · obtain ⟨es, hl, hb, hs⟩ := search_split start len sz hsz len 0 (by omega) (Nat.zero_le _)
    exact ⟨es, hl, by omega, by simpa using hs⟩
  · intro e he
    simp only [search_string, search_string_claimed, cstr_of_no_nul _ he]

/-- Witness of amended C20: a table of two entries of 59 bytes, `lan` and an
entry with `valid == 0`, followed by 10 bytes that hold no whole entry, yields
the one string `lan`. -/
theorem search_to_blob_entries_witness :
    search_to_blob "RA_DOMAINS" sample_search_table 128 56 =
      [.open_array "RA_DOMAINS", .string_buffer "" (.lit "lan"), .close_array] :=
  (search_to_blob_entries "RA_DOMAINS" sample_search_table 128 56 (by decide)).1
    [sample_search_lan, { sample_search_lan with valid := 0 }] (by decide) (by decide)
    (by decide)

/-! ## `ubus_dhcp_event`: exits and order -/

theorem event_run_no_memory (env : Env) (status : String) (hbus : env.ubus = true)
    (hsub : env.has_subscribers = true)
    (hfail : (blob_alloc env.room (event_calls env)).2 = false) :
    ubus_dhcp_event env status =
      ⟨.UBUS_STATUS_NO_MEMORY, (blob_alloc env.room (event_calls env)).1, [], false⟩ := by
  unfold ubus_dhcp_event
  rw [if_neg (by simp [hbus, hsub]), if_pos hfail]

set_option maxRecDepth 8192 in
/-- C11 (the code at the failing input): in the sample environment with no
room for a string buffer, the first allocation, for the `target` of the
prefix entry, fails: `ubus_dhcp_event` returns the no-memory status and
`ubus_notify` is not invoked, but `blob_buf_free` is not called either, while
the successful run of the same environment with room does call it. -/
theorem ubus_dhcp_event_no_memory_keeps_buffer :
    ubus_dhcp_event sample_env_no_room "bound" =
      ⟨.UBUS_STATUS_NO_MEMORY,
        [.open_array "SERVER", .close_array, .open_array "RDNSS", .close_array,
          .open_array "SNTP_IP", .close_array, .open_array "NTP_IP", .close_array,
          .open_array "NTP_FQDN", .close_array, .open_array "SIP_IP", .close_array,
          .open_array "DOMAINS", .close_array, .open_array "SIP_DOMAIN", .close_array,
          .open_array "AFTR", .close_array, .open_array "CER", .close_array,
          .open_array "PREFIXES", .open_table "PREFIXES"],
        [], false⟩ ∧
    (ubus_dhcp_event (sample_env true) "bound").status = .UBUS_STATUS_OK ∧
    (ubus_dhcp_event (sample_env true) "bound").freed = true := by
  decide

theorem no_array_append (a b : List Call) : no_array (a ++ b) = (no_array a && no_array b) := by
  simp [no_array, List.all_append]

theorem no_array_cons (c : Call) (cs : List Call) :
    no_array (c :: cs) = (!c.is_array && no_array cs) := rfl

theorem no_array_flatMap {α : Type} (l : List α) (f : α → List Call)
    (h : ∀ x ∈ l, no_array (f x) = true) : no_array (l.flatMap f) = true := by
  induction l with
  | nil => rfl
  | cons a l ih =>
    rw [List.flatMap_cons, no_array_append, h a (List.mem_cons_self _ _),
      ih fun x hx => h x (List.mem_cons_of_mem _ hx)]
    rfl

theorem no_array_map {α : Type} (l : List α) (f : α → Call)
    (h : ∀ x ∈ l, (f x).is_array = false) : no_array (l.map f) = true := by
  induction l with
  | nil => rfl
  | cons a l ih =>
    rw [List.map_cons, no_array_cons, h a (List.mem_cons_self _ _),
      ih fun x hx => h x (List.mem_cons_of_mem _ hx)]
    rfl

theorem no_array_fqdn_loop (name : String) (bs : Nat) :
    ∀ (fuel : Nat) (fqdn : List Byte), no_array (fqdn_to_blob_loop name bs fuel fqdn) = true := by
  intro fuel
  induction fuel with
  | zero => intro fqdn; rfl
  | succ n ih =>
    intro fqdn
    unfold fqdn_to_blob_loop
    split
    · rfl
    · split
      · rfl
      · rw [no_array_cons, ih]
        rfl

theorem no_array_portparams (data : List Byte) :
    no_array (s46_to_blob_portparams data) = true := by
  unfold s46_to_blob_portparams
  apply no_array_flatMap
  intro o _
  dsimp only
  split <;> rfl

theorem no_array_rule_companions (state : odhcp6c_state) (data : List Byte) :
    no_array (s46_rule_companions state data) = true := by
  unfold s46_rule_companions
  apply no_array_flatMap
  intro o _
  dsimp only
  split
  · rfl
  · split
    · split <;> rfl
    · rfl

theorem no_array_bind_companions (data : List Byte) :
    no_array (s46_bind_companions data) = true := by
  unfold s46_bind_companions
  apply no_array_flatMap
  intro o _
  dsimp only
  split <;> rfl

theorem no_array_s46_iter (state : odhcp6c_state) (type : String) (data : List Byte)
    (o : dhcpv6_option) : no_array (s46_to_blob_iter state type data o) = true := by
  unfold s46_to_blob_iter
  rw [no_array_cons]
  split
  · split
    · rfl
    · simp only [no_array_append, no_array_portparams, no_array_rule_companions]
      rfl
  · split
    · split
      · rfl
      · simp only [no_array_append, no_array_portparams, no_array_bind_companions]
        rfl
    · rfl

theorem no_array_entry_iter (name : String) (type : entry_type) (e : odhcp6c_entry) :
    no_array (entry_to_blob_iter name type e) = true := by
  unfold entry_to_blob_iter
  rw [no_array_cons]
  split
  · rfl
  · cases type <;> simp only [ne_eq, reduceCtorEq, not_false_eq_true, not_true_eq_false,
      if_true, if_false, false_and, true_and]
    · rfl
    · rfl
    · split <;> rfl
    · split <;> split <;> rfl

theorem no_array_search_loop (start : entry_view) (len sz : Nat) :
    ∀ (fuel off : Nat), no_array (search_to_blob_loop start len sz fuel off) = true := by
  intro fuel
  induction fuel with
  | zero => intro off; rfl
  | succ n ih =>
    intro off
    unfold search_to_blob_loop
    split
    · rw [no_array_append, ih]
      split <;> rfl
    · rfl

theorem top_names_skip (body : List Call) (rest : List Call) (h : no_array body = true) :
    top_names true (body ++ rest) = top_names true rest := by
  induction body with
  | nil => rfl
  | cons c cs ih =>
    rw [no_array_cons, Bool.and_eq_true] at h
    obtain ⟨hc, hcs⟩ := h
    rw [List.cons_append]
    cases c <;> first
      | (simp [Call.is_array] at hc; done)
      | (simp only [top_names]; exact ih hcs)

theorem top_names_block (inside : Bool) (n : String) (body rest : List Call)
    (h : no_array body = true) :
    top_names inside ([.open_array n] ++ body ++ [.close_array] ++ rest) =
      n :: top_names false rest := by
  have hl : [Call.open_array n] ++ body ++ [.close_array] ++ rest =
      .open_array n :: (body ++ .close_array :: rest) := by
    simp only [List.append_assoc, List.cons_append, List.nil_append]
  rw [hl]
  have h1 : top_names inside (.open_array n :: (body ++ .close_array :: rest)) =
      n :: top_names true (body ++ .close_array :: rest) := by
    cases inside <;> rfl
  rw [h1, top_names_skip body _ h]
  rfl

theorem top_names_ipv6 (inside : Bool) (name : String) (addr : List Byte) (cnt : Nat)
    (rest : List Call) :
    top_names inside (ipv6_to_blob name addr cnt ++ rest) = name :: top_names false rest := by
  unfold ipv6_to_blob
  exact top_names_block inside name _ rest (no_array_map _ _ fun _ _ => rfl)

theorem top_names_fqdn (inside : Bool) (name : String) (fqdn : List Byte) (rest : List Call) :
    top_names inside (fqdn_to_blob name fqdn ++ rest) = name :: top_names false rest := by
  unfold fqdn_to_blob
  exact top_names_block inside name _ rest (no_array_fqdn_loop name _ _ _)

theorem top_names_entry (inside : Bool) (name : String) (data : entry_view) (len sz : Nat)
    (type : entry_type) (rest : List Call) :
    top_names inside (entry_to_blob name data len sz type ++ rest) =
      name :: top_names false rest := by
  unfold entry_to_blob
  exact top_names_block inside name _ rest
    (no_array_flatMap _ _ fun i _ => no_array_entry_iter name type _)

theorem top_names_search (inside : Bool) (name : String) (start : entry_view) (len sz : Nat)
    (rest : List Call) :
    top_names inside (search_to_blob name start len sz ++ rest) =
      name :: top_names false rest := by
  unfold search_to_blob
  exact top_names_block inside name _ rest (no_array_search_loop start len sz _ _)

theorem top_names_s46 (inside : Bool) (state : odhcp6c_state) (data : List Byte)
    (hne : data ≠ []) (rest : List Call) :
    top_names inside (s46_to_blob state data ++ rest) =
      s46_name state :: top_names false rest := by
  rw [s46_to_blob_eq state data hne]
  exact top_names_block inside _ _ rest
    (no_array_flatMap _ _ fun o _ => no_array_s46_iter state _ data o)

theorem top_names_strings {α : Type} (l : List α) (f : α → String) (g : α → Text)
    (rest : List Call) :
    top_names false ((l.map fun x => Call.string_buffer (f x) (g x)) ++ rest) =
      l.map f ++ top_names false rest := by
  induction l with
  | nil => rfl
  | cons a l ih =>
    have h1 : top_names false (Call.string_buffer (f a) (g a) ::
        ((l.map fun x => Call.string_buffer (f x) (g x)) ++ rest)) =
        f a :: top_names false ((l.map fun x => Call.string_buffer (f x) (g x)) ++ rest) := rfl
    rw [List.map_cons, List.cons_append, h1, ih]
    rfl

theorem top_names_bin (opts : List Byte) (rest : List Call) :
    top_names false (bin_to_blob opts ++ rest) =
      ((dhcpv6_for_each_option opts).map fun o => "OPTION_" ++ toString o.otype) ++
        top_names false rest := by
  rw [bin_to_blob_eq]
  simp only [option_field]
  exact top_names_strings (dhcpv6_for_each_option opts)
    (fun o : dhcpv6_option => "OPTION_" ++ toString o.otype)
    (fun o : dhcpv6_option => Text.lit (String.mk (script_hexlify o.odata))) rest

theorem blob_step_names (c c1 : Cursor) (x : Call) (xs : List Call)
    (h : blob_step c x = some c1) :
    c1.names ++ top_names c1.inside xs = c.names ++ top_names c.inside (x :: xs) := by
  cases c <;> cases x <;>
    simp only [blob_step, Cursor.put, Option.some.injEq, reduceCtorEq] at h <;>
    subst h <;>
    simp [Cursor.names, Cursor.inside, top_names, Call.name, Attr.name]

theorem blob_apply_names (xs : List Call) : ∀ (c c1 : Cursor), blob_apply c xs = some c1 →
    c1.names = c.names ++ top_names c.inside xs := by
  induction xs with
  | nil =>
    intro c c1 h
    simp only [blob_apply, Option.some.injEq] at h
    subst h
    cases hc : c.inside <;> simp [top_names]
  | cons x xs ih =>
    intro c c1 h
    simp only [blob_apply] at h
    cases hs : blob_step c x with
    | none => rw [hs] at h; simp at h
    | some c2 =>
      rw [hs] at h
      rw [ih c2 c1 h, blob_step_names c c2 x xs hs]

theorem blob_parse_names (calls : List Call) (doc : Document)
    (h : blob_parse calls = some doc) : doc.map Attr.name = top_names false calls := by
  unfold blob_parse at h
  cases ha : blob_apply (.top []) calls with
  | none => rw [ha] at h; simp at h
  | some c =>
    rw [ha] at h
    cases c with
    | top d =>
      simp only [Option.some.injEq] at h
      subst h
      have := blob_apply_names calls _ _ ha
      simpa [Cursor.names, Cursor.inside] using this
    | in_array d n es => simp at h
    | in_table d n es t fs => simp at h

theorem blob_parse_last_string (xs : List Call) (n : String) (t : Text) (doc : Document)
    (h : blob_parse (xs ++ [.string_buffer n t]) = some doc) :
    doc.getLast? = some (.field ⟨n, .str t⟩) := by
  unfold blob_parse at h
  rw [blob_apply_append] at h
  cases hx : blob_apply (.top []) xs with
  | none => rw [hx] at h; simp at h
  | some c =>
    rw [hx] at h
    cases c with
    | top d =>
      simp only [Option.some_bind, blob_apply, blob_step, Cursor.put, Option.some.injEq] at h
      subst h
      simp
    | in_array d a es =>
      simp [blob_apply, blob_step, Cursor.put] at h
    | in_table d a es tn fs =>
      simp [blob_apply, blob_step, Cursor.put] at h

/-- C12: on a successful run of `ubus_dhcp_event` with the client bound and the
three softwire buffers non-empty, the document is handed to `ubus_notify`
exactly once, tagged with the caller's status string, and released; the
top-level attributes its calls create are, in this order, `SERVER`, `RDNSS`,
`SNTP_IP`, `NTP_IP`, `NTP_FQDN`, `SIP_IP`, `DOMAINS`, `SIP_DOMAIN`, `AFTR`,
`CER`, `MAPE`, `MAPT`, `LW4O6`, one `OPTION_<n>` per custom option,
`PREFIXES`, `ADDRESSES`, `RA_ADDRESSES`, `RA_ROUTES`, `RA_DNS`, `RA_DOMAINS`,
`RA_HOPLIMIT`, `RA_MTU`, `RA_REACHABLE`, `RA_RETRANSMIT` and `PASSTHRU`; and
whenever the calls form a properly nested document, these are the names of its
top-level attributes and the last one is `PASSTHRU`, the hexadecimal text of
the pass-through bytes. -/
theorem ubus_dhcp_event_field_order (env : Env) (status : String)
    (hbus : env.ubus = true) (hsub : env.has_subscribers = true)
    (hbound : env.odhcp6c_is_bound = true)
    (hroom : alloc_count (event_calls env) ≤ env.room)
    (hnotify : env.ubus_notify = .UBUS_STATUS_OK)
    (hmape : env.odhcp6c_get_state .STATE_S46_MAPE ≠ [])
    (hmapt : env.odhcp6c_get_state .STATE_S46_MAPT ≠ [])
    (hlw : env.odhcp6c_get_state .STATE_S46_LW ≠ []) :
    ubus_dhcp_event env status =
      ⟨.UBUS_STATUS_OK, event_calls env, [(status, event_calls env)], true⟩ ∧
    top_names false (event_calls env) =
      ["SERVER", "RDNSS", "SNTP_IP", "NTP_IP", "NTP_FQDN", "SIP_IP", "DOMAINS", "SIP_DOMAIN",
        "AFTR", "CER", "MAPE", "MAPT", "LW4O6"] ++
      ((dhcpv6_for_each_option (env.odhcp6c_get_state .STATE_CUSTOM_OPTS)).map fun o =>
        "OPTION_" ++ toString o.otype) ++
      ["PREFIXES", "ADDRESSES", "RA_ADDRESSES", "RA_ROUTES", "RA_DNS", "RA_DOMAINS",
        "RA_HOPLIMIT", "RA_MTU", "RA_REACHABLE", "RA_RETRANSMIT", "PASSTHRU"] ∧
    (∀ doc : Document, blob_parse (event_calls env) = some doc →
      doc.map Attr.name =
        ["SERVER", "RDNSS", "SNTP_IP", "NTP_IP", "NTP_FQDN", "SIP_IP", "DOMAINS", "SIP_DOMAIN",
          "AFTR", "CER", "MAPE", "MAPT", "LW4O6"] ++
        ((dhcpv6_for_each_option (env.odhcp6c_get_state .STATE_CUSTOM_OPTS)).map fun o =>
          "OPTION_" ++ toString o.otype) ++
        ["PREFIXES", "ADDRESSES", "RA_ADDRESSES", "RA_ROUTES", "RA_DNS", "RA_DOMAINS",
          "RA_HOPLIMIT", "RA_MTU", "RA_REACHABLE", "RA_RETRANSMIT", "PASSTHRU"] ∧
      doc.getLast? = some (.field ⟨"PASSTHRU",
        .str (.lit (String.mk (script_hexlify (env.odhcp6c_get_state .STATE_PASSTHRU))))⟩)) := by
  have hnames : top_names false (event_calls env) =
      ["SERVER", "RDNSS", "SNTP_IP", "NTP_IP", "NTP_FQDN", "SIP_IP", "DOMAINS", "SIP_DOMAIN",
        "AFTR", "CER", "MAPE", "MAPT", "LW4O6"] ++
      ((dhcpv6_for_each_option (env.odhcp6c_get_state .STATE_CUSTOM_OPTS)).map fun o =>
        "OPTION_" ++ toString o.otype) ++
      ["PREFIXES", "ADDRESSES", "RA_ADDRESSES", "RA_ROUTES", "RA_DNS", "RA_DOMAINS",
        "RA_HOPLIMIT", "RA_MTU", "RA_REACHABLE", "RA_RETRANSMIT", "PASSTHRU"] := by
    simp only [event_calls, event_calls_head, event_calls_bound, event_calls_tail, hbound,
      if_true, List.append_assoc, top_names_ipv6, top_names_fqdn, top_names_entry,
      top_names_search, top_names_bin, top_names_s46 _ _ _ hmape, top_names_s46 _ _ _ hmapt,
      top_names_s46 _ _ _ hlw, s46_name, reduceCtorEq, if_false, List.cons_append,
      List.nil_append]
    rfl
  refine ⟨event_run_ok env status hbus hsub hroom hnotify, hnames, ?_⟩
  intro doc hdoc
  refine ⟨by rw [blob_parse_names _ _ hdoc, hnames], ?_⟩
  have hsplit : event_calls env =
      (event_calls_head env ++ event_calls_bound env ++
        (entry_to_blob "RA_ADDRESSES" (env.entry_at .STATE_RA_PREFIX)
            (env.odhcp6c_get_state .STATE_RA_PREFIX).length env.sizeof_entry .ENTRY_ADDRESS ++
          entry_to_blob "RA_ROUTES" (env.entry_at .STATE_RA_ROUTE)
            (env.odhcp6c_get_state .STATE_RA_ROUTE).length env.sizeof_entry .ENTRY_ROUTE ++
          entry_to_blob "RA_DNS" (env.entry_at .STATE_RA_DNS)
            (env.odhcp6c_get_state .STATE_RA_DNS).length env.sizeof_entry .ENTRY_HOST ++
          search_to_blob "RA_DOMAINS" (env.entry_at .STATE_RA_SEARCH)
            (env.odhcp6c_get_state .STATE_RA_SEARCH).length env.sizeof_entry ++
          [.add_u32 "RA_HOPLIMIT" env.ra_get_hoplimit,
            .add_u32 "RA_MTU" env.ra_get_mtu,
            .add_u32 "RA_REACHABLE" env.ra_get_reachable,
            .add_u32 "RA_RETRANSMIT" env.ra_get_retransmit])) ++
      [.string_buffer "PASSTHRU"
        (.lit (String.mk (script_hexlify (env.odhcp6c_get_state .STATE_PASSTHRU))))] := by
    simp only [event_calls, event_calls_tail, hbound, if_true, List.append_assoc,
      List.cons_append, List.nil_append]
  rw [hsplit] at hdoc
  exact blob_parse_last_string _ _ _ doc hdoc

set_option maxRecDepth 16384 in
/-- Witness of C12: in the sample environment with every buffer non-empty the
run succeeds, the calls form a properly nested document, and its top-level
names come in the stated order, with `OPTION_99` for the custom option. -/
theorem ubus_dhcp_event_field_order_witness :
    (ubus_dhcp_event sample_env_full "bound").notified =
      [("bound", event_calls sample_env_full)] ∧
    top_names false (event_calls sample_env_full) =
      ["SERVER", "RDNSS", "SNTP_IP", "NTP_IP", "NTP_FQDN", "SIP_IP", "DOMAINS", "SIP_DOMAIN",
        "AFTR", "CER", "MAPE", "MAPT", "LW4O6", "OPTION_99", "PREFIXES", "ADDRESSES",
        "RA_ADDRESSES", "RA_ROUTES", "RA_DNS", "RA_DOMAINS", "RA_HOPLIMIT", "RA_MTU",
        "RA_REACHABLE", "RA_RETRANSMIT", "PASSTHRU"] ∧
    (blob_parse (event_calls sample_env_full)).isSome = true :=
  ⟨congrArg Run.notified (ubus_dhcp_event_field_order sample_env_full "bound" rfl rfl rfl
      (by decide) rfl (by decide) (by decide) (by decide)).1,
    (ubus_dhcp_event_field_order sample_env_full "bound" rfl rfl rfl
      (by decide) rfl (by decide) (by decide) (by decide)).2.1,
    by decide⟩

end Odhcp6c
